import Mathlib

/-!
# PatternSpace: a verification development

A shallow embedding of the simulation core of PatternSpace (`vector2d.h`, `mass.h`,
`mass.cpp`, `lock.h`, `solid.h`, `solid.cpp`, `ship.cpp`, `factories.cpp`, `universe.cpp`, and
of `image.h` what `Universe::drawAll` uses).

Conventions of the embedding.

* A C++ `double` is an element of an arbitrary linearly ordered field `K` with a floor
  function: arithmetic is exact, there is no rounding and no NaN.  Every definition is
  computable and can be run at `K := ℚ`.  The zero of `K` is the positive zero of the
  doubles; the quotient `_x/_y` in `Vector2d::angle`, whose divisor can be zero while the
  dividend is not, is an infinity there, and is modelled as such.  Where a statement is about
  a division by zero (`gravitateChecked`, `collisionChecked`), the test of the divisor is the
  test on the doubles: a divisor that is a product is zero when the product underflows
  (`productIsZero`).
* The functions of `<math.h>` (`sqrt`, `sin`, `cos`, `atan`) are not part of the repository;
  they are a parameter `L : Libm K`.  Where a property needs the square root to be exact at
  some argument, the theorem says so with `Libm.SqrtExactAt`.
* A mutating member function `T::f(args)` is a function `T → args → T` returning the new
  object; a free function mutating two objects returns the pair of new objects.
* A `boost::shared_ptr<Solid>` is a handle, a natural number that indexes a `Heap` of
  solids.
* In the sequential methods the simulation thread runs alone and every semaphore is free
  when a method starts.  A `Lock` is a blocking wait on the semaphore of its target (initial
  value 1): a method that would wait for ever on a semaphore the thread holds itself has the
  result `none`, and so has a loop that runs out of `fuel`.
* A member function that is declared with a return type and whose body has no `return`
  statement (`Universe::normalizeAll`, `Universe::simulateAll`, `Screen::origin(newOrigin)`)
  does not return: its result is an `Outcome`, which is `undefined` with the state in which
  control reaches the closing brace.  The behaviour of the program is undefined from there.
* The simulation thread and the paint thread of `main.cpp` together are a `World` with a
  step function per thread: an execution is an interleaving of statements of the two.  The
  statements are followed in the order of the source, past the closing brace of
  `normalizeAll` too, as a build does that lets the call come back.
-/

namespace PatternSpace

/-! ## `<math.h>` -/

/-- The functions of `<math.h>` the program calls, over the scalar type `K`. -/
structure Libm (K : Type) where
  /-- The function `sqrt`. -/
  sqrt : K → K
  /-- The function `sin`. -/
  sin : K → K
  /-- The function `cos`. -/
  cos : K → K
  /-- The function `atan`. -/
  atan : K → K
  /-- The value of `atan` at the infinity `+∞` of the doubles. -/
  atanPosInf : K
  /-- The value of `atan` at the infinity `-∞` of the doubles. -/
  atanNegInf : K

/-- The square root of `L` is exact at `s`: `L.sqrt s` is the non-negative root of `s`. -/
def Libm.SqrtExactAt {K : Type} [LinearOrderedField K] (L : Libm K) (s : K) : Prop :=
  0 ≤ L.sqrt s ∧ L.sqrt s * L.sqrt s = s

/-- The C function `fmod x y`: `x - n * y` where `n` is `x / y` with its fractional part
truncated (rounded towards zero). -/
def fmod {K : Type} [LinearOrderedField K] [FloorRing K] (x y : K) : K :=
  x - ((if 0 ≤ x / y then ⌊x / y⌋ else ⌈x / y⌉ : ℤ) : K) * y

/-! ## `vector2d.h` -/

/-- The class `Vector2d`: a pair of doubles. -/
@[ext]
structure Vector2d (K : Type) where
  /-- The member `_x`. -/
  x : K
  /-- The member `_y`. -/
  y : K
deriving DecidableEq, Repr

namespace Vector2d

variable {K : Type} [LinearOrderedField K]

/-- The default constructor `Vector2d()`. -/
instance : Zero (Vector2d K) := ⟨⟨0, 0⟩⟩

/-- The constructor `Vector2d(double angle)`: the unit vector at `angle` degrees. -/
def ofAngle (L : Libm K) (angle : K) : Vector2d K :=
  let radians := 0.0174532925 * angle
  ⟨L.sin radians, - L.cos radians⟩

/-- The member `magnitude()`. -/
def magnitude (L : Libm K) (v : Vector2d K) : K :=
  L.sqrt (v.x * v.x + v.y * v.y)

/-- The member `unit()`: a unit vector in the same direction, or `(0,0)`. -/
def unit (L : Libm K) (v : Vector2d K) : Vector2d K :=
  let mag := v.magnitude L
  if mag > 0 then ⟨v.x / mag, v.y / mag⟩ else ⟨0, 0⟩

/-- The member `rotatedBy(double angle)`. -/
def rotatedBy (L : Libm K) (v : Vector2d K) (angle : K) : Vector2d K :=
  let radians := 0.0174532925 * angle
  ⟨v.x * L.sin radians + v.y * L.cos radians, v.y * L.sin radians - v.x * L.cos radians⟩

/-- The member `angle()`.  Where `_y` is zero, the quotient `_x/_y` of the nonzero `_x` by
the (positive) zero is the infinity with the sign of `_x`, and `atan` is called on it. -/
def angle (L : Libm K) (v : Vector2d K) : K :=
  if v.x = 0 then
    if v.y ≤ 0 then 0 else 180
  else
    let firstAndThirdQuadrantAngle :=
      - (if v.y = 0 then (if 0 < v.x then L.atanPosInf else L.atanNegInf)
         else L.atan (v.x / v.y))
    if v.y ≤ 0 then firstAndThirdQuadrantAngle * 57.2957795
    else 180 + 57.2957795 * firstAndThirdQuadrantAngle

/-- The friend `dot(left, right)`. -/
def dot (left right : Vector2d K) : K :=
  left.x * right.x + left.y * right.y

/-- The friend `cross(left, right)`, as written in the source. -/
def cross (left right : Vector2d K) : K :=
  (left.x * left.y) - (left.y * right.x)

/-- The friend `operator+`. -/
instance : Add (Vector2d K) := ⟨fun left right => ⟨left.x + right.x, left.y + right.y⟩⟩

/-- The friend `operator-` (binary). -/
instance : Sub (Vector2d K) := ⟨fun left right => ⟨left.x - right.x, left.y - right.y⟩⟩

/-- The member `operator-` (unary). -/
instance : Neg (Vector2d K) := ⟨fun v => ⟨- v.x, - v.y⟩⟩

/-- The friend `operator*(const Vector2d&, double)`. -/
instance : HMul (Vector2d K) K (Vector2d K) := ⟨fun vector scale => ⟨vector.x * scale, vector.y * scale⟩⟩

/-- The friend `operator*(double, const Vector2d&)`: `vector * scale`. -/
instance : HMul K (Vector2d K) (Vector2d K) := ⟨fun scale vector => vector * scale⟩

/-- The friend `operator/`: `vector * (1.0 / scale)`. -/
instance : HDiv (Vector2d K) K (Vector2d K) := ⟨fun vector scale => vector * (1 / scale)⟩

end Vector2d

/-! ## `mass.h`, `mass.cpp` -/

open Vector2d (dot cross)

/-- The abstract base class `Mass`: the pure virtual interface.  The two overloads of `push`
and `hit` that take an offset are `pushOffset` and `hitOffset`. -/
class Mass (K : outParam Type) (M : Type) where
  /-- The method `push(force)`. -/
  push : M → Vector2d K → M
  /-- The method `hit(impulse)`. -/
  hit : Libm K → M → Vector2d K → M
  /-- The method `push(force, offset)`. -/
  pushOffset : Libm K → M → Vector2d K → Vector2d K → M
  /-- The method `hit(impulse, offset)`. -/
  hitOffset : Libm K → M → Vector2d K → Vector2d K → M
  /-- The method `torque(torque)`. -/
  torque : M → K → M
  /-- The method `twist(suddenTorque)`. -/
  twist : M → K → M
  /-- The method `step(deltaTime)`. -/
  step : Libm K → M → K → M
  /-- The method `translate(deltaPosition)`. -/
  translate : M → Vector2d K → M
  /-- The method `mass()`. -/
  mass : M → K
  /-- The method `moment()`. -/
  moment : M → K
  /-- The method `position()`. -/
  position : M → Vector2d K
  /-- The method `velocity()`. -/
  velocity : M → Vector2d K
  /-- The method `angle()`. -/
  angle : Libm K → M → K
  /-- The method `rotation()`. -/
  rotation : M → K
  /-- The method `radius()`. -/
  radius : M → K
  /-- The method `isDead()`. -/
  isDead : M → Bool

section MassDefaults

variable {K : Type} [LinearOrderedField K]

/-- The default implementation `Mass::push(force, offset)`, in terms of `push` and
`torque`. -/
def Mass.pushOffsetDefault {M : Type} (push : M → Vector2d K → M) (torque : M → K → M)
    (L : Libm K) (self : M) (force offset : Vector2d K) : M :=
  let self := push self force
  if offset.magnitude L > 0.0001 then torque self (cross force offset) else self

/-- The default implementation `Mass::hit(impulse, offset)`, in terms of `hit` and
`twist`. -/
def Mass.hitOffsetDefault {M : Type} (hit : M → Vector2d K → M) (twist : M → K → M)
    (L : Libm K) (self : M) (impulse offset : Vector2d K) : M :=
  let self := hit self impulse
  if offset.magnitude L > 0.0001 then twist self (cross impulse offset) else self

/-- The default implementation `Mass::moment()`: the moment of a sphere. -/
def Mass.momentDefault {M : Type} (mass radius : M → K) (self : M) : K :=
  let r := radius self
  (2.0 / 5.0) * mass self * r * r

end MassDefaults

/-- Which class of the `NewtonianMass` family an object belongs to: `NewtonianMass` itself,
or one of its subclasses `FrictionMass` (with its two coefficients) and `LinearMass`. -/
inductive MassClass (K : Type) where
  /-- The class `NewtonianMass`. -/
  | newtonian : MassClass K
  /-- The class `FrictionMass`, with its members `velocityFriction` and `turnFriction`. -/
  | friction (velocityFriction turnFriction : K) : MassClass K
  /-- The class `LinearMass`. -/
  | linear : MassClass K
deriving DecidableEq, Repr

/-- The class `NewtonianMass` and its subclasses: the private members, and the dynamic
class of the object. -/
structure NewtonianMass (K : Type) where
  /-- The dynamic class of the object. -/
  cls : MassClass K
  /-- The mass. -/
  m : K
  /-- The moment of inertia. -/
  I : K
  /-- The current angle. -/
  a : K
  /-- The angular rate of rotation (omega). -/
  o : K
  /-- The total torque. -/
  tsum : K
  /-- The total sudden torque. -/
  stsum : K
  /-- The radius. -/
  r : K
  /-- The position. -/
  p : Vector2d K
  /-- The velocity. -/
  v : Vector2d K
  /-- The total force. -/
  fsum : Vector2d K
  /-- The total impulse. -/
  isum : Vector2d K
deriving DecidableEq, Repr

namespace NewtonianMass

variable {K : Type} [LinearOrderedField K]

/-- The constructor `NewtonianMass(mass, moment, radius, position, velocity, angle,
rotation)`. -/
def new (mass moment radius : K) (position velocity : Vector2d K) (angle rotation : K) :
    NewtonianMass K :=
  { cls := .newtonian, m := mass, I := moment, r := radius, p := position, v := velocity,
    a := angle, o := rotation, tsum := 0, stsum := 0, isum := ⟨0, 0⟩, fsum := ⟨0, 0⟩ }

/-- The constructor `FrictionMass(mass, ..., rotation, velocityFriction, turnFriction)`. -/
def newFriction (mass moment radius : K) (position velocity : Vector2d K)
    (angle rotation velocityFriction turnFriction : K) : NewtonianMass K :=
  { new mass moment radius position velocity angle rotation with
    cls := .friction velocityFriction turnFriction }

/-- The constructor `LinearMass(mass, moment, radius, position, velocity)`. -/
def newLinear (mass moment radius : K) (position velocity : Vector2d K) : NewtonianMass K :=
  { new mass moment radius position velocity 0 0 with cls := .linear }

/-- The method `translate`. -/
def translate (self : NewtonianMass K) (deltaPosition : Vector2d K) : NewtonianMass K :=
  { self with p := self.p + deltaPosition }

/-- The method `push(force)`. -/
def push (self : NewtonianMass K) (force : Vector2d K) : NewtonianMass K :=
  { self with fsum := self.fsum + force }

/-- The method `hit(impulse)`. -/
def hit (self : NewtonianMass K) (impulse : Vector2d K) : NewtonianMass K :=
  { self with isum := self.isum + impulse }

/-- The method `torque`. -/
def torque (self : NewtonianMass K) (torque : K) : NewtonianMass K :=
  { self with tsum := self.tsum + torque }

/-- The method `twist`. -/
def twist (self : NewtonianMass K) (suddenTorque : K) : NewtonianMass K :=
  { self with stsum := self.stsum + suddenTorque }

/-- The method `mass()`. -/
def mass (self : NewtonianMass K) : K := self.m

/-- The method `moment()`. -/
def moment (self : NewtonianMass K) : K := self.I

/-- The method `position()`. -/
def position (self : NewtonianMass K) : Vector2d K := self.p

/-- The method `velocity()`. -/
def velocity (self : NewtonianMass K) : Vector2d K := self.v

/-- The method `rotation()`. -/
def rotation (self : NewtonianMass K) : K := self.o

/-- The method `radius()`. -/
def radius (self : NewtonianMass K) : K := self.r

/-- The virtual method `angle()`: the member `a`, overridden in `LinearMass` by the angle
of the velocity. -/
def angle (L : Libm K) (self : NewtonianMass K) : K :=
  match self.cls with
  | .linear => self.velocity.angle L
  | _ => self.a

/-- The method `isDead()`. -/
def isDead (_self : NewtonianMass K) : Bool := false

/-- The private method `reset()`: clears all applied forces. -/
def reset (self : NewtonianMass K) : NewtonianMass K :=
  let zero : Vector2d K := ⟨0, 0⟩
  { self with fsum := zero, isum := zero, tsum := 0, stsum := 0 }

/-- The private method `clean()`: cleans up angles. -/
def clean [FloorRing K] (self : NewtonianMass K) : NewtonianMass K :=
  { self with a := fmod self.a 360, o := fmod self.o 360 }

/-- The protected virtual method `totalForce`, with the override of `FrictionMass`. -/
def totalForce (self : NewtonianMass K) (deltaTime : K) : Vector2d K :=
  let base := (self.fsum * deltaTime) + self.isum
  match self.cls with
  | .friction velocityFriction _ =>
    let friction := (- velocityFriction * deltaTime) * self.velocity * self.mass
    base + friction
  | _ => base

/-- The protected virtual method `totalTorque`, with the override of `FrictionMass`. -/
def totalTorque (self : NewtonianMass K) (deltaTime : K) : K :=
  let base := (self.tsum * deltaTime) + self.stsum
  match self.cls with
  | .friction _ turnFriction =>
    let friction := - turnFriction * deltaTime * self.rotation * self.moment
    base + friction
  | _ => base

/-- The method `step(deltaTime)`. -/
def step [FloorRing K] (self : NewtonianMass K) (deltaTime : K) : NewtonianMass K :=
  let self := { self with v := self.v + (self.totalForce deltaTime / self.mass) }
  let self := { self with p := self.p + self.v }
  let self := { self with o := self.o + (self.totalTorque deltaTime / self.moment) }
  let self := { self with a := self.a + self.o }
  self.reset.clean

end NewtonianMass

/-- The class `NewtonianMass` (and its subclasses) implements `Mass`; the offset overloads
take the defaults. -/
instance {K : Type} [LinearOrderedField K] [FloorRing K] : Mass K (NewtonianMass K) where
  push := NewtonianMass.push
  hit := fun _ => NewtonianMass.hit
  pushOffset := Mass.pushOffsetDefault NewtonianMass.push NewtonianMass.torque
  hitOffset := Mass.hitOffsetDefault NewtonianMass.hit NewtonianMass.twist
  torque := NewtonianMass.torque
  twist := NewtonianMass.twist
  step := fun _ self deltaTime => self.step deltaTime
  translate := NewtonianMass.translate
  mass := NewtonianMass.mass
  moment := NewtonianMass.moment
  position := NewtonianMass.position
  velocity := NewtonianMass.velocity
  angle := NewtonianMass.angle
  rotation := NewtonianMass.rotation
  radius := NewtonianMass.radius
  isDead := NewtonianMass.isDead

section Interactions

variable {K : Type} [LinearOrderedField K] {M₁ M₂ : Type} [Mass K M₁] [Mass K M₂]

/-- The interaction `gravitate(mass1, mass2)`: applies the gravitational force between two
masses to each. -/
def gravitate (L : Libm K) (mass1 : M₁) (mass2 : M₂) : M₁ × M₂ :=
  let G : K := 0.001
  let R := Mass.position mass2 - Mass.position mass1
  let r := R.magnitude L
  let threshold :=
    if Mass.radius mass1 > Mass.radius mass2 then 3 * Mass.radius mass1
    else 3 * Mass.radius mass2
  let r := if r < threshold then threshold else r
  let f := G * Mass.mass mass1 * Mass.mass mass2 / (r * r)
  let F := f * R.unit L
  (Mass.push mass1 F, Mass.push mass2 (- F))

/-- The interaction `collision(mass1, mass2)`: an elastic collision along the line of
centres, after the two masses are shifted apart. -/
def collision (L : Libm K) (mass1 : M₁) (mass2 : M₂) : M₁ × M₂ :=
  let R := Mass.position mass2 - Mass.position mass1
  let r := R.magnitude L
  let overlap := (Mass.radius mass1 + Mass.radius mass2) - r
  if overlap < 0 then (mass1, mass2)
  else
    let axis := R.unit L
    let p1 := dot (Mass.velocity mass1) axis * Mass.mass mass1
    let p2 := dot (Mass.velocity mass2) axis * Mass.mass mass2
    let vc := (p1 + p2) / (Mass.mass mass1 + Mass.mass mass2)
    let impulse := 2 * (p1 - vc * Mass.mass mass1)
    let I := axis * impulse
    let mass1 := Mass.translate mass1 ((- axis) * (overlap + 1))
    let mass2 := Mass.translate mass2 (axis * (overlap + 1))
    (Mass.hit L mass1 (- I), Mass.hit L mass2 I)

end Interactions

/-! ## `lock.h` -/

/-- The exception class `Resource::ResourceError`, which has no members. -/
inductive ResourceError where
  /-- The one value of the exception class. -/
  | mk : ResourceError
deriving DecidableEq, Repr

namespace Resource

/-- The conversion of a C `int` to the unsigned 32-bit type `Uint32`: the value modulo
`2^32`. -/
def toUint32 (i : Int) : Nat := (i % 4294967296).toNat

/-- The private static method `boolOrError(Uint32 x)`: changes the SDL error return code to a
C++ exception.  In the comparison `x == -1` the `int` constant `-1` is converted to the
unsigned type of `x`. -/
def boolOrError (x : Nat) : Except ResourceError Bool :=
  if x = 0 then .ok true
  else if x = toUint32 (-1) then .error ResourceError.mk
  else .ok false

/-- The method `tryWait()`.  The function `SDL_SemTryWait` is not part of the repository:
`code` is the `int` it returns, which is converted to the `Uint32` parameter of
`boolOrError`. -/
def tryWait (code : Int) : Except ResourceError Bool :=
  boolOrError (toUint32 code)

/-- The method `waitTimeout(timeout)`.  The function `SDL_SemWaitTimeout` is not part of the
repository: `code` is the `int` it returns for the semaphore and `timeout`. -/
def waitTimeout (_timeout : Int) (code : Int) : Except ResourceError Bool :=
  boolOrError (toUint32 code)

end Resource

/-! ## `solid.h`, `solid.cpp`, `ship.h`, `ship.cpp` -/

/-- The class `NormalSolid`: a `Solid` that delegates the `Mass` interface to its member
`pMass`, and keeps track of age and damage.  The image is not modelled. -/
structure NormalSolid (K : Type) where
  /-- The member `_descriptor`; the value `2` marks a special effect. -/
  descriptor : Int
  /-- The member `dead`. -/
  dead : Bool
  /-- The member `hitPoints`. -/
  hitPoints : Int
  /-- The member `damage`. -/
  damage : K
  /-- The member `life`. -/
  life : Int
  /-- The member `age`. -/
  age : K
  /-- The member `pMass`. -/
  pMass : NewtonianMass K
deriving DecidableEq, Repr

namespace NormalSolid

variable {K : Type} [LinearOrderedField K]

/-- The constructor `NormalSolid(pMass, pImage, hitPoints, lifetime, descriptor)`. -/
def new (pMass : NewtonianMass K) (hitPoints lifetime descriptor : Int) : NormalSolid K :=
  { pMass := pMass, hitPoints := hitPoints, life := lifetime, descriptor := descriptor,
    dead := false, damage := 0, age := 0 }

/-- The method `isDead()`. -/
def isDead (self : NormalSolid K) : Bool := self.dead

/-- The method `hasSpawn()`. -/
def hasSpawn (_self : NormalSolid K) : Bool := false

/-- The method `die()`. -/
def die (self : NormalSolid K) : NormalSolid K := { self with dead := true }

/-- The method `push(force)`. -/
def push (self : NormalSolid K) (force : Vector2d K) : NormalSolid K :=
  { self with pMass := self.pMass.push force }

/-- The method `hit(impulse)`: accrues damage, then delegates. -/
def hit (L : Libm K) (self : NormalSolid K) (impulse : Vector2d K) : NormalSolid K :=
  let self := { self with damage := self.damage + impulse.magnitude L }
  let self := if self.hitPoints ≠ 0 ∧ self.damage > (self.hitPoints : K) then self.die else self
  { self with pMass := self.pMass.hit impulse }

/-- The method `torque`. -/
def torque (self : NormalSolid K) (torque : K) : NormalSolid K :=
  { self with pMass := self.pMass.torque torque }

/-- The method `twist`. -/
def twist (self : NormalSolid K) (suddenTorque : K) : NormalSolid K :=
  { self with pMass := self.pMass.twist suddenTorque }

/-- The method `push(force, offset)`: delegates to `pMass->push(force, offset)`. -/
def pushOffset (L : Libm K) (self : NormalSolid K) (force offset : Vector2d K) :
    NormalSolid K :=
  { self with pMass :=
      Mass.pushOffsetDefault NewtonianMass.push NewtonianMass.torque L self.pMass force offset }

/-- The method `hit(impulse, offset)`: delegates to `pMass->hit(impulse, offset)`. -/
def hitOffset (L : Libm K) (self : NormalSolid K) (impulse offset : Vector2d K) :
    NormalSolid K :=
  { self with pMass :=
      Mass.hitOffsetDefault NewtonianMass.hit NewtonianMass.twist L self.pMass impulse offset }

/-- The method `step(deltaTime)`: advances the age, then delegates. -/
def step [FloorRing K] (self : NormalSolid K) (deltaTime : K) : NormalSolid K :=
  let self := { self with age := self.age + 1 }
  let self := if self.life ≠ 0 ∧ self.age > (self.life : K) then self.die else self
  { self with pMass := self.pMass.step deltaTime }

/-- The method `translate`. -/
def translate (self : NormalSolid K) (deltaPosition : Vector2d K) : NormalSolid K :=
  { self with pMass := self.pMass.translate deltaPosition }

/-- The method `mass()`. -/
def mass (self : NormalSolid K) : K := self.pMass.mass

/-- The method `moment()`. -/
def moment (self : NormalSolid K) : K := self.pMass.moment

/-- The method `position()`. -/
def position (self : NormalSolid K) : Vector2d K := self.pMass.position

/-- The method `velocity()`. -/
def velocity (self : NormalSolid K) : Vector2d K := self.pMass.velocity

/-- The method `angle()`. -/
def angle (L : Libm K) (self : NormalSolid K) : K := self.pMass.angle L

/-- The method `rotation()`. -/
def rotation (self : NormalSolid K) : K := self.pMass.rotation

/-- The method `radius()`. -/
def radius (self : NormalSolid K) : K := self.pMass.radius

end NormalSolid

/-- The class `Ship`: a `NormalSolid` with the state of the user controls. -/
structure Ship (K : Type) extends NormalSolid K where
  /-- The member `upState`. -/
  upState : Bool
  /-- The member `downState`. -/
  downState : Bool
  /-- The member `leftState`. -/
  leftState : Bool
  /-- The member `rightState`. -/
  rightState : Bool
  /-- The member `primaryState`. -/
  primaryState : Bool
  /-- The member `fireMissle`: true while waiting to fire a missile. -/
  fireMissle : Bool
deriving DecidableEq, Repr

/-- The dynamic type of a `Solid`: the repository has the two concrete classes `NormalSolid`
and `Ship`. -/
inductive Solid (K : Type) where
  /-- An object of class `NormalSolid`. -/
  | normal (s : NormalSolid K) : Solid K
  /-- An object of class `Ship`. -/
  | ship (s : Ship K) : Solid K
deriving DecidableEq, Repr

/-! ## `factories.cpp` -/

section Factories

variable {K : Type} [LinearOrderedField K]

/-- The factory `newRock`. -/
def newRock (initialPosition initialVelocity : Vector2d K) : Solid K :=
  .normal (NormalSolid.new
    (NewtonianMass.new 1000 2000 20 initialPosition initialVelocity 0 0.1) 5000 0 0)

/-- The factory `newBigRock`. -/
def newBigRock (initialPosition initialVelocity : Vector2d K) : Solid K :=
  .normal (NormalSolid.new
    (NewtonianMass.new 5000 10000 35 initialPosition initialVelocity 0 0.1) 15000 0 0)

/-- The factory `newAlien`. -/
def newAlien (initialPosition initialVelocity : Vector2d K) : Solid K :=
  .normal (NormalSolid.new
    (NewtonianMass.new 100 200 12 initialPosition initialVelocity 0 0) 200 0 1)

/-- The factory `newExplosion`: a special effect (descriptor `2`). -/
def newExplosion (initialPosition initialVelocity : Vector2d K) : Solid K :=
  .normal (NormalSolid.new
    (NewtonianMass.new 100 200 10 initialPosition initialVelocity 0 0.1) 100 50 2)

/-- The constructor `Ship(pMass, pImage)`. -/
def Ship.new (pMass : NewtonianMass K) : Ship K :=
  { NormalSolid.new pMass 10000 0 3 with
    upState := false, downState := false, leftState := false, rightState := false,
    primaryState := false, fireMissle := false }

/-- The factory `newShip`. -/
def newShip (initialPosition initialVelocity : Vector2d K) : Ship K :=
  Ship.new
    (NewtonianMass.newFriction 100 2000 12 initialPosition initialVelocity 0 0 0.0002 0.002)

/-- The factory `newMissle`. -/
def newMissle (initialPosition initialVelocity : Vector2d K) : Solid K :=
  .normal (NormalSolid.new
    (NewtonianMass.newLinear 30 60 5 initialPosition initialVelocity) 2 500 4)

end Factories

namespace Ship

variable {K : Type} [LinearOrderedField K]

/-- The constant `Ship::ENGINE_THRUST`. -/
def ENGINE_THRUST : K := 0.1

/-- The constant `Ship::ENGINE_REVERSE_THRUST`. -/
def ENGINE_REVERSE_THRUST : K := 0.03

/-- The constant `Ship::TURN_THRUST`. -/
def TURN_THRUST : K := 10

/-- The method `Ship::step(deltaTime)`: applies the forces of the user controls, then lets
`NormalSolid::step` take care of the rest. -/
def step [FloorRing K] (L : Libm K) (self : Ship K) (deltaTime : K) : Ship K :=
  let self :=
    if self.upState then
      let thrust := (ENGINE_THRUST : K) * Vector2d.ofAngle L (self.toNormalSolid.angle L)
      { self with toNormalSolid := self.toNormalSolid.push thrust }
    else self
  let self :=
    if self.downState then
      let thrust := (- ENGINE_REVERSE_THRUST : K) * Vector2d.ofAngle L (self.toNormalSolid.angle L)
      { self with toNormalSolid := self.toNormalSolid.push thrust }
    else self
  let self :=
    if self.leftState then { self with toNormalSolid := self.toNormalSolid.torque (- TURN_THRUST) }
    else self
  let self :=
    if self.rightState then { self with toNormalSolid := self.toNormalSolid.torque TURN_THRUST }
    else self
  { self with toNormalSolid := self.toNormalSolid.step deltaTime }

/-- The method `up`. -/
def up (self : Ship K) (state : Bool) : Ship K := { self with upState := state }

/-- The method `down`. -/
def down (self : Ship K) (state : Bool) : Ship K := { self with downState := state }

/-- The method `left`. -/
def left (self : Ship K) (state : Bool) : Ship K := { self with leftState := state }

/-- The method `right`. -/
def right (self : Ship K) (state : Bool) : Ship K := { self with rightState := state }

/-- The method `primary`: when the key is depressed, fire a single missile. -/
def primary (self : Ship K) (state : Bool) : Ship K :=
  let self := if state = true then { self with fireMissle := true } else self
  { self with primaryState := state }

/-- The method `Ship::hasSpawn()`. -/
def hasSpawn (self : Ship K) : Bool := self.fireMissle

/-- The method `Ship::nextSpawn()`: the ship after the call, and the missile it returns. -/
def nextSpawn (L : Libm K) (self : Ship K) : Ship K × Solid K :=
  let self := { self with fireMissle := false }
  let forward := Vector2d.ofAngle L (self.toNormalSolid.angle L)
  let misslePosition := self.toNormalSolid.position + ((self.toNormalSolid.radius + 6) * forward)
  let missleVelocity := self.toNormalSolid.velocity + ((0.8 : K) * forward)
  (self, newMissle misslePosition missleVelocity)

end Ship

namespace Solid

variable {K : Type} [LinearOrderedField K]

/-- The `NormalSolid` part of a solid. -/
def toNormalSolid : Solid K → NormalSolid K
  | .normal s => s
  | .ship s => s.toNormalSolid

/-- Applies a method of `NormalSolid` that `Ship` does not override. -/
def mapNormalSolid (f : NormalSolid K → NormalSolid K) : Solid K → Solid K
  | .normal s => .normal (f s)
  | .ship s => .ship { s with toNormalSolid := f s.toNormalSolid }

/-- The virtual method `isDead()`. -/
def isDead (self : Solid K) : Bool := self.toNormalSolid.isDead

/-- The virtual method `descriptor()`. -/
def descriptor (self : Solid K) : Int := self.toNormalSolid.descriptor

/-- The virtual method `position()`. -/
def position (self : Solid K) : Vector2d K := self.toNormalSolid.position

/-- The virtual method `velocity()`. -/
def velocity (self : Solid K) : Vector2d K := self.toNormalSolid.velocity

/-- The virtual method `hasSpawn()`. -/
def hasSpawn : Solid K → Bool
  | .normal s => s.hasSpawn
  | .ship s => s.hasSpawn

/-- The virtual method `nextSpawn()`: the object after the call and the solid it returns.
`NormalSolid::nextSpawn` has an empty body and returns nothing that can be used: `none`. -/
def nextSpawn (L : Libm K) : Solid K → Option (Solid K × Solid K)
  | .normal _ => none
  | .ship s => some (.ship (s.nextSpawn L).1, (s.nextSpawn L).2)

/-- The virtual method `step(deltaTime)`. -/
def step [FloorRing K] (L : Libm K) (self : Solid K) (deltaTime : K) : Solid K :=
  match self with
  | .normal s => .normal (s.step deltaTime)
  | .ship s => .ship (s.step L deltaTime)

end Solid

/-- The class `Solid` implements `Mass`, through `NormalSolid`. -/
instance {K : Type} [LinearOrderedField K] [FloorRing K] : Mass K (Solid K) where
  push := fun self force => self.mapNormalSolid (fun s => s.push force)
  hit := fun L self impulse => self.mapNormalSolid (fun s => s.hit L impulse)
  pushOffset := fun L self force offset => self.mapNormalSolid (fun s => s.pushOffset L force offset)
  hitOffset := fun L self impulse offset => self.mapNormalSolid (fun s => s.hitOffset L impulse offset)
  torque := fun self t => self.mapNormalSolid (fun s => s.torque t)
  twist := fun self t => self.mapNormalSolid (fun s => s.twist t)
  step := Solid.step
  translate := fun self d => self.mapNormalSolid (fun s => s.translate d)
  mass := fun self => self.toNormalSolid.mass
  moment := fun self => self.toNormalSolid.moment
  position := Solid.position
  velocity := Solid.velocity
  angle := fun L self => self.toNormalSolid.angle L
  rotation := fun self => self.toNormalSolid.rotation
  radius := fun self => self.toNormalSolid.radius
  isDead := Solid.isDead

/-! ## `universe.h`, `universe.cpp` -/

/-- How a call of a member function ends. -/
inductive Outcome (σ : Type) where
  /-- The call executes a `return` statement, in the state `s`. -/
  | returns (s : σ) : Outcome σ
  /-- The call never ends: it waits for ever on a semaphore, or a loop of it runs out of
  `fuel`. -/
  | blocks : Outcome σ
  /-- Control reaches the closing brace of a function whose return type is not `void`, in the
  state `s`, and there is no `return` statement: the function has no value to return, and the
  behaviour of the program is undefined from there on. -/
  | undefined (s : σ) : Outcome σ

/-- The state in which a call ends, when it ends: at a `return` statement, or at the closing
brace. -/
def Outcome.lastState {σ : Type} : Outcome σ → Option σ
  | .returns s => some s
  | .blocks => none
  | .undefined s => some s

/-- The solids on the heap.  A `boost::shared_ptr<Solid>` is a handle, a natural number that
is the identity of a solid: `objs p` is the object the handle `p` points to, and `next` is
the first handle that has not been allocated; a handle `p` is allocated when `p < next`. -/
structure Heap (K : Type) where
  /-- The object behind each handle. -/
  objs : Nat → Solid K
  /-- The first handle not yet allocated. -/
  next : Nat

namespace Heap

variable {K : Type}

/-- Dereferences a handle: `*p`. -/
def get (h : Heap K) (p : Nat) : Solid K := h.objs p

/-- Stores the new state of the object behind `p`, after a mutating method call. -/
def set (h : Heap K) (p : Nat) (s : Solid K) : Heap K :=
  { h with objs := fun q => if q = p then s else h.objs q }

/-- Allocates a new solid (a factory's `new`): the new heap and the new handle. -/
def alloc (h : Heap K) (s : Solid K) : Heap K × Nat :=
  ({ objs := fun q => if q = h.next then s else h.objs q, next := h.next + 1 }, h.next)

end Heap

/-- The class `Universe`: the members `addList` and `allSolids`.  The screen is an argument
of the display methods; the background and the semaphore `allResource` are not modelled. -/
structure Universe where
  /-- The member `addList`: the pending solids. -/
  addList : List Nat
  /-- The member `allSolids`: the active solids. -/
  allSolids : List Nat
deriving DecidableEq, Repr

namespace Universe

variable {K : Type} [LinearOrderedField K]

/-- The method `add(pSolid)`. -/
def add (u : Universe) (pSolid : Nat) : Universe :=
  { u with addList := u.addList ++ [pSolid] }

/-- The predicate `isDead(pSolid)` used by `normalizeAll`. -/
def isDead (h : Heap K) (pSolid : Nat) : Bool := (h.get pSolid).isDead

/-- The first loop of `normalizeAll`, over the remaining solids `rest` of `allSolids`: add
explosions where objects died. -/
def explosionLoop : List Nat → Heap K → Universe → Heap K × Universe
  | [], h, u => (h, u)
  | ppSolid :: rest, h, u =>
    if isDead h ppSolid && (h.get ppSolid).descriptor != 2 then
      let pExplosion := h.alloc (newExplosion (h.get ppSolid).position (h.get ppSolid).velocity)
      explosionLoop rest pExplosion.1 (u.add pExplosion.2)
    else explosionLoop rest h u

/-- The loop `while (solid.hasSpawn()) add(solid.nextSpawn())` of `normalizeAll` for one
solid; `fuel` bounds the number of iterations, and the result is `none` when the fuel runs
out or `nextSpawn` returns nothing. -/
def drainSpawns (L : Libm K) : Nat → Nat → Heap K → Universe → Option (Heap K × Universe)
  | fuel, ppSolid, h, u =>
    if (h.get ppSolid).hasSpawn then
      match fuel with
      | 0 => none
      | fuel + 1 =>
        match (h.get ppSolid).nextSpawn L with
        | none => none
        | some (self, spawn) =>
          let pSpawn := (h.set ppSolid self).alloc spawn
          drainSpawns L fuel ppSolid pSpawn.1 (u.add pSpawn.2)
    else some (h, u)

/-- The second loop of `normalizeAll`, over the remaining solids `rest` of `allSolids`: ask
each solid if it would like to spawn some new solids. -/
def spawnLoop (L : Libm K) (fuel : Nat) : List Nat → Heap K → Universe → Option (Heap K × Universe)
  | [], h, u => some (h, u)
  | ppSolid :: rest, h, u =>
    match drainSpawns L fuel ppSolid h u with
    | none => none
    | some (h1, u1) => spawnLoop L fuel rest h1 u1

/-- The statements of the body of `normalizeAll()`, from the opening brace to the closing
brace: add newly spawned solids to the universe, and clean up the dead ones.  The result is
the state in which control reaches the closing brace; `fuel` bounds the iterations of each
spawn loop, and the result is `none` when it runs out. -/
def normalizeAllBody (L : Libm K) (fuel : Nat) (h : Heap K) (u : Universe) :
    Option (Heap K × Universe) :=
  let r1 := explosionLoop u.allSolids h u
  match spawnLoop L fuel u.allSolids r1.1 r1.2 with
  | none => none
  | some (h2, u2) =>
    let allSolids := u2.allSolids.filter (fun p => ! isDead h2 p)
    some (h2, { allSolids := allSolids ++ u2.addList, addList := [] })

/-- The method `normalizeAll()`.  It is declared `Universe& normalizeAll()`, and its body has
no `return` statement (the methods `add`, `interactAll`, `stepAll` and `drawAll` end in
`return *this;`): control flows off the end of the function. -/
def normalizeAll (L : Libm K) (fuel : Nat) (h : Heap K) (u : Universe) :
    Outcome (Heap K × Universe) :=
  match normalizeAllBody L fuel h u with
  | none => .blocks
  | some s => .undefined s

end Universe

namespace Heap

variable {K : Type}

/-- Runs an interaction function on the solids behind the handles `p` and `q`, which it
changes in place: `f(*p, *q)`. -/
def interact (f : Solid K → Solid K → Solid K × Solid K) (h : Heap K) (p q : Nat) : Heap K :=
  let r := f (h.get p) (h.get q)
  (h.set p r.1).set q r.2

end Heap

namespace Universe

variable {K : Type} [LinearOrderedField K] [FloorRing K]

/-- The inner loop of `interactAll`, over the remaining solids `rest` that follow
`ppSolid1`, whose lock is held.  A `Lock` is a wait on the semaphore of the solid, which
starts at 1: when `ppSolid2` is the solid `ppSolid1` itself, `Lock lock2` waits for ever on
the semaphore that `lock1` holds, and the result is `none`. -/
def interactInner (L : Libm K) (ppSolid1 : Nat) : List Nat → Heap K → Option (Heap K)
  | [], h => some h
  | ppSolid2 :: rest, h =>
    if (h.get ppSolid2).descriptor != 2 then
      if ppSolid2 = ppSolid1 then none
      else
        let h := h.interact (gravitate L) ppSolid1 ppSolid2
        let h := h.interact (collision L) ppSolid1 ppSolid2
        interactInner L ppSolid1 rest h
    else interactInner L ppSolid1 rest h

/-- The outer loop of `interactAll`, over the remaining solids of `allSolids`. -/
def interactOuter (L : Libm K) : List Nat → Heap K → Option (Heap K)
  | [], h => some h
  | ppSolid1 :: rest, h =>
    if (h.get ppSolid1).descriptor != 2 then
      match interactInner L ppSolid1 rest h with
      | none => none
      | some h1 => interactOuter L rest h1
    else interactOuter L rest h

/-- The method `interactAll()`: n^2 interactions between solids.  The result is `none` when
the thread blocks for ever on a semaphore it holds itself. -/
def interactAll (L : Libm K) (h : Heap K) (u : Universe) : Option (Heap K × Universe) :=
  match interactOuter L u.allSolids h with
  | none => none
  | some h1 => some (h1, u)

/-- The loop of `stepAll`, over the remaining solids of `allSolids`. -/
def stepLoop (L : Libm K) (deltaTime : K) : List Nat → Heap K → Heap K
  | [], h => h
  | ppSolid :: rest, h =>
    stepLoop L deltaTime rest (h.set ppSolid (Mass.step L (h.get ppSolid) deltaTime))

/-- The method `stepAll(deltaTime)`: update the velocity and position of each solid
according to applied forces. -/
def stepAll (L : Libm K) (deltaTime : K) (h : Heap K) (u : Universe) : Heap K × Universe :=
  (stepLoop L deltaTime u.allSolids h, u)

/-- The method `simulateAll(deltaTime)`: the calls `interactAll()`, `normalizeAll()` and
`stepAll(deltaTime)`.  It is declared `Universe& simulateAll(double)`, and its body has no
`return` statement either.  The behaviour is undefined from the end of the call of
`normalizeAll` on, so the call of `stepAll` is not reached. -/
def simulateAll (L : Libm K) (fuel : Nat) (deltaTime : K) (h : Heap K) (u : Universe) :
    Outcome (Heap K × Universe) :=
  match interactAll L h u with
  | none => .blocks
  | some (h1, u1) =>
    match normalizeAll L fuel h1 u1 with
    | .returns (h2, u2) => .undefined (stepAll L deltaTime h2 u2)
    | .blocks => .blocks
    | .undefined s => .undefined s

end Universe

/-! ## `image.h`, `image.cpp`, and the display methods of `universe.cpp` -/

/-- One call `image().draw(screen, location, angle)`: where, and at which angle, the image of
a sprite is drawn.  The pixels are not modelled. -/
structure ImageDraw (K : Type) where
  /-- The argument `location`. -/
  location : Vector2d K
  /-- The argument `angle`. -/
  angle : K
deriving DecidableEq, Repr

/-- The class `Screen`: the member `_origin`, and the images of the sprites drawn on the
surface since it was last cleared, in the order of the calls. -/
structure Screen (K : Type) where
  /-- The member `_origin`. -/
  origin : Vector2d K
  /-- The images drawn since the last `clear()`. -/
  drawn : List (ImageDraw K)
deriving DecidableEq, Repr

namespace Screen

variable {K : Type} [LinearOrderedField K]

/-- The method `size()`: the constructor sets the width to 800 and the height to 600. -/
def size (_screen : Screen K) : Vector2d K := ⟨800, 600⟩

/-- The method `origin(newOrigin)`.  It is declared `Screen& origin(const Vector2d&)`, and
its body, the assignment `_origin = newOrigin;`, has no `return` statement. -/
def setOrigin (screen : Screen K) (newOrigin : Vector2d K) : Outcome (Screen K) :=
  .undefined { screen with origin := newOrigin }

/-- The method `clear()`. -/
def clear (screen : Screen K) : Screen K := { screen with drawn := [] }

/-- The method `flip()`: shows the surface, and leaves it as it is. -/
def flip (screen : Screen K) : Screen K := screen

end Screen

/-- The method `NormalSolid::draw(screen)`, which is `SimpleSprite::draw(screen)`: draws the
image at the position of the sprite relative to the origin of the screen, at the angle of the
sprite. -/
def Solid.draw {K : Type} [LinearOrderedField K] (L : Libm K) (self : Solid K)
    (screen : Screen K) : Screen K :=
  let screenPosition := self.position - screen.origin
  { screen with drawn := screen.drawn ++ [⟨screenPosition, self.toNormalSolid.angle L⟩] }

namespace Universe

variable {K : Type} [LinearOrderedField K]

/-- The method `center()`. -/
def center (screen : Screen K) : Vector2d K :=
  screen.origin + (screen.size / (2 : K))

/-- The method `center(newCenter)`: the call `screen.origin(...)`, then `return *this;`. -/
def setCenter (u : Universe) (screen : Screen K) (newCenter : Vector2d K) :
    Outcome (Universe × Screen K) :=
  match screen.setOrigin (newCenter - (screen.size / (2 : K))) with
  | .returns screen => .returns (u, screen)
  | .blocks => .blocks
  | .undefined screen => .undefined (u, screen)

/-- The loop of `drawAll`, over the remaining solids of `allSolids`.  Each `Lock` is released
at the end of its iteration. -/
def drawLoop (L : Libm K) : List Nat → Heap K → Screen K → Screen K
  | [], _, screen => screen
  | ppSolid :: rest, h, screen => drawLoop L rest h ((h.get ppSolid).draw L screen)

/-- The method `drawAll()`: draw each solid.  The tiles of the background are not recorded,
and the images that drawing may animate are not part of the solids of the model. -/
def drawAll (L : Libm K) (h : Heap K) (u : Universe) (screen : Screen K) :
    Heap K × Universe × Screen K :=
  let screen := screen.clear
  let screen := drawLoop L u.allSolids h screen
  (h, u, screen.flip)

end Universe

/-! ## The interactions with every division checked -/

section CheckedInteractions

variable {K : Type} [LinearOrderedField K] {M₁ M₂ : Type} [Mass K M₁] [Mass K M₂]

/-- The quotient `x / y` of two doubles, or `none` when the divisor is zero.  It is used
where the divisor is a sum of two doubles, which is zero only when the exact sum is, or a
double that has been compared with zero. -/
def checkedDiv (x y : K) : Option K :=
  if y = 0 then none else some (x / y)

/-- The product of the doubles `y` and `z`, as the machine computes it, is zero.  With the
arithmetic of IEEE 754 (binary64, rounding to nearest, ties to even) that is the case exactly
when the exact product is at most `2^-1075` in absolute value, half of the least positive
double `2^-1074`: the product underflows. -/
def productIsZero (y z : K) : Bool :=
  decide (|y * z| ≤ (1 / 2 : K) ^ 1075)

/-- The quotient `x / (y * z)` of doubles, or `none` when the divisor, the product as the
machine computes it, is zero. -/
def checkedDivByProduct (x y z : K) : Option K :=
  if productIsZero y z then none else some (x / (y * z))

/-- The member `Vector2d::unit()`, with each of its divisions checked. -/
def Vector2d.unitChecked (L : Libm K) (v : Vector2d K) : Option (Vector2d K) :=
  let mag := v.magnitude L
  if mag > 0 then
    match checkedDiv v.x mag, checkedDiv v.y mag with
    | some x, some y => some ⟨x, y⟩
    | _, _ => none
  else some ⟨0, 0⟩

/-- The interaction `gravitate(mass1, mass2)`, with each of its divisions checked: `none`
when a divisor is zero. -/
def gravitateChecked (L : Libm K) (mass1 : M₁) (mass2 : M₂) : Option (M₁ × M₂) :=
  let G : K := 0.001
  let R := Mass.position mass2 - Mass.position mass1
  let r := R.magnitude L
  let threshold :=
    if Mass.radius mass1 > Mass.radius mass2 then 3 * Mass.radius mass1
    else 3 * Mass.radius mass2
  let r := if r < threshold then threshold else r
  match checkedDivByProduct (G * Mass.mass mass1 * Mass.mass mass2) r r, R.unitChecked L with
  | some f, some unit =>
    let F := f * unit
    some (Mass.push mass1 F, Mass.push mass2 (- F))
  | _, _ => none

/-- The interaction `collision(mass1, mass2)`, with each of its divisions checked: `none`
when a divisor is zero. -/
def collisionChecked (L : Libm K) (mass1 : M₁) (mass2 : M₂) : Option (M₁ × M₂) :=
  let R := Mass.position mass2 - Mass.position mass1
  let r := R.magnitude L
  let overlap := (Mass.radius mass1 + Mass.radius mass2) - r
  if overlap < 0 then some (mass1, mass2)
  else
    match R.unitChecked L with
    | none => none
    | some axis =>
      let p1 := dot (Mass.velocity mass1) axis * Mass.mass mass1
      let p2 := dot (Mass.velocity mass2) axis * Mass.mass mass2
      match checkedDiv (p1 + p2) (Mass.mass mass1 + Mass.mass mass2) with
      | none => none
      | some vc =>
        let impulse := 2 * (p1 - vc * Mass.mass mass1)
        let I := axis * impulse
        let mass1 := Mass.translate mass1 ((- axis) * (overlap + 1))
        let mass2 := Mass.translate mass2 (axis * (overlap + 1))
        some (Mass.hit L mass1 (- I), Mass.hit L mass2 I)

end CheckedInteractions

/-! ## The two threads of `main.cpp` -/

/-- Where the simulation thread is in the body of `simulateAll`: the statement it executes
next. -/
inductive SimPc where
  /-- Before the call `interactAll()`. -/
  | interactAll : SimPc
  /-- In `normalizeAll`, at `Lock lock(allResource)`. -/
  | lock : SimPc
  /-- In `normalizeAll`, before the loop that adds the explosions. -/
  | explosions : SimPc
  /-- In `normalizeAll`, before the loop that asks for the spawns. -/
  | spawns : SimPc
  /-- In `normalizeAll`, before `allSolids.remove_if(isDead)`. -/
  | removeIf : SimPc
  /-- In `normalizeAll`, before `allSolids.splice(allSolids.end(), addList)`. -/
  | splice : SimPc
  /-- At the end of `normalizeAll`, before the destructor of `lock`. -/
  | unlock : SimPc
  /-- Before the call `stepAll(deltaTime)`. -/
  | stepAll : SimPc
deriving DecidableEq, Repr

/-- Where the paint thread is in the body of `drawAll`: the statement it executes next. -/
inductive DrawPc where
  /-- At `Lock allLock(allResource)`. -/
  | lock : DrawPc
  /-- Before `screen.clear()`. -/
  | clear : DrawPc
  /-- Before `background.draw(screen)` and the start of the loop. -/
  | background : DrawPc
  /-- In the loop, with the iterator at position `i` of `allSolids`. -/
  | loop (i : Nat) : DrawPc
  /-- Before `screen.flip()`. -/
  | flip : DrawPc
  /-- At the end of `drawAll`, before the destructor of `allLock`. -/
  | unlock : DrawPc
deriving DecidableEq, Repr

/-- The simulation thread is inside `normalizeAll`, between the constructor and the
destructor of its `Lock`. -/
def SimPc.inNormalizeAll : SimPc → Bool
  | .explosions | .spawns | .removeIf | .splice | .unlock => true
  | _ => false

/-- The paint thread is inside a pass of `drawAll`, between the constructor and the
destructor of its `Lock`. -/
def DrawPc.inDrawAll : DrawPc → Bool
  | .clear | .background | .loop _ | .flip | .unlock => true
  | _ => false

/-- The state the two threads share, and where each of them is. -/
structure World (K : Type) where
  /-- The value of the semaphore `allResource`. -/
  allResource : Nat
  /-- The next statement of the simulation thread. -/
  sim : SimPc
  /-- The next statement of the paint thread. -/
  draw : DrawPc
  /-- The solids. -/
  h : Heap K
  /-- The universe. -/
  u : Universe
  /-- The screen. -/
  screen : Screen K

/-- A move of the scheduler: the simulation thread executes its next statement (in a tick of
the given `deltaTime`), or the paint thread does. -/
inductive Move (K : Type) where
  /-- The simulation thread moves. -/
  | sim (deltaTime : K) : Move K
  /-- The paint thread moves. -/
  | draw : Move K

namespace World

variable {K : Type} [LinearOrderedField K] [FloorRing K]

open Universe

/-- The world when the two threads start: the semaphore `allResource` has its initial value
1, the simulation thread is about to call `simulateAll` and the paint thread `drawAll`. -/
def init (h : Heap K) (u : Universe) (screen : Screen K) : World K :=
  { allResource := 1, sim := .interactAll, draw := .lock, h := h, u := u, screen := screen }

/-- The next statement of the simulation thread, in the loop `while (isRunning)` of `main`:
`none` when the thread is blocked.  `SDL_SemWait` blocks while the semaphore is 0 and
decrements it; `SDL_SemPost` increments it.  The calls `interactAll()` and
`stepAll(deltaTime)` are one move each. -/
def simStep (L : Libm K) (fuel : Nat) (deltaTime : K) (w : World K) : Option (World K) :=
  match w.sim with
  | .interactAll =>
    match interactAll L w.h w.u with
    | none => none
    | some r => some { w with h := r.1, u := r.2, sim := .lock }
  | .lock =>
    if w.allResource = 0 then none
    else some { w with allResource := w.allResource - 1, sim := .explosions }
  | .explosions =>
    let r := explosionLoop w.u.allSolids w.h w.u
    some { w with h := r.1, u := r.2, sim := .spawns }
  | .spawns =>
    match spawnLoop L fuel w.u.allSolids w.h w.u with
    | none => none
    | some r => some { w with h := r.1, u := r.2, sim := .removeIf }
  | .removeIf =>
    some { w with
      u := { w.u with allSolids := w.u.allSolids.filter (fun p => ! Universe.isDead w.h p) }
      sim := .splice }
  | .splice =>
    some { w with
      u := { allSolids := w.u.allSolids ++ w.u.addList, addList := [] }
      sim := .unlock }
  | .unlock => some { w with allResource := w.allResource + 1, sim := .stepAll }
  | .stepAll =>
    let r := stepAll L deltaTime w.h w.u
    some { w with h := r.1, u := r.2, sim := .interactAll }

/-- The next statement of the paint thread, in the loop `while (isRunning)` of `paint`:
`none` when the thread is blocked.  The iterator of the loop of `drawAll` is a position in
the list `allSolids` as it is when the statement executes. -/
def drawStep (L : Libm K) (w : World K) : Option (World K) :=
  match w.draw with
  | .lock =>
    if w.allResource = 0 then none
    else some { w with allResource := w.allResource - 1, draw := .clear }
  | .clear => some { w with screen := w.screen.clear, draw := .background }
  | .background => some { w with draw := .loop 0 }
  | .loop i =>
    match w.u.allSolids.get? i with
    | some ppSolid =>
      some { w with screen := (w.h.get ppSolid).draw L w.screen, draw := .loop (i + 1) }
    | none => some { w with draw := .flip }
  | .flip => some { w with screen := w.screen.flip, draw := .unlock }
  | .unlock => some { w with allResource := w.allResource + 1, draw := .lock }

/-- One move of the scheduler. -/
def step (L : Libm K) (fuel : Nat) (m : Move K) (w : World K) : Option (World K) :=
  match m with
  | .sim deltaTime => simStep L fuel deltaTime w
  | .draw => drawStep L w

/-- An interleaving of the two threads: the moves of the list, first move first; `none`
when a move is made by a thread that is blocked. -/
def run (L : Libm K) (fuel : Nat) : List (Move K) → World K → Option (World K)
  | [], w => some w
  | m :: rest, w =>
    match step L fuel m w with
    | none => none
    | some w1 => run L fuel rest w1

/-- The semaphore `allResource` counts the threads that are not inside `normalizeAll` or
`drawAll`: its value is 1 when neither thread is inside, and 0 when one of them is. -/
def Exclusive (w : World K) : Prop :=
  w.allResource + (if w.sim.inNormalizeAll then 1 else 0)
    + (if w.draw.inDrawAll then 1 else 0) = 1

end World

/-! ## Concrete data for running the definitions -/

/-- A rational `<math.h>` for running the definitions at `K := ℚ`: `sqrt` is the quotient of
the integer square roots of numerator and denominator (exact on squares of rationals);
`sin`, `cos` and `atan` are constant, with their values at `0`; at the infinities `atan` has
a rational approximation of a quarter turn in radians. -/
def ratLibm : Libm ℚ :=
  { sqrt := fun q => (Nat.sqrt q.num.toNat : ℚ) / (Nat.sqrt q.den : ℚ)
    sin := fun _ => 0
    cos := fun _ => 1
    atan := fun _ => 0
    atanPosInf := 157 / 100
    atanNegInf := - (157 / 100) }

/-- The first body of the two-body scenario: mass 1000, radius 20, at rest at the origin. -/
def scenarioA : NewtonianMass ℚ := NewtonianMass.new 1000 2000 20 ⟨0, 0⟩ ⟨0, 0⟩ 0 0

/-- The second body of the two-body scenario: mass 2000, radius 35, at rest, 10 units from
the first. -/
def scenarioB : NewtonianMass ℚ := NewtonianMass.new 2000 4000 35 ⟨10, 0⟩ ⟨0, 0⟩ 0 0

/-- A body of mass 2000 and radius 35 at rest at the origin: its centre coincides with the
centre of `scenarioA`. -/
def coincidentB : NewtonianMass ℚ := NewtonianMass.new 2000 4000 35 ⟨0, 0⟩ ⟨0, 0⟩ 0 0

/-- A body of mass 1 whose radius `10^-200` is positive, at rest at the origin. -/
def tinyA : NewtonianMass ℚ := NewtonianMass.new 1 1 ((1 / 10) ^ 200) ⟨0, 0⟩ ⟨0, 0⟩ 0 0

/-- A second body of mass 1 and radius `10^-200` at rest at the origin. -/
def tinyB : NewtonianMass ℚ := NewtonianMass.new 1 1 ((1 / 10) ^ 200) ⟨0, 0⟩ ⟨0, 0⟩ 0 0

/-- A moving plain mass with non-empty accumulators. -/
def sampleMass : NewtonianMass ℚ :=
  { NewtonianMass.new 2 1 1 ⟨0, 0⟩ ⟨1, 1⟩ 350 20 with fsum := ⟨3, 4⟩, isum := ⟨1, 1⟩ }

/-- A plain mass of mass 1 and radius 2 at the origin, moving right at speed 3. -/
def movingA : NewtonianMass ℚ := NewtonianMass.new 1 1 2 ⟨0, 0⟩ ⟨3, 0⟩ 0 0

/-- A plain mass of mass 2 and radius 2 at `(3, 0)`, moving left at speed 1. -/
def movingB : NewtonianMass ℚ := NewtonianMass.new 2 1 2 ⟨3, 0⟩ ⟨-1, 0⟩ 0 0

/-- A plain mass of radius 1 at `(5, 0)`, out of reach of `movingA`. -/
def farB : NewtonianMass ℚ := NewtonianMass.new 2 1 1 ⟨5, 0⟩ ⟨-1, 0⟩ 0 0

/-! ## Vocabulary for the statements about `normalizeAll` -/

section Vocabulary

variable {K : Type} [LinearOrderedField K]

/-- The entries of the list `l` that are dead and not special effects, in the order of
`l`. -/
def deadNonEffects (h : Heap K) (l : List Nat) : List Nat :=
  l.filter (fun p => Universe.isDead h p && (h.get p).descriptor != 2)

/-- The entries of the list `l` that are not dead, in the order of `l`. -/
def survivors (h : Heap K) (l : List Nat) : List Nat :=
  l.filter (fun p => ! Universe.isDead h p)

/-- The distinct entities of a list of handles, in the order of their first occurrence. -/
def firstOccurrences : List Nat → List Nat
  | [] => []
  | p :: rest => p :: (firstOccurrences rest).filter (fun q => q != p)

/-- The entities of the list `l` that have a spawn, each once, in the order of `l`. -/
def spawners (h : Heap K) (l : List Nat) : List Nat :=
  firstOccurrences (l.filter (fun p => (h.get p).hasSpawn))

/-- A solid after its spawns have been drained: a ship is no longer waiting to fire. -/
def Solid.drained : Solid K → Solid K
  | .normal s => .normal s
  | .ship s => .ship { s with fireMissle := false }

/-- The solid that `nextSpawn` returns, if any. -/
def Solid.spawn (L : Libm K) (s : Solid K) : Option (Solid K) :=
  (s.nextSpawn L).map Prod.snd

end Vocabulary

/-! ## Vocabulary for the statements about `interactAll` -/

section InteractVocabulary

variable {K : Type} [LinearOrderedField K] [FloorRing K]

/-- The entries of the list `l` that are not special effects, in the order of `l`. -/
def nonEffects (h : Heap K) (l : List Nat) : List Nat :=
  l.filter (fun p => (h.get p).descriptor != 2)

/-- The pairs `(l[i], l[j])` of entries of `l` with `i < j`, in the lexicographic order of
`(i, j)`. -/
def pairsOf : List Nat → List (Nat × Nat)
  | [] => []
  | p :: rest => rest.map (fun q => (p, q)) ++ pairsOf rest

/-- The pairs `(l[i], l[j])`, `i < j`, in which neither solid is a special effect, in the
lexicographic order of `(i, j)`. -/
def interactionPairs (h : Heap K) (l : List Nat) : List (Nat × Nat) :=
  (pairsOf l).filter
    (fun pq => (h.get pq.1).descriptor != 2 && (h.get pq.2).descriptor != 2)

/-- Applies `gravitate` followed by `collision` to each pair of the list in turn, first pair
first. -/
def interactPairs (L : Libm K) (pairs : List (Nat × Nat)) (h : Heap K) : Heap K :=
  pairs.foldl
    (fun h pq => (h.interact (gravitate L) pq.1 pq.2).interact (collision L) pq.1 pq.2) h

end InteractVocabulary

/-! ## Vocabulary for the statements about the life of a solid -/

section SolidCalls

variable {K : Type} [LinearOrderedField K] [FloorRing K]

/-- One call of a method of the interface of a solid. -/
inductive SolidCall (K : Type) where
  /-- A call `push(force)`. -/
  | push (force : Vector2d K) : SolidCall K
  /-- A call `hit(impulse)`. -/
  | hit (impulse : Vector2d K) : SolidCall K
  /-- A call `push(force, offset)`. -/
  | pushOffset (force offset : Vector2d K) : SolidCall K
  /-- A call `hit(impulse, offset)`. -/
  | hitOffset (impulse offset : Vector2d K) : SolidCall K
  /-- A call `torque(torque)`. -/
  | torque (torque : K) : SolidCall K
  /-- A call `twist(suddenTorque)`. -/
  | twist (suddenTorque : K) : SolidCall K
  /-- A call `translate(deltaPosition)`. -/
  | translate (deltaPosition : Vector2d K) : SolidCall K
  /-- A call `step(deltaTime)`. -/
  | step (deltaTime : K) : SolidCall K
  /-- A call `nextSpawn()`. -/
  | nextSpawn : SolidCall K

/-- The solid after a call, through the virtual methods of its class.  A `nextSpawn()` on a
`NormalSolid` runs an empty body and leaves the object as it is. -/
def SolidCall.run (L : Libm K) (c : SolidCall K) (s : Solid K) : Solid K :=
  match c with
  | .push force => Mass.push s force
  | .hit impulse => Mass.hit L s impulse
  | .pushOffset force offset => Mass.pushOffset L s force offset
  | .hitOffset impulse offset => Mass.hitOffset L s impulse offset
  | .torque t => Mass.torque s t
  | .twist suddenTorque => Mass.twist s suddenTorque
  | .translate deltaPosition => Mass.translate s deltaPosition
  | .step deltaTime => Mass.step L s deltaTime
  | .nextSpawn =>
    match s.nextSpawn L with
    | some r => r.1
    | none => s

/-- The solid after a sequence of calls, first call first. -/
def SolidCall.runAll (L : Libm K) (calls : List (SolidCall K)) (s : Solid K) : Solid K :=
  calls.foldl (fun s c => c.run L s) s

end SolidCalls

/-- A missile whose lifetime has run out: dead, and not a special effect. -/
def expiredMissle : Solid ℚ :=
  .normal { NormalSolid.new (NewtonianMass.newLinear 30 60 5 ⟨7, 8⟩ ⟨1, 0⟩) 2 500 4 with
    dead := true, age := 501 }

/-- A heap with one solid, the expired missile, behind the handle `0`. -/
def aliasHeap : Heap ℚ := { objs := fun _ => expiredMissle, next := 1 }

/-- A universe in which the solid `0` is active and has been added again. -/
def aliasUniverse : Universe := { addList := [0], allSolids := [0] }

/-- A ship that is waiting to fire a missile. -/
def firingShip : Solid ℚ := .ship ((newShip ⟨0, 0⟩ ⟨0, 0⟩).primary true)

/-- A heap with four solids: a ship waiting to fire, an expired missile, a rock and an
alien. -/
def sampleHeap : Heap ℚ :=
  { objs := fun p =>
      if p = 0 then firingShip
      else if p = 1 then expiredMissle
      else if p = 2 then newRock ⟨100, 0⟩ ⟨0, 0⟩
      else newAlien ⟨0, 100⟩ ⟨0, 0⟩
    next := 4 }

/-- A universe over `sampleHeap`: the ship, the missile and the rock are active, the alien
is pending. -/
def sampleUniverse : Universe := { addList := [3], allSolids := [0, 1, 2] }

/-- A heap with three solids: a rock at the origin, an explosion (a special effect) one
unit from it, and a second rock ten units from the first. -/
def rockHeap : Heap ℚ :=
  { objs := fun p =>
      if p = 0 then newRock ⟨0, 0⟩ ⟨0, 0⟩
      else if p = 1 then newExplosion ⟨1, 0⟩ ⟨0, 0⟩
      else newRock ⟨10, 0⟩ ⟨0, 0⟩
    next := 3 }

/-- A universe over `rockHeap` in which the three solids are active. -/
def rockUniverse : Universe := { addList := [], allSolids := [0, 1, 2] }

/-- A universe over `rockHeap` in which the rock `0` is active twice. -/
def repeatedUniverse : Universe := { addList := [], allSolids := [0, 0] }

/-! ## Concrete data and vocabulary for the vector, friction and scenario statements -/

/-- A rational `<math.h>` whose trigonometric functions are not constant: `sin` and `cos` are
the rational parametrisation of the circle by the tangent of the half angle, for which half
the angle is taken, so that `sin^2 + cos^2 = 1` holds exactly; `atan` is odd, increasing and
bounded by its values at the infinities. -/
def trigLibm : Libm ℚ :=
  { sqrt := ratLibm.sqrt
    sin := fun r => r / (1 + r * r / 4)
    cos := fun r => (1 - r * r / 4) / (1 + r * r / 4)
    atan := fun z => (157 / 100) * z / (1 + |z|)
    atanPosInf := 157 / 100
    atanNegInf := - (157 / 100) }

/-- A ship's mass (a `FrictionMass`) that moves, turns and has non-empty accumulators. -/
def sampleFriction : NewtonianMass ℚ :=
  { NewtonianMass.newFriction 100 2000 12 ⟨5, 7⟩ ⟨1, 2⟩ 10 20 0.0002 0.002 with
    fsum := ⟨3, 4⟩, isum := ⟨1, 1⟩, tsum := 5, stsum := 6 }

/-- A missile's mass (a `LinearMass`) that moves and has non-empty accumulators. -/
def sampleLinear : NewtonianMass ℚ :=
  { NewtonianMass.newLinear 30 60 5 ⟨7, 8⟩ ⟨1, 2⟩ with fsum := ⟨3, 4⟩, isum := ⟨1, 1⟩ }

/-- A solid at rest, of the given mass and radius: a `NormalSolid` that is not a special
effect, is alive with its damage within its budget, does not move, and has no force or
impulse accumulated. -/
def Solid.AtRest {K : Type} [LinearOrderedField K] (mass radius : K) : Solid K → Prop
  | .normal n =>
    n.descriptor ≠ 2 ∧ n.dead = false
      ∧ ¬ (n.hitPoints ≠ 0 ∧ n.damage > (n.hitPoints : K))
      ∧ n.pMass.m = mass ∧ n.pMass.r = radius
      ∧ n.pMass.v = ⟨0, 0⟩ ∧ n.pMass.fsum = ⟨0, 0⟩ ∧ n.pMass.isum = ⟨0, 0⟩
  | .ship _ => False

/-- The vector perpendicular to `v`, of the same length. -/
def Vector2d.perp {K : Type} [LinearOrderedField K] (v : Vector2d K) : Vector2d K :=
  ⟨- v.y, v.x⟩

/-! ## Vocabulary for the statements about energy and the population -/

section EnergyVocabulary

variable {K : Type} [LinearOrderedField K]

/-- The kinetic energy `(1/2) * mass * |velocity|^2` of a mass. -/
def NewtonianMass.kineticEnergy (s : NewtonianMass K) : K :=
  1 / 2 * s.m * dot s.v s.v

/-- The vector sum of the force accumulators of the solids behind the entries of `l`. -/
def sumForce (h : Heap K) (l : List Nat) : Vector2d K :=
  ⟨(l.map (fun p => (h.get p).toNormalSolid.pMass.fsum.x)).sum,
    (l.map (fun p => (h.get p).toNormalSolid.pMass.fsum.y)).sum⟩

/-- The vector sum of the impulse accumulators of the solids behind the entries of `l`. -/
def sumImpulse (h : Heap K) (l : List Nat) : Vector2d K :=
  ⟨(l.map (fun p => (h.get p).toNormalSolid.pMass.isum.x)).sum,
    (l.map (fun p => (h.get p).toNormalSolid.pMass.isum.y)).sum⟩

end EnergyVocabulary

/-! # Lemmas and theorems -/

/-! ## Helper lemmas: vectors -/

namespace Vector2d

variable {K : Type} [LinearOrderedField K]

@[simp] theorem zero_x : (0 : Vector2d K).x = 0 := rfl
@[simp] theorem zero_y : (0 : Vector2d K).y = 0 := rfl
@[simp] theorem add_x (a b : Vector2d K) : (a + b).x = a.x + b.x := rfl
@[simp] theorem add_y (a b : Vector2d K) : (a + b).y = a.y + b.y := rfl
@[simp] theorem sub_x (a b : Vector2d K) : (a - b).x = a.x - b.x := rfl
@[simp] theorem sub_y (a b : Vector2d K) : (a - b).y = a.y - b.y := rfl
@[simp] theorem neg_x (a : Vector2d K) : (- a).x = - a.x := rfl
@[simp] theorem neg_y (a : Vector2d K) : (- a).y = - a.y := rfl
@[simp] theorem mul_x (a : Vector2d K) (c : K) : (a * c).x = a.x * c := rfl
@[simp] theorem mul_y (a : Vector2d K) (c : K) : (a * c).y = a.y * c := rfl
@[simp] theorem smul_x (c : K) (a : Vector2d K) : (c * a).x = a.x * c := rfl
@[simp] theorem smul_y (c : K) (a : Vector2d K) : (c * a).y = a.y * c := rfl
@[simp] theorem div_x (a : Vector2d K) (c : K) : (a / c).x = a.x * (1 / c) := rfl
@[simp] theorem div_y (a : Vector2d K) (c : K) : (a / c).y = a.y * (1 / c) := rfl

theorem unit_of_pos (L : Libm K) (v : Vector2d K) (h : 0 < v.magnitude L) :
    v.unit L = ⟨v.x / v.magnitude L, v.y / v.magnitude L⟩ := by
  simp [unit, h]

theorem unit_of_not_pos (L : Libm K) (v : Vector2d K) (h : ¬ 0 < v.magnitude L) :
    v.unit L = ⟨0, 0⟩ := by
  simp [unit, h]

theorem magnitude_mul_self (L : Libm K) (v : Vector2d K) (hs : L.SqrtExactAt (dot v v)) :
    v.magnitude L * v.magnitude L = v.x * v.x + v.y * v.y := hs.2

theorem magnitude_nonneg (L : Libm K) (v : Vector2d K) (hs : L.SqrtExactAt (dot v v)) :
    0 ≤ v.magnitude L := hs.1

theorem magnitude_pos (L : Libm K) (v : Vector2d K) (hs : L.SqrtExactAt (dot v v))
    (hv : v ≠ ⟨0, 0⟩) : 0 < v.magnitude L := by
  rcases (magnitude_nonneg L v hs).lt_or_eq with h | h
  · exact h
  · exfalso
    have h2 := magnitude_mul_self L v hs
    rw [← h] at h2
    have hx : v.x = 0 := by nlinarith [mul_self_nonneg v.x, mul_self_nonneg v.y]
    have hy : v.y = 0 := by nlinarith [mul_self_nonneg v.x, mul_self_nonneg v.y]
    exact hv (Vector2d.ext hx hy)

theorem dot_unit_unit (L : Libm K) (v : Vector2d K) (hs : L.SqrtExactAt (dot v v))
    (hv : v ≠ ⟨0, 0⟩) : dot (v.unit L) (v.unit L) = 1 := by
  have hpos := magnitude_pos L v hs hv
  have h2 := magnitude_mul_self L v hs
  rw [unit_of_pos L v hpos]
  simp only [dot]
  field_simp
  linarith

theorem sub_ne_zero_of_ne (p q : Vector2d K) (h : p ≠ q) : q - p ≠ ⟨0, 0⟩ := by
  intro h0
  apply h
  have hx : (q - p).x = 0 := by rw [h0]
  have hy : (q - p).y = 0 := by rw [h0]
  simp only [sub_x, sub_y] at hx hy
  exact Vector2d.ext (by linarith) (by linarith)

end Vector2d

/-! ## Helper lemmas: the square root of `ratLibm` -/

section RatLibm

theorem ratLibm_sqrt_mul_self (n : ℕ) : ratLibm.sqrt ((n : ℚ) * (n : ℚ)) = (n : ℚ) := by
  have h : ((n : ℚ) * (n : ℚ)) = ((n * n : ℕ) : ℚ) := by push_cast; ring
  rw [h]
  simp only [ratLibm, Rat.num_natCast, Rat.den_natCast, Int.toNat_ofNat, Nat.sqrt_eq,
    Nat.sqrt_one]
  simp

theorem ratLibm_sqrt_of_eq (n : ℕ) (q : ℚ) (h : q = (n : ℚ) * (n : ℚ)) :
    ratLibm.sqrt q = (n : ℚ) := by
  rw [h, ratLibm_sqrt_mul_self]

theorem ratLibm_sqrtExactAt (n : ℕ) (q : ℚ) (h : q = (n : ℚ) * (n : ℚ)) :
    ratLibm.SqrtExactAt q := by
  unfold Libm.SqrtExactAt
  rw [ratLibm_sqrt_of_eq n q h, h]
  exact ⟨Nat.cast_nonneg n, rfl⟩

end RatLibm

/-! ## Helper lemmas: `step` and `collision` on the `NewtonianMass` family -/

section ElasticAlgebra

variable {K : Type} [LinearOrderedField K]

theorem elastic_first (ma mb ua ub : K) (hma : ma ≠ 0) (hs : ma + mb ≠ 0) :
    ua - (2 * (ua * ma - (ua * ma + ub * mb) / (ma + mb) * ma)) / ma
        - (ma * ua + mb * ub) / (ma + mb)
      = - (ua - (ma * ua + mb * ub) / (ma + mb)) := by
  field_simp
  ring

theorem elastic_second (ma mb ua ub : K) (hmb : mb ≠ 0) (hs : ma + mb ≠ 0) :
    ub + (2 * (ua * ma - (ua * ma + ub * mb) / (ma + mb) * ma)) / mb
        - (ma * ua + mb * ub) / (ma + mb)
      = - (ub - (ma * ua + mb * ub) / (ma + mb)) := by
  field_simp
  ring

end ElasticAlgebra

section MassLemmas

variable {K : Type} [LinearOrderedField K] [FloorRing K]

theorem step_v_of_empty (s : NewtonianMass K) (dt : K) (hc : s.cls = MassClass.newtonian)
    (hf : s.fsum = 0) :
    (s.step dt).v = ⟨s.v.x + s.isum.x / s.m, s.v.y + s.isum.y / s.m⟩ := by
  simp only [NewtonianMass.step, NewtonianMass.reset, NewtonianMass.clean,
    NewtonianMass.totalForce, hc, hf, NewtonianMass.mass]
  ext <;> simp [div_eq_mul_inv]

theorem collision_of_overlap (L : Libm K) (a b : NewtonianMass K)
    (h : ¬ (a.r + b.r) - (b.p - a.p).magnitude L < 0) :
    collision L a b =
      ({ a with
          p := a.p + (- (b.p - a.p).unit L) * ((a.r + b.r) - (b.p - a.p).magnitude L + 1)
          isum := a.isum + - ((b.p - a.p).unit L *
            (2 * (dot a.v ((b.p - a.p).unit L) * a.m
              - (dot a.v ((b.p - a.p).unit L) * a.m + dot b.v ((b.p - a.p).unit L) * b.m)
                  / (a.m + b.m) * a.m))) },
       { b with
          p := b.p + (b.p - a.p).unit L * ((a.r + b.r) - (b.p - a.p).magnitude L + 1)
          isum := b.isum + (b.p - a.p).unit L *
            (2 * (dot a.v ((b.p - a.p).unit L) * a.m
              - (dot a.v ((b.p - a.p).unit L) * a.m + dot b.v ((b.p - a.p).unit L) * b.m)
                  / (a.m + b.m) * a.m)) }) := by
  unfold collision
  simp only [Mass.position, Mass.radius, Mass.mass, Mass.velocity, NewtonianMass.position,
    NewtonianMass.radius, NewtonianMass.mass, NewtonianMass.velocity]
  rw [if_neg h]
  rfl

theorem collision_of_apart (L : Libm K) (a b : NewtonianMass K)
    (h : (a.r + b.r) - (b.p - a.p).magnitude L < 0) : collision L a b = (a, b) := by
  unfold collision
  simp only [Mass.position, Mass.radius, NewtonianMass.position, NewtonianMass.radius]
  rw [if_pos h]

end MassLemmas

/-! ## Helper lemmas: the heap and lists of handles -/

section HeapLemmas

variable {K : Type}

theorem Heap.alloc_get_of_lt (h : Heap K) (s : Solid K) (q : Nat) (hq : q < h.next) :
    (h.alloc s).1.get q = h.get q := by
  simp [Heap.alloc, Heap.get, Nat.ne_of_lt hq]

theorem Heap.alloc_get_next (h : Heap K) (s : Solid K) : (h.alloc s).1.get h.next = s := by
  simp [Heap.alloc, Heap.get]

theorem Heap.alloc_next (h : Heap K) (s : Solid K) : (h.alloc s).1.next = h.next + 1 := rfl

theorem Heap.alloc_snd (h : Heap K) (s : Solid K) : (h.alloc s).2 = h.next := rfl

theorem Heap.set_alloc_get (h : Heap K) (p : Nat) (s sp : Solid K) (q : Nat)
    (hq : q < h.next) :
    ((h.set p s).alloc sp).1.get q = if q = p then s else h.get q := by
  simp [Heap.alloc, Heap.set, Heap.get, Nat.ne_of_lt hq]

theorem Heap.set_alloc_get_next (h : Heap K) (p : Nat) (s sp : Solid K) :
    ((h.set p s).alloc sp).1.get h.next = sp := by
  simp [Heap.alloc, Heap.set, Heap.get]

theorem Heap.set_alloc_next (h : Heap K) (p : Nat) (s sp : Solid K) :
    ((h.set p s).alloc sp).1.next = h.next + 1 := rfl

theorem firstOccurrences_filter (f : Nat → Bool) (l : List Nat) :
    firstOccurrences (l.filter f) = (firstOccurrences l).filter f := by
  induction l with
  | nil => rfl
  | cons p rest ih =>
    by_cases hf : f p = true
    · simp only [List.filter_cons, hf, if_true, firstOccurrences, ih, List.filter_filter]
      congr 1
      apply List.filter_congr
      intro q _
      exact Bool.and_comm _ _
    · simp only [List.filter_cons, hf, firstOccurrences, ih, List.filter_filter]
      simp only [Bool.false_eq_true, if_false]
      rw [ih]
      apply List.filter_congr
      intro q _
      by_cases hq : q = p
      · subst hq
        simp [hf]
      · simp [hq]

theorem mem_firstOccurrences (q : Nat) (l : List Nat) : q ∈ firstOccurrences l ↔ q ∈ l := by
  induction l with
  | nil => simp [firstOccurrences]
  | cons p rest ih =>
    simp only [firstOccurrences, List.mem_cons, List.mem_filter, ih]
    by_cases hq : q = p
    · simp [hq]
    · simp [hq]

theorem foldl_add (later : List Nat) :
    ∀ u : Universe, later.foldl Universe.add u
      = { addList := u.addList ++ later, allSolids := u.allSolids } := by
  induction later with
  | nil => intro u; simp
  | cons p rest ih => intro u; simp [ih, Universe.add]

theorem Solid.hasSpawn_drained (s : Solid K) : s.drained.hasSpawn = false := by
  cases s <;> rfl

theorem Solid.drained_of_not_hasSpawn (s : Solid K) (hs : s.hasSpawn = false) :
    s.drained = s := by
  cases s with
  | normal s => rfl
  | ship s =>
    simp only [Solid.hasSpawn, Ship.hasSpawn] at hs
    simp only [Solid.drained, ← hs]

theorem Solid.isDead_drained (s : Solid K) : s.drained.isDead = s.isDead := by
  cases s <;> rfl

theorem deadNonEffects_congr (h h' : Heap K) (l : List Nat)
    (hag : ∀ p ∈ l, h'.get p = h.get p) : deadNonEffects h' l = deadNonEffects h l := by
  unfold deadNonEffects
  apply List.filter_congr
  intro p hp
  simp [Universe.isDead, hag p hp]

theorem spawners_congr (h h' : Heap K) (l : List Nat) (hag : ∀ p ∈ l, h'.get p = h.get p) :
    spawners h' l = spawners h l := by
  unfold spawners
  congr 1
  apply List.filter_congr
  intro p hp
  rw [hag p hp]

theorem survivors_congr (h h' : Heap K) (l : List Nat)
    (hag : ∀ p ∈ l, (h'.get p).isDead = (h.get p).isDead) :
    survivors h' l = survivors h l := by
  unfold survivors
  apply List.filter_congr
  intro p hp
  simp [Universe.isDead, hag p hp]

theorem spawners_cons_of_hasSpawn (h : Heap K) (p : Nat) (rest : List Nat)
    (hs : (h.get p).hasSpawn = true) :
    spawners h (p :: rest) = p :: (spawners h rest).filter (fun q => q != p) := by
  simp only [spawners, List.filter_cons, hs, if_true, firstOccurrences]

theorem spawners_cons_of_not_hasSpawn (h : Heap K) (p : Nat) (rest : List Nat)
    (hs : (h.get p).hasSpawn = false) : spawners h (p :: rest) = spawners h rest := by
  simp only [spawners, List.filter_cons, hs]
  simp

theorem mem_spawners (h : Heap K) (q : Nat) (l : List Nat) :
    q ∈ spawners h l ↔ q ∈ l ∧ (h.get q).hasSpawn = true := by
  simp [spawners, mem_firstOccurrences, List.mem_filter]

theorem Solid.drained_drained (s : Solid K) : s.drained.drained = s.drained :=
  Solid.drained_of_not_hasSpawn _ (Solid.hasSpawn_drained s)

theorem spawners_after_drain (h h1 : Heap K) (p : Nat) (rest : List Nat)
    (hag : ∀ q ∈ rest, h1.get q = if q = p then (h.get p).drained else h.get q) :
    spawners h1 rest = (spawners h rest).filter (fun q => q != p) := by
  unfold spawners
  rw [← firstOccurrences_filter, List.filter_filter]
  congr 1
  apply List.filter_congr
  intro q hq
  rw [hag q hq]
  by_cases hqp : q = p
  · simp [hqp, Solid.hasSpawn_drained]
  · simp [hqp]

end HeapLemmas

/-! ## Helper lemmas: the loops of `normalizeAll` -/

section NormalizeAllLemmas

variable {K : Type} [LinearOrderedField K]

open Universe

theorem Solid.nextSpawn_of_hasSpawn (L : Libm K) (s : Solid K) (hs : s.hasSpawn = true) :
    ∃ sp, s.nextSpawn L = some (s.drained, sp) := by
  cases s with
  | normal s => simp [Solid.hasSpawn, NormalSolid.hasSpawn] at hs
  | ship s => exact ⟨_, rfl⟩

theorem Solid.descriptor_of_spawn (L : Libm K) (s sp : Solid K) (hs : s.spawn L = some sp) :
    sp.descriptor = 4 := by
  cases s with
  | normal s => simp [Solid.spawn, Solid.nextSpawn] at hs
  | ship s =>
    simp only [Solid.spawn, Solid.nextSpawn, Ship.nextSpawn, Option.map_some',
      Option.some.injEq] at hs
    rw [← hs]
    rfl

theorem explosionLoop_spec (rest : List Nat) :
    ∀ (h : Heap K) (u : Universe), (∀ p ∈ rest, p < h.next) →
      (explosionLoop rest h u).2
          = { addList := u.addList ++ List.range' h.next (deadNonEffects h rest).length,
              allSolids := u.allSolids }
        ∧ (explosionLoop rest h u).1.next = h.next + (deadNonEffects h rest).length
        ∧ (∀ q, q < h.next → (explosionLoop rest h u).1.get q = h.get q)
        ∧ (List.range' h.next (deadNonEffects h rest).length).map (explosionLoop rest h u).1.get
            = (deadNonEffects h rest).map
                (fun p => newExplosion (h.get p).position (h.get p).velocity) := by
  induction rest with
  | nil =>
    intro h u _
    simp [explosionLoop, deadNonEffects]
  | cons p rest ih =>
    intro h u hv
    have hp : p < h.next := hv p (List.mem_cons_self _ _)
    have hrest : ∀ q ∈ rest, q < h.next := fun q hq => hv q (List.mem_cons_of_mem _ hq)
    by_cases hc : (isDead h p && (h.get p).descriptor != 2) = true
    · have hD : deadNonEffects h (p :: rest) = p :: deadNonEffects h rest := by
        simp only [deadNonEffects, List.filter_cons, hc, if_true]
      have hstep : explosionLoop (p :: rest) h u
          = explosionLoop rest
              (h.alloc (newExplosion (h.get p).position (h.get p).velocity)).1
              (u.add h.next) := by
        simp only [explosionLoop, hc, if_true, Heap.alloc_snd]
      have hag : ∀ q ∈ rest,
          (h.alloc (newExplosion (h.get p).position (h.get p).velocity)).1.get q = h.get q :=
        fun q hq => Heap.alloc_get_of_lt h _ q (hrest q hq)
      obtain ⟨i1, i2, i3, i4⟩ := ih
        (h.alloc (newExplosion (h.get p).position (h.get p).velocity)).1 (u.add h.next)
        (fun q hq => by rw [Heap.alloc_next]; exact Nat.lt_succ_of_lt (hrest q hq))
      rw [deadNonEffects_congr h _ rest hag, Heap.alloc_next] at i1 i2 i4
      rw [hstep, hD]
      refine ⟨?_, ?_, ?_, ?_⟩
      · rw [i1]
        simp [Universe.add, List.range'_succ]
      · rw [i2]
        simp only [List.length_cons]
        omega
      · intro q hq
        rw [i3 q (by rw [Heap.alloc_next]; omega), Heap.alloc_get_of_lt h _ q hq]
      · simp only [List.length_cons, List.range'_succ, List.map_cons]
        rw [i4, i3 h.next (by rw [Heap.alloc_next]; omega), Heap.alloc_get_next]
        congr 1
        apply List.map_congr_left
        intro q hq
        have hq' : q ∈ rest := (List.mem_filter.mp hq).1
        rw [hag q hq']
    · have hD : deadNonEffects h (p :: rest) = deadNonEffects h rest := by
        simp only [deadNonEffects, List.filter_cons, hc]
        simp
      have hstep : explosionLoop (p :: rest) h u = explosionLoop rest h u := by
        simp only [explosionLoop, hc]
        simp
      rw [hstep, hD]
      exact ih h u hrest

theorem drainSpawns_of_not_hasSpawn (L : Libm K) (fuel p : Nat) (h : Heap K) (u : Universe)
    (hs : (h.get p).hasSpawn = false) : drainSpawns L fuel p h u = some (h, u) := by
  cases fuel <;> simp [drainSpawns, hs]

theorem drainSpawns_of_hasSpawn (L : Libm K) (fuel p : Nat) (h : Heap K) (u : Universe)
    (sp : Solid K) (hn : (h.get p).nextSpawn L = some ((h.get p).drained, sp))
    (hs : (h.get p).hasSpawn = true) :
    drainSpawns L (fuel + 1) p h u
      = some (((h.set p (h.get p).drained).alloc sp).1, u.add h.next) := by
  rw [drainSpawns]
  simp only [hs, if_true, hn]
  apply drainSpawns_of_not_hasSpawn
  show (((h.set p (h.get p).drained).alloc sp).1.get p).hasSpawn = false
  by_cases hp : p = h.next
  · rw [hp, Heap.set_alloc_get_next]
    have := hn
    cases hg : h.get h.next with
    | normal s => rw [hp, hg] at hs; simp [Solid.hasSpawn, NormalSolid.hasSpawn] at hs
    | ship s =>
      rw [hp, hg] at this
      simp only [Solid.nextSpawn, Ship.nextSpawn, newMissle, Option.some.injEq,
        Prod.mk.injEq] at this
      rw [← this.2]
      rfl
  · simp only [Heap.alloc, Heap.set, Heap.get, hp, if_false, if_true]
    exact Solid.hasSpawn_drained _

theorem spawnLoop_spec (L : Libm K) (fuel : Nat) (rest : List Nat) :
    ∀ (h : Heap K) (u : Universe), (∀ p ∈ rest, p < h.next) →
      ∃ h' : Heap K,
        spawnLoop L (fuel + 1) rest h u
            = some (h', { addList := u.addList ++ List.range' h.next (spawners h rest).length,
                          allSolids := u.allSolids })
          ∧ h'.next = h.next + (spawners h rest).length
          ∧ (∀ q, q < h.next →
              h'.get q = if q ∈ rest then (h.get q).drained else h.get q)
          ∧ (List.range' h.next (spawners h rest).length).map (fun q => some (h'.get q))
              = (spawners h rest).map (fun p => (h.get p).spawn L) := by
  induction rest with
  | nil =>
    intro h u _
    exact ⟨h, by simp [spawnLoop, spawners, firstOccurrences]⟩
  | cons p rest ih =>
    intro h u hv
    have hp : p < h.next := hv p (List.mem_cons_self _ _)
    have hrest : ∀ q ∈ rest, q < h.next := fun q hq => hv q (List.mem_cons_of_mem _ hq)
    cases hs : (h.get p).hasSpawn with
    | true =>
      obtain ⟨sp, hn⟩ := Solid.nextSpawn_of_hasSpawn L (h.get p) hs
      have hd := drainSpawns_of_hasSpawn L fuel p h u sp hn hs
      have hag : ∀ q, q < h.next → ((h.set p (h.get p).drained).alloc sp).1.get q
          = if q = p then (h.get p).drained else h.get q :=
        fun q hq => Heap.set_alloc_get h p _ sp q hq
      have hF1 := spawners_after_drain h ((h.set p (h.get p).drained).alloc sp).1 p rest
        (fun q hq => hag q (hrest q hq))
      have hF := spawners_cons_of_hasSpawn h p rest hs
      obtain ⟨h', i1, i2, i3, i4⟩ := ih ((h.set p (h.get p).drained).alloc sp).1 (u.add h.next)
        (fun q hq => by rw [Heap.set_alloc_next]; exact Nat.lt_succ_of_lt (hrest q hq))
      rw [hF1, Heap.set_alloc_next] at i1 i2 i4
      refine ⟨h', ?_, ?_, ?_, ?_⟩
      · simp only [spawnLoop, hd, i1, hF]
        simp [Universe.add, List.range'_succ]
      · rw [i2, hF]
        simp only [List.length_cons]
        omega
      · intro q hq
        rw [i3 q (by rw [Heap.set_alloc_next]; omega), hag q hq]
        by_cases hqp : q = p
        · subst hqp
          simp [Solid.drained_drained]
        · simp [hqp]
      · rw [hF]
        simp only [List.length_cons, List.range'_succ, List.map_cons]
        rw [i4, i3 h.next (by rw [Heap.set_alloc_next]; omega)]
        have hnot : h.next ∉ rest := fun hmem => Nat.lt_irrefl _ (hrest _ hmem)
        rw [if_neg hnot, Heap.set_alloc_get_next]
        congr 1
        · simp [Solid.spawn, hn]
        · apply List.map_congr_left
          intro q hq
          have hq' := List.mem_filter.mp hq
          have hqr : q ∈ rest := ((mem_spawners h q rest).mp hq'.1).1
          have hqp : q ≠ p := by simpa using hq'.2
          rw [hag q (hrest q hqr), if_neg hqp]
    | false =>
      have hd := drainSpawns_of_not_hasSpawn L (fuel + 1) p h u hs
      obtain ⟨h', i1, i2, i3, i4⟩ := ih h u hrest
      rw [spawners_cons_of_not_hasSpawn h p rest hs]
      refine ⟨h', ?_, i2, ?_, i4⟩
      · simp only [spawnLoop, hd, i1]
      · intro q hq
        rw [i3 q hq]
        by_cases hqp : q = p
        · subst hqp
          simp [Solid.drained_of_not_hasSpawn _ hs]
        · simp [hqp]

theorem normalizeAllBody_spec (L : Libm K) (fuel : Nat) (h : Heap K) (u : Universe)
    (hv : ∀ p ∈ u.allSolids, p < h.next) :
    ∃ h' : Heap K,
      normalizeAllBody L (fuel + 1) h u
          = some (h',
              { addList := []
                allSolids :=
                  survivors h u.allSolids ++ (u.addList
                    ++ List.range' h.next (deadNonEffects h u.allSolids).length
                    ++ List.range' (h.next + (deadNonEffects h u.allSolids).length)
                        (spawners h u.allSolids).length) })
        ∧ h'.next
            = h.next + (deadNonEffects h u.allSolids).length + (spawners h u.allSolids).length
        ∧ (∀ q, q < h.next →
            h'.get q = if q ∈ u.allSolids then (h.get q).drained else h.get q)
        ∧ (List.range' h.next (deadNonEffects h u.allSolids).length).map h'.get
            = (deadNonEffects h u.allSolids).map
                (fun p => newExplosion (h.get p).position (h.get p).velocity)
        ∧ (List.range' (h.next + (deadNonEffects h u.allSolids).length)
              (spawners h u.allSolids).length).map (fun q => some (h'.get q))
            = (spawners h u.allSolids).map (fun p => (h.get p).spawn L) := by
  obtain ⟨e1, e2, e3, e4⟩ := explosionLoop_spec u.allSolids h u hv
  have hv1 : ∀ p ∈ u.allSolids, p < (explosionLoop u.allSolids h u).1.next := by
    intro p hp
    rw [e2]
    exact Nat.lt_of_lt_of_le (hv p hp) (Nat.le_add_right _ _)
  obtain ⟨h', s1, s2, s3, s4⟩ := spawnLoop_spec L fuel u.allSolids
    (explosionLoop u.allSolids h u).1 (explosionLoop u.allSolids h u).2 hv1
  have hF : spawners (explosionLoop u.allSolids h u).1 u.allSolids = spawners h u.allSolids :=
    spawners_congr h _ _ (fun p hp => e3 p (hv p hp))
  rw [hF, e2, e1] at s1
  rw [hF, e2] at s2 s4
  rw [e2] at s3
  have hold : ∀ q, q < h.next →
      h'.get q = if q ∈ u.allSolids then (h.get q).drained else h.get q := by
    intro q hq
    rw [s3 q (Nat.lt_of_lt_of_le hq (Nat.le_add_right _ _)), e3 q hq]
  have hsurv : survivors h' u.allSolids = survivors h u.allSolids := by
    apply survivors_congr
    intro p hp
    rw [hold p (hv p hp), if_pos hp, Solid.isDead_drained]
  refine ⟨h', ?_, s2, hold, ?_, ?_⟩
  · simp only [normalizeAllBody]
    rw [e1, s1]
    have hs : List.filter (fun p => ! isDead h' p) u.allSolids = survivors h' u.allSolids := rfl
    simp only [hs, hsurv]
  · rw [← e4]
    apply List.map_congr_left
    intro q hq
    have hq' := List.mem_range'_1.mp hq
    have hnot : q ∉ u.allSolids := fun hmem => by
      have := hv q hmem
      omega
    rw [s3 q (by omega), if_neg hnot]
  · rw [s4]
    apply List.map_congr_left
    intro p hp
    have hp' : p ∈ u.allSolids := ((mem_spawners h p u.allSolids).mp hp).1
    rw [e3 p (hv p hp')]

theorem explosionLoop_frame (rest : List Nat) :
    ∀ (h : Heap K) (u : Universe),
      ∃ extra : List Nat,
        (explosionLoop rest h u).2 = { addList := u.addList ++ extra, allSolids := u.allSolids } := by
  induction rest with
  | nil => intro h u; exact ⟨[], by simp [explosionLoop]⟩
  | cons p rest ih =>
    intro h u
    by_cases hc : (isDead h p && (h.get p).descriptor != 2) = true
    · obtain ⟨extra, he⟩ := ih
        (h.alloc (newExplosion (h.get p).position (h.get p).velocity)).1 (u.add h.next)
      refine ⟨h.next :: extra, ?_⟩
      simp only [explosionLoop, hc, if_true, Heap.alloc_snd, he]
      simp [Universe.add]
    · obtain ⟨extra, he⟩ := ih h u
      have hstep : explosionLoop (p :: rest) h u = explosionLoop rest h u := by
        simp only [explosionLoop, hc]
        simp
      exact ⟨extra, by rw [hstep, he]⟩

theorem drainSpawns_frame (L : Libm K) (fuel p : Nat) (h : Heap K) (u : Universe) :
    ∃ (h' : Heap K) (extra : List Nat),
      drainSpawns L (fuel + 1) p h u
        = some (h', { addList := u.addList ++ extra, allSolids := u.allSolids }) := by
  cases hs : (h.get p).hasSpawn with
  | true =>
    obtain ⟨sp, hn⟩ := Solid.nextSpawn_of_hasSpawn L (h.get p) hs
    exact ⟨_, [h.next], by rw [drainSpawns_of_hasSpawn L fuel p h u sp hn hs]; rfl⟩
  | false =>
    exact ⟨h, [], by rw [drainSpawns_of_not_hasSpawn L _ p h u hs]; simp⟩

theorem spawnLoop_frame (L : Libm K) (fuel : Nat) (rest : List Nat) :
    ∀ (h : Heap K) (u : Universe),
      ∃ (h' : Heap K) (extra : List Nat),
        spawnLoop L (fuel + 1) rest h u
          = some (h', { addList := u.addList ++ extra, allSolids := u.allSolids }) := by
  induction rest with
  | nil => intro h u; exact ⟨h, [], by simp [spawnLoop]⟩
  | cons p rest ih =>
    intro h u
    obtain ⟨h1, ex1, hd⟩ := drainSpawns_frame L fuel p h u
    obtain ⟨h2, ex2, hl⟩ := ih h1 { addList := u.addList ++ ex1, allSolids := u.allSolids }
    exact ⟨h2, ex1 ++ ex2, by simp only [spawnLoop, hd, hl, List.append_assoc]⟩

theorem normalizeAllBody_frame (L : Libm K) (fuel : Nat) (h : Heap K) (u : Universe) :
    ∃ (h' : Heap K) (extra : List Nat),
      normalizeAllBody L (fuel + 1) h u
        = some (h', { addList := []
                      allSolids := survivors h' u.allSolids ++ (u.addList ++ extra) }) := by
  obtain ⟨ex1, he⟩ := explosionLoop_frame u.allSolids h u
  obtain ⟨h2, ex2, hl⟩ := spawnLoop_frame L fuel u.allSolids
    (explosionLoop u.allSolids h u).1 (explosionLoop u.allSolids h u).2
  refine ⟨h2, ex1 ++ ex2, ?_⟩
  rw [he] at hl
  simp only [normalizeAllBody]
  rw [he, hl]
  simp only [List.append_assoc]
  rfl

end NormalizeAllLemmas

/-! ## Helper lemmas: the concrete bodies -/

section ConcreteBodies

theorem scenario_ne : scenarioA.p ≠ scenarioB.p := by
  intro h
  have hx := congrArg Vector2d.x h
  norm_num [scenarioA, scenarioB, NewtonianMass.new] at hx

theorem scenario_magnitude : (scenarioB.p - scenarioA.p).magnitude ratLibm = 10 := by
  have h10 : ratLibm.sqrt 100 = 10 := ratLibm_sqrt_of_eq 10 100 (by norm_num)
  norm_num [Vector2d.magnitude, scenarioA, scenarioB, NewtonianMass.new, h10]

theorem scenario_sqrtExactAt :
    ratLibm.SqrtExactAt (dot (scenarioB.p - scenarioA.p) (scenarioB.p - scenarioA.p)) :=
  ratLibm_sqrtExactAt 10 _ (by norm_num [dot, scenarioA, scenarioB, NewtonianMass.new])

theorem scenario_collision_sub :
    (collision ratLibm scenarioA scenarioB).2.p - (collision ratLibm scenarioA scenarioB).1.p
      = ⟨102, 0⟩ := by
  have hmag := scenario_magnitude
  have hunit : (scenarioB.p - scenarioA.p).unit ratLibm = ⟨1, 0⟩ := by
    rw [Vector2d.unit_of_pos _ _ (by rw [hmag]; norm_num), hmag]
    norm_num [scenarioA, scenarioB, NewtonianMass.new]
  have hc := collision_of_overlap ratLibm scenarioA scenarioB (by
    rw [hmag]; norm_num [scenarioA, scenarioB, NewtonianMass.new])
  rw [hunit, hmag] at hc
  rw [hc]
  ext <;> norm_num [scenarioA, scenarioB, NewtonianMass.new]

theorem coincident_collision_sub :
    (collision ratLibm scenarioA coincidentB).2.p - (collision ratLibm scenarioA coincidentB).1.p
      = ⟨0, 0⟩ := by
  have h0 : ratLibm.sqrt 0 = 0 := ratLibm_sqrt_of_eq 0 0 (by norm_num)
  have hmag : (coincidentB.p - scenarioA.p).magnitude ratLibm = 0 := by
    norm_num [Vector2d.magnitude, scenarioA, coincidentB, NewtonianMass.new, h0]
  have hunit : (coincidentB.p - scenarioA.p).unit ratLibm = ⟨0, 0⟩ :=
    Vector2d.unit_of_not_pos _ _ (by rw [hmag]; norm_num)
  have hc := collision_of_overlap ratLibm scenarioA coincidentB (by
    rw [hmag]; norm_num [scenarioA, coincidentB, NewtonianMass.new])
  rw [hunit, hmag] at hc
  rw [hc]
  ext <;> norm_num [scenarioA, coincidentB, NewtonianMass.new]

theorem moving_ne : movingA.p ≠ movingB.p := by
  intro h
  have hx := congrArg Vector2d.x h
  norm_num [movingA, movingB, NewtonianMass.new] at hx

theorem moving_magnitude : (movingB.p - movingA.p).magnitude ratLibm = 3 := by
  have h3 : ratLibm.sqrt 9 = 3 := ratLibm_sqrt_of_eq 3 9 (by norm_num)
  norm_num [Vector2d.magnitude, movingA, movingB, NewtonianMass.new, h3]

theorem moving_sqrtExactAt :
    ratLibm.SqrtExactAt (dot (movingB.p - movingA.p) (movingB.p - movingA.p)) :=
  ratLibm_sqrtExactAt 3 _ (by norm_num [dot, movingA, movingB, NewtonianMass.new])

theorem far_magnitude : (farB.p - movingA.p).magnitude ratLibm = 5 := by
  have h5 : ratLibm.sqrt 25 = 5 := ratLibm_sqrt_of_eq 5 25 (by norm_num)
  norm_num [Vector2d.magnitude, movingA, farB, NewtonianMass.new, h5]

end ConcreteBodies

/-! ## Helper lemmas: `fmod` and `step` -/

section ForceLemmas

variable {K : Type} [LinearOrderedField K]

theorem NewtonianMass.totalForce_of_not_friction (s : NewtonianMass K) (dt : K)
    (hcls : ∀ kv kt, s.cls ≠ MassClass.friction kv kt) :
    s.totalForce dt = s.fsum * dt + s.isum := by
  unfold NewtonianMass.totalForce
  cases hc : s.cls with
  | friction kv kt => exact absurd hc (hcls kv kt)
  | newtonian => rfl
  | linear => rfl

theorem NewtonianMass.totalTorque_of_not_friction (s : NewtonianMass K) (dt : K)
    (hcls : ∀ kv kt, s.cls ≠ MassClass.friction kv kt) :
    s.totalTorque dt = s.tsum * dt + s.stsum := by
  unfold NewtonianMass.totalTorque
  cases hc : s.cls with
  | friction kv kt => exact absurd hc (hcls kv kt)
  | newtonian => rfl
  | linear => rfl

end ForceLemmas

section FmodLemmas

variable {K : Type} [LinearOrderedField K] [FloorRing K]

theorem fmod_sub_eq (x y : K) :
    ∃ n : ℤ, x - fmod x y = (n : K) * y :=
  ⟨if 0 ≤ x / y then ⌊x / y⌋ else ⌈x / y⌉, by unfold fmod; ring⟩

theorem fmod_bounds (x y : K) (hy : 0 < y) : - y < fmod x y ∧ fmod x y < y := by
  have hx : x = x / y * y := by field_simp
  unfold fmod
  by_cases hq : 0 ≤ x / y
  · rw [if_pos hq]
    have h1 := Int.floor_le (x / y)
    have h2 := Int.lt_floor_add_one (x / y)
    constructor
    · nlinarith
    · nlinarith
  · rw [if_neg hq]
    have h1 := Int.le_ceil (x / y)
    have h2 := Int.ceil_lt_add_one (x / y)
    constructor
    · nlinarith
    · nlinarith

theorem NewtonianMass.step_v (s : NewtonianMass K) (dt : K) :
    (s.step dt).v = s.v + s.totalForce dt / s.m := rfl

theorem NewtonianMass.step_p (s : NewtonianMass K) (dt : K) :
    (s.step dt).p = s.p + (s.step dt).v := rfl

theorem NewtonianMass.step_o (s : NewtonianMass K) (dt : K) :
    (s.step dt).o = fmod (s.o + s.totalTorque dt / s.I) 360 := rfl

theorem NewtonianMass.step_a (s : NewtonianMass K) (dt : K) :
    (s.step dt).a = fmod (s.a + (s.o + s.totalTorque dt / s.I)) 360 := rfl

end FmodLemmas

/-! ## Helper lemmas: the life of a solid -/

section SolidFrame

variable {K : Type}

theorem Solid.toNormalSolid_mapNormalSolid (f : NormalSolid K → NormalSolid K) (s : Solid K) :
    (s.mapNormalSolid f).toNormalSolid = f s.toNormalSolid := by
  cases s <;> rfl

theorem Solid.descriptor_mapNormalSolid (f : NormalSolid K → NormalSolid K) (s : Solid K)
    (hf : ∀ n, (f n).descriptor = n.descriptor) :
    (s.mapNormalSolid f).descriptor = s.descriptor := by
  cases s with
  | normal s => exact hf s
  | ship s => exact hf s.toNormalSolid

end SolidFrame

section SolidHit

variable {K : Type} [LinearOrderedField K]

theorem NormalSolid.descriptor_hit (L : Libm K) (n : NormalSolid K) (impulse : Vector2d K) :
    (n.hit L impulse).descriptor = n.descriptor := by
  simp only [NormalSolid.hit, NormalSolid.die]
  split_ifs <;> rfl

end SolidHit

section SolidLemmas

variable {K : Type} [LinearOrderedField K] [FloorRing K]

theorem Solid.step_toNormalSolid (L : Libm K) (s : Solid K) (deltaTime : K) :
    ∃ n : NormalSolid K,
      (Mass.step L s deltaTime).toNormalSolid = n.step deltaTime
        ∧ n.hitPoints = s.toNormalSolid.hitPoints ∧ n.life = s.toNormalSolid.life
        ∧ n.damage = s.toNormalSolid.damage ∧ n.age = s.toNormalSolid.age
        ∧ n.dead = s.toNormalSolid.dead := by
  cases s with
  | normal s => exact ⟨s, rfl, rfl, rfl, rfl, rfl, rfl⟩
  | ship s =>
    refine ⟨_, rfl, ?_, ?_, ?_, ?_, ?_⟩ <;>
      (simp only [Solid.toNormalSolid, NormalSolid.push, NormalSolid.torque]
       split_ifs <;> rfl)

/-- What a call does to the life of a solid: the budgets stay; `hit(impulse)` adds the
magnitude of the impulse to the damage and `step` adds one to the age, and each of the two
kills the solid when its budget is exceeded; nothing else touches damage, age or liveness. -/
theorem SolidCall.run_life (L : Libm K) (c : SolidCall K) (s : Solid K) :
    (c.run L s).toNormalSolid.hitPoints = s.toNormalSolid.hitPoints
      ∧ (c.run L s).toNormalSolid.life = s.toNormalSolid.life
      ∧ ((∃ impulse, c = SolidCall.hit impulse
            ∧ (c.run L s).toNormalSolid.damage
                = s.toNormalSolid.damage + impulse.magnitude L
            ∧ (c.run L s).toNormalSolid.age = s.toNormalSolid.age
            ∧ ((c.run L s).toNormalSolid.dead = true ↔
                s.toNormalSolid.dead = true
                  ∨ (s.toNormalSolid.hitPoints ≠ 0
                      ∧ (c.run L s).toNormalSolid.damage > (s.toNormalSolid.hitPoints : K))))
        ∨ (∃ deltaTime, c = SolidCall.step deltaTime
            ∧ (c.run L s).toNormalSolid.damage = s.toNormalSolid.damage
            ∧ (c.run L s).toNormalSolid.age = s.toNormalSolid.age + 1
            ∧ ((c.run L s).toNormalSolid.dead = true ↔
                s.toNormalSolid.dead = true
                  ∨ (s.toNormalSolid.life ≠ 0
                      ∧ (c.run L s).toNormalSolid.age > (s.toNormalSolid.life : K))))
        ∨ ((c.run L s).toNormalSolid.damage = s.toNormalSolid.damage
            ∧ (c.run L s).toNormalSolid.age = s.toNormalSolid.age
            ∧ (c.run L s).toNormalSolid.dead = s.toNormalSolid.dead)) := by
  cases c with
  | push force =>
    refine ⟨?_, ?_, Or.inr (Or.inr ⟨?_, ?_, ?_⟩)⟩ <;>
      simp [SolidCall.run, Mass.push, Solid.toNormalSolid_mapNormalSolid, NormalSolid.push]
  | hit impulse =>
    have hr : (SolidCall.run L (SolidCall.hit impulse) s).toNormalSolid
        = s.toNormalSolid.hit L impulse := by
      simp [SolidCall.run, Mass.hit, Solid.toNormalSolid_mapNormalSolid]
    rw [hr]
    refine ⟨?_, ?_, Or.inl ⟨impulse, rfl, ?_, ?_, ?_⟩⟩
    · simp only [NormalSolid.hit, NormalSolid.die]; split_ifs <;> rfl
    · simp only [NormalSolid.hit, NormalSolid.die]; split_ifs <;> rfl
    · simp only [NormalSolid.hit, NormalSolid.die]; split_ifs <;> rfl
    · simp only [NormalSolid.hit, NormalSolid.die]; split_ifs <;> rfl
    · simp only [NormalSolid.hit, NormalSolid.die]
      split_ifs with h
      · simp only [true_iff]
        exact Or.inr h
      · constructor
        · intro hd; exact Or.inl hd
        · rintro (hd | hd)
          · exact hd
          · exact absurd hd h
  | pushOffset force offset =>
    refine ⟨?_, ?_, Or.inr (Or.inr ⟨?_, ?_, ?_⟩)⟩ <;>
      simp [SolidCall.run, Mass.pushOffset, Solid.toNormalSolid_mapNormalSolid,
        NormalSolid.pushOffset]
  | hitOffset impulse offset =>
    refine ⟨?_, ?_, Or.inr (Or.inr ⟨?_, ?_, ?_⟩)⟩ <;>
      simp [SolidCall.run, Mass.hitOffset, Solid.toNormalSolid_mapNormalSolid,
        NormalSolid.hitOffset]
  | torque torque =>
    refine ⟨?_, ?_, Or.inr (Or.inr ⟨?_, ?_, ?_⟩)⟩ <;>
      simp [SolidCall.run, Mass.torque, Solid.toNormalSolid_mapNormalSolid, NormalSolid.torque]
  | twist suddenTorque =>
    refine ⟨?_, ?_, Or.inr (Or.inr ⟨?_, ?_, ?_⟩)⟩ <;>
      simp [SolidCall.run, Mass.twist, Solid.toNormalSolid_mapNormalSolid, NormalSolid.twist]
  | translate deltaPosition =>
    refine ⟨?_, ?_, Or.inr (Or.inr ⟨?_, ?_, ?_⟩)⟩ <;>
      simp [SolidCall.run, Mass.translate, Solid.toNormalSolid_mapNormalSolid,
        NormalSolid.translate]
  | step deltaTime =>
    obtain ⟨n, hn, h1, h2, h3, h4, h5⟩ := Solid.step_toNormalSolid L s deltaTime
    have hr : (SolidCall.run L (SolidCall.step deltaTime) s).toNormalSolid = n.step deltaTime := hn
    rw [hr, ← h1, ← h2, ← h3, ← h4, ← h5]
    refine ⟨?_, ?_, Or.inr (Or.inl ⟨deltaTime, rfl, ?_, ?_, ?_⟩)⟩
    · simp only [NormalSolid.step, NormalSolid.die]; split_ifs <;> rfl
    · simp only [NormalSolid.step, NormalSolid.die]; split_ifs <;> rfl
    · simp only [NormalSolid.step, NormalSolid.die]; split_ifs <;> rfl
    · simp only [NormalSolid.step, NormalSolid.die]; split_ifs <;> rfl
    · simp only [NormalSolid.step, NormalSolid.die]
      split_ifs with h
      · simp only [true_iff]
        exact Or.inr h
      · constructor
        · intro hd; exact Or.inl hd
        · rintro (hd | hd)
          · exact hd
          · exact absurd hd h
  | nextSpawn =>
    cases s with
    | normal s => exact ⟨rfl, rfl, Or.inr (Or.inr ⟨rfl, rfl, rfl⟩)⟩
    | ship s => exact ⟨rfl, rfl, Or.inr (Or.inr ⟨rfl, rfl, rfl⟩)⟩

theorem gravitate_descriptor (L : Libm K) (a b : Solid K) :
    (gravitate L a b).1.descriptor = a.descriptor
      ∧ (gravitate L a b).2.descriptor = b.descriptor :=
  ⟨Solid.descriptor_mapNormalSolid _ _ (fun _ => rfl),
    Solid.descriptor_mapNormalSolid _ _ (fun _ => rfl)⟩

theorem collision_descriptor (L : Libm K) (a b : Solid K) :
    (collision L a b).1.descriptor = a.descriptor
      ∧ (collision L a b).2.descriptor = b.descriptor := by
  unfold collision
  simp only
  split_ifs
  · exact ⟨rfl, rfl⟩
  · constructor
    · show (Solid.mapNormalSolid _ (Solid.mapNormalSolid _ a)).descriptor = _
      rw [Solid.descriptor_mapNormalSolid _ _ (fun n => NormalSolid.descriptor_hit L n _)]
      exact Solid.descriptor_mapNormalSolid _ _ (fun _ => rfl)
    · show (Solid.mapNormalSolid _ (Solid.mapNormalSolid _ b)).descriptor = _
      rw [Solid.descriptor_mapNormalSolid _ _ (fun n => NormalSolid.descriptor_hit L n _)]
      exact Solid.descriptor_mapNormalSolid _ _ (fun _ => rfl)

end SolidLemmas

section RatLibmSign

theorem ratLibm_sqrt_nonneg (x : ℚ) : 0 ≤ ratLibm.sqrt x := by
  simp only [ratLibm]
  positivity

end RatLibmSign

/-! ## Helper lemmas: the loops of `interactAll` and `stepAll` -/

section HeapInteract

variable {K : Type}

theorem Heap.interact_get_descriptor (f : Solid K → Solid K → Solid K × Solid K)
    (hf : ∀ a b, (f a b).1.descriptor = a.descriptor ∧ (f a b).2.descriptor = b.descriptor)
    (h : Heap K) (p q x : Nat) :
    ((h.interact f p q).get x).descriptor = (h.get x).descriptor := by
  simp only [Heap.interact, Heap.set, Heap.get]
  by_cases hxq : x = q
  · subst hxq
    simp only [if_true]
    exact (hf _ _).2
  · simp only [hxq, if_false]
    by_cases hxp : x = p
    · subst hxp
      simp only [if_true]
      exact (hf _ _).1
    · simp only [hxp, if_false]

theorem Heap.interact_get_of_ne (f : Solid K → Solid K → Solid K × Solid K)
    (h : Heap K) (p q x : Nat) (hp : x ≠ p) (hq : x ≠ q) :
    (h.interact f p q).get x = h.get x := by
  simp [Heap.interact, Heap.set, Heap.get, hp, hq]

theorem Heap.interact_next (f : Solid K → Solid K → Solid K × Solid K)
    (h : Heap K) (p q : Nat) : (h.interact f p q).next = h.next := rfl

end HeapInteract

section InteractLoops

variable {K : Type} [LinearOrderedField K] [FloorRing K]

open Universe

theorem interactPairs_nil (L : Libm K) (h : Heap K) : interactPairs L [] h = h := rfl

theorem interactPairs_cons (L : Libm K) (pq : Nat × Nat) (pairs : List (Nat × Nat))
    (h : Heap K) :
    interactPairs L (pq :: pairs) h
      = interactPairs L pairs
          ((h.interact (gravitate L) pq.1 pq.2).interact (collision L) pq.1 pq.2) := rfl

theorem interactPairs_append (L : Libm K) (l₁ l₂ : List (Nat × Nat)) (h : Heap K) :
    interactPairs L (l₁ ++ l₂) h = interactPairs L l₂ (interactPairs L l₁ h) := by
  simp [interactPairs, List.foldl_append]

theorem interactPairs_descriptor (L : Libm K) (pairs : List (Nat × Nat)) :
    ∀ (h : Heap K) (x : Nat),
      ((interactPairs L pairs h).get x).descriptor = (h.get x).descriptor := by
  induction pairs with
  | nil => intro h x; rfl
  | cons pq rest ih =>
    intro h x
    rw [interactPairs_cons, ih,
      Heap.interact_get_descriptor _ (collision_descriptor L),
      Heap.interact_get_descriptor _ (gravitate_descriptor L)]

theorem interactPairs_get_of_not_mem (L : Libm K) (pairs : List (Nat × Nat)) :
    ∀ (h : Heap K) (x : Nat), (∀ pq ∈ pairs, x ≠ pq.1 ∧ x ≠ pq.2) →
      (interactPairs L pairs h).get x = h.get x := by
  induction pairs with
  | nil => intro h x _; rfl
  | cons pq rest ih =>
    intro h x hx
    have h1 := hx pq (List.mem_cons_self _ _)
    rw [interactPairs_cons, ih _ x (fun r hr => hx r (List.mem_cons_of_mem _ hr)),
      Heap.interact_get_of_ne _ _ _ _ _ h1.1 h1.2,
      Heap.interact_get_of_ne _ _ _ _ _ h1.1 h1.2]

theorem interactPairs_next (L : Libm K) (pairs : List (Nat × Nat)) :
    ∀ h : Heap K, (interactPairs L pairs h).next = h.next := by
  induction pairs with
  | nil => intro h; rfl
  | cons pq rest ih => intro h; rw [interactPairs_cons, ih]; rfl

/-- The inner loop of `interactAll`: it blocks when the solid `p` comes again, as a solid
that is not an effect, in the rest of the list; otherwise it interacts `p` with each solid of
the rest that is not an effect. -/
theorem interactInner_eq (L : Libm K) (d : Nat → Int) (p : Nat) (rest : List Nat) :
    ∀ h : Heap K, (∀ x, (h.get x).descriptor = d x) →
      interactInner L p rest h
        = if p ∈ rest.filter (fun q => d q != 2) then none
          else some (interactPairs L ((rest.filter (fun q => d q != 2)).map (fun q => (p, q))) h) := by
  induction rest with
  | nil => intro h _; simp [interactInner, interactPairs_nil]
  | cons q rest ih =>
    intro h hd
    by_cases hq : (d q != 2) = true
    · have hq' : ((h.get q).descriptor != 2) = true := by rw [hd q]; exact hq
      by_cases hqp : q = p
      · subst hqp
        simp [interactInner, hq', hq]
      · have hd' : ∀ x, (((h.interact (gravitate L) p q).interact (collision L) p q).get x).descriptor
            = d x := by
          intro x
          rw [Heap.interact_get_descriptor _ (collision_descriptor L),
            Heap.interact_get_descriptor _ (gravitate_descriptor L), hd x]
        have hstep : interactInner L p (q :: rest) h
            = interactInner L p rest
                ((h.interact (gravitate L) p q).interact (collision L) p q) := by
          simp only [interactInner, hq', hqp, if_true, if_false]
        rw [hstep, ih _ hd']
        have hmem : (p ∈ (q :: rest).filter (fun q => d q != 2))
            ↔ (p ∈ rest.filter (fun q => d q != 2)) := by
          simp only [List.filter_cons, hq, if_true, List.mem_cons]
          constructor
          · rintro (h1 | h1)
            · exact absurd h1.symm hqp
            · exact h1
          · exact Or.inr
        by_cases hin : p ∈ rest.filter (fun q => d q != 2)
        · rw [if_pos hin, if_pos (hmem.mpr hin)]
        · rw [if_neg hin, if_neg (fun hh => hin (hmem.mp hh))]
          simp only [List.filter_cons, hq, if_true, List.map_cons, interactPairs_cons]
    · have hq' : ¬ ((h.get q).descriptor != 2) = true := by rw [hd q]; exact hq
      have hstep : interactInner L p (q :: rest) h = interactInner L p rest h := by
        simp only [interactInner, hq']
        simp
      rw [hstep, ih h hd]
      simp only [List.filter_cons, hq]
      simp

theorem pairsOf_filter_cons_of_nonEffect (d : Nat → Int) (p : Nat) (rest : List Nat)
    (hp : (d p != 2) = true) :
    (pairsOf (p :: rest)).filter (fun pq => d pq.1 != 2 && d pq.2 != 2)
      = (rest.filter (fun q => d q != 2)).map (fun q => (p, q))
          ++ (pairsOf rest).filter (fun pq => d pq.1 != 2 && d pq.2 != 2) := by
  simp only [pairsOf, List.filter_append, List.filter_map]
  congr 2
  apply List.filter_congr
  intro q _
  simp [hp]

theorem pairsOf_filter_cons_of_effect (d : Nat → Int) (p : Nat) (rest : List Nat)
    (hp : ¬ (d p != 2) = true) :
    (pairsOf (p :: rest)).filter (fun pq => d pq.1 != 2 && d pq.2 != 2)
      = (pairsOf rest).filter (fun pq => d pq.1 != 2 && d pq.2 != 2) := by
  simp only [pairsOf, List.filter_append, List.filter_map]
  have : List.filter ((fun pq : Nat × Nat => d pq.1 != 2 && d pq.2 != 2) ∘ fun q => (p, q)) rest
      = [] := by
    rw [List.filter_eq_nil_iff]
    intro q _
    simp only [Function.comp, Bool.and_eq_true, not_and]
    intro h
    exact absurd h hp
  rw [this]
  rfl

/-- The outer loop of `interactAll`: it blocks when a solid that is not an effect occurs
twice in the list; otherwise it interacts the pairs of solids that are not effects, in the
lexicographic order of their indices. -/
theorem interactOuter_eq (L : Libm K) (d : Nat → Int) (l : List Nat) :
    ∀ h : Heap K, (∀ x, (h.get x).descriptor = d x) →
      interactOuter L l h
        = if (l.filter (fun q => d q != 2)).Nodup then
            some (interactPairs L
              ((pairsOf l).filter (fun pq => d pq.1 != 2 && d pq.2 != 2)) h)
          else none := by
  induction l with
  | nil => intro h _; simp [interactOuter, pairsOf, interactPairs_nil]
  | cons p rest ih =>
    intro h hd
    by_cases hp : (d p != 2) = true
    · have hp' : ((h.get p).descriptor != 2) = true := by rw [hd p]; exact hp
      have hstep : interactOuter L (p :: rest) h
          = match interactInner L p rest h with
            | none => none
            | some h1 => interactOuter L rest h1 := by
        simp only [interactOuter, hp', if_true]
      rw [hstep, interactInner_eq L d p rest h hd, pairsOf_filter_cons_of_nonEffect d p rest hp]
      simp only [List.filter_cons, hp, if_true, List.nodup_cons]
      by_cases hin : p ∈ rest.filter (fun q => d q != 2)
      · simp [hin]
      · simp only [hin, if_false, not_false_eq_true, true_and]
        rw [ih _ (fun x => by rw [interactPairs_descriptor, hd x]), interactPairs_append]
    · have hp' : ¬ ((h.get p).descriptor != 2) = true := by rw [hd p]; exact hp
      have hstep : interactOuter L (p :: rest) h = interactOuter L rest h := by
        simp only [interactOuter, hp']
        simp
      rw [hstep, ih h hd, pairsOf_filter_cons_of_effect d p rest hp]
      simp only [List.filter_cons, hp]
      simp

/-- The method `interactAll`: it blocks exactly when a solid that is not an effect occurs
twice in the active list; otherwise it returns the heap after the interactions of
`interactionPairs`, and the universe as it was. -/
theorem interactAll_eq (L : Libm K) (h : Heap K) (u : Universe) :
    interactAll L h u
      = if (nonEffects h u.allSolids).Nodup then
          some (interactPairs L (interactionPairs h u.allSolids) h, u)
        else none := by
  simp only [interactAll, interactOuter_eq L (fun x => (h.get x).descriptor) u.allSolids h
    (fun _ => rfl)]
  by_cases hn : (nonEffects h u.allSolids).Nodup
  · have hn' : (List.filter (fun q => (h.get q).descriptor != 2) u.allSolids).Nodup := hn
    simp only [hn, hn', if_true]
    rfl
  · have hn' : ¬ (List.filter (fun q => (h.get q).descriptor != 2) u.allSolids).Nodup := hn
    simp only [hn, hn', if_false]

theorem mem_pairsOf (l : List Nat) (p q : Nat) (hpq : (p, q) ∈ pairsOf l) : p ∈ l ∧ q ∈ l := by
  induction l with
  | nil => simp [pairsOf] at hpq
  | cons x rest ih =>
    simp only [pairsOf, List.mem_append, List.mem_map, Prod.mk.injEq] at hpq
    rcases hpq with ⟨y, hy, hx, hyq⟩ | hpq
    · subst hx; subst hyq
      exact ⟨List.mem_cons_self _ _, List.mem_cons_of_mem _ hy⟩
    · exact ⟨List.mem_cons_of_mem _ (ih hpq).1, List.mem_cons_of_mem _ (ih hpq).2⟩

theorem pairsOf_nodup (l : List Nat) (hl : l.Nodup) :
    (pairsOf l).Nodup ∧ ∀ pq ∈ pairsOf l, pq.1 ≠ pq.2 := by
  induction l with
  | nil => simp [pairsOf]
  | cons x rest ih =>
    obtain ⟨hx, hrest⟩ := List.nodup_cons.mp hl
    obtain ⟨ih1, ih2⟩ := ih hrest
    constructor
    · simp only [pairsOf]
      rw [List.nodup_append]
      refine ⟨?_, ih1, ?_⟩
      · exact List.Nodup.map (fun a b hab => (Prod.mk.inj hab).2) hrest
      · intro pq h1 h2
        obtain ⟨y, _, hy⟩ := List.mem_map.mp h1
        subst hy
        exact hx (mem_pairsOf rest x y h2).1
    · intro pq hpq
      simp only [pairsOf, List.mem_append, List.mem_map] at hpq
      rcases hpq with ⟨y, hy, rfl⟩ | hpq
      · intro hxy
        have hxy' : x = y := hxy
        exact hx (by rw [hxy']; exact hy)
      · exact ih2 pq hpq

theorem pairsOf_eq_flatMap (l : List Nat) :
    pairsOf l
      = (List.range l.length).flatMap
          (fun i => (l.drop (i + 1)).map (fun q => (l.getD i 0, q))) := by
  induction l with
  | nil => rfl
  | cons p rest ih =>
    simp only [pairsOf, List.length_cons, List.range_succ_eq_map, List.flatMap_cons,
      List.flatMap_map, ih]
    simp

theorem stepLoop_get (L : Libm K) (deltaTime : K) (l : List Nat) :
    ∀ (h : Heap K) (p : Nat),
      (stepLoop L deltaTime l h).get p
        = (fun s => Mass.step L s deltaTime)^[l.count p] (h.get p) := by
  induction l with
  | nil => intro h p; rfl
  | cons q rest ih =>
    intro h p
    rw [stepLoop, ih]
    by_cases hpq : p = q
    · subst hpq
      rw [List.count_cons_self, Function.iterate_succ_apply]
      simp [Heap.set, Heap.get]
    · rw [List.count_cons_of_ne hpq]
      simp [Heap.set, Heap.get, hpq]

theorem stepLoop_next (L : Libm K) (deltaTime : K) (l : List Nat) :
    ∀ h : Heap K, (stepLoop L deltaTime l h).next = h.next := by
  induction l with
  | nil => intro h; rfl
  | cons q rest ih => intro h; rw [stepLoop, ih]; rfl

end InteractLoops

section PairLemmas

variable {K : Type}

theorem pairsOf_nonEffects (h : Heap K) (l : List Nat) :
    pairsOf (nonEffects h l) = interactionPairs h l := by
  induction l with
  | nil => rfl
  | cons p rest ih =>
    unfold interactionPairs nonEffects at *
    by_cases hp : ((h.get p).descriptor != 2) = true
    · rw [pairsOf_filter_cons_of_nonEffect (fun x => (h.get x).descriptor) p rest hp, ← ih]
      simp only [List.filter_cons, hp, if_true, pairsOf]
    · rw [pairsOf_filter_cons_of_effect (fun x => (h.get x).descriptor) p rest hp, ← ih]
      simp only [List.filter_cons, hp]
      simp

end PairLemmas

/-! ## Helper lemmas: `<math.h>` -/

section SqrtLemmas

variable {K : Type} [LinearOrderedField K]

theorem Libm.sqrt_eq_of_sqrtExactAt (L : Libm K) (s r : K) (hs : L.SqrtExactAt s)
    (hr : 0 ≤ r) (h : r * r = s) : L.sqrt s = r := by
  obtain ⟨h1, h2⟩ := hs
  have hfac : (L.sqrt s - r) * (L.sqrt s + r) = 0 := by linear_combination h2 - h
  rcases mul_eq_zero.mp hfac with h3 | h3
  · linarith
  · have h4 : L.sqrt s = 0 := by linarith
    have h5 : r = 0 := by linarith
    rw [h4, h5]

end SqrtLemmas

section TrigLibm

theorem trigLibm_sin_cos (r : ℚ) :
    trigLibm.sin r * trigLibm.sin r + trigLibm.cos r * trigLibm.cos r = 1 := by
  have h : (4 + r * r) ≠ 0 := ne_of_gt (by nlinarith [mul_self_nonneg r])
  have e : 1 + r * r / 4 = (4 + r * r) / 4 := by ring
  simp only [trigLibm, e]
  field_simp
  ring

theorem trigLibm_atan_pos (z : ℚ) (hz : 0 < z) :
    0 < trigLibm.atan z * 57.2957795 ∧ trigLibm.atan z * 57.2957795 < 90 := by
  have habs : |z| = z := abs_of_pos hz
  have h1 : (0 : ℚ) < 1 + z := by linarith
  simp only [trigLibm, habs]
  constructor
  · positivity
  · rw [div_mul_eq_mul_div, div_lt_iff₀ h1]
    norm_num
    nlinarith

theorem trigLibm_atan_neg (z : ℚ) (hz : z < 0) :
    -90 < trigLibm.atan z * 57.2957795 ∧ trigLibm.atan z * 57.2957795 < 0 := by
  have habs : |z| = - z := abs_of_neg hz
  have h1 : (0 : ℚ) < 1 + - z := by linarith
  simp only [trigLibm, habs]
  constructor
  · rw [div_mul_eq_mul_div, lt_div_iff₀ h1]
    norm_num
    nlinarith
  · rw [div_mul_eq_mul_div, div_lt_iff₀ h1]
    norm_num
    nlinarith

theorem ratLibm_sqrt_div (a b : ℕ) (hb : 0 < b) (hab : Nat.Coprime a b) (q : ℚ)
    (h : q = ((a : ℚ) / b) * ((a : ℚ) / b)) :
    ratLibm.sqrt q = (a : ℚ) / b ∧ ratLibm.SqrtExactAt q := by
  have hq : q = (((a * a : ℕ) : ℤ) : ℚ) / (((b * b : ℕ) : ℤ) : ℚ) := by
    rw [h]
    push_cast
    have hb' : (b : ℚ) ≠ 0 := by exact_mod_cast (Nat.pos_iff_ne_zero.mp hb)
    field_simp
  have hcop : Nat.Coprime ((a * a : ℕ) : ℤ).natAbs ((b * b : ℕ) : ℤ).natAbs := by
    simp only [Int.natAbs_ofNat]
    exact Nat.Coprime.mul_right (Nat.Coprime.mul hab hab) (Nat.Coprime.mul hab hab)
  have hpos : (0 : ℤ) < ((b * b : ℕ) : ℤ) := by
    exact_mod_cast Nat.mul_pos hb hb
  have hnum : q.num = ((a * a : ℕ) : ℤ) := by
    rw [hq]
    exact Rat.num_div_eq_of_coprime hpos hcop
  have hden : (q.den : ℤ) = ((b * b : ℕ) : ℤ) := by
    rw [hq]
    exact Rat.den_div_eq_of_coprime hpos hcop
  have hden' : q.den = b * b := by exact_mod_cast hden
  have hs : ratLibm.sqrt q = (a : ℚ) / b := by
    simp only [ratLibm, hnum, hden', Int.toNat_ofNat, Nat.sqrt_eq]
  refine ⟨hs, ?_⟩
  unfold Libm.SqrtExactAt
  rw [hs, h]
  exact ⟨by positivity, rfl⟩

end TrigLibm

/-! ## Helper lemmas: `lock.h` -/

section LockLemmas

theorem Resource.toUint32_neg_one : Resource.toUint32 (-1) = 4294967295 := by decide

theorem Resource.boolOrError_eq (x : Nat) :
    Resource.boolOrError x
      = if x = 0 then Except.ok true
        else if x = 4294967295 then Except.error ResourceError.mk else Except.ok false := by
  unfold Resource.boolOrError
  rw [Resource.toUint32_neg_one]

end LockLemmas

/-! ## Helper lemmas: the collision of two bodies, and the two-body scenario -/

section HeapInteractGet

variable {K : Type}

theorem Heap.interact_get_left (f : Solid K → Solid K → Solid K × Solid K)
    (h : Heap K) (p q : Nat) (hpq : p ≠ q) :
    (h.interact f p q).get p = (f (h.get p) (h.get q)).1 := by
  simp [Heap.interact, Heap.set, Heap.get, hpq]

theorem Heap.interact_get_right (f : Solid K → Solid K → Solid K × Solid K)
    (h : Heap K) (p q : Nat) :
    (h.interact f p q).get q = (f (h.get p) (h.get q)).2 := by
  simp [Heap.interact, Heap.set, Heap.get]

end HeapInteractGet

section TangentLemmas

variable {K : Type} [LinearOrderedField K] [FloorRing K]

open Universe

theorem NewtonianMass.step_v_hit (s : NewtonianMass K) (d impulse : Vector2d K) (dt : K) :
    (({ s with p := d, isum := s.isum + impulse } : NewtonianMass K).step dt).v
      = (s.step dt).v + impulse / s.m := by
  rw [NewtonianMass.step_v, NewtonianMass.step_v]
  simp only [NewtonianMass.totalForce, NewtonianMass.velocity, NewtonianMass.mass]
  cases s.cls <;>
    (ext <;> simp only [Vector2d.add_x, Vector2d.add_y, Vector2d.div_x, Vector2d.div_y,
        Vector2d.mul_x, Vector2d.mul_y, Vector2d.smul_x, Vector2d.smul_y] <;> ring)

theorem collision_cases (L : Libm K) (a b : NewtonianMass K) :
    ∃ c d : K,
      collision L a b =
        ({ a with p := a.p + (- (b.p - a.p).unit L) * d
                  isum := a.isum + - ((b.p - a.p).unit L * c) },
         { b with p := b.p + (b.p - a.p).unit L * d
                  isum := b.isum + (b.p - a.p).unit L * c }) := by
  by_cases h : (a.r + b.r) - (b.p - a.p).magnitude L < 0
  · refine ⟨0, 0, ?_⟩
    rw [collision_of_apart L a b h]
    have ha : a.p + (- (b.p - a.p).unit L) * (0 : K) = a.p := by ext <;> simp
    have hb : b.p + (b.p - a.p).unit L * (0 : K) = b.p := by ext <;> simp
    have hia : a.isum + - ((b.p - a.p).unit L * (0 : K)) = a.isum := by ext <;> simp
    have hib : b.isum + (b.p - a.p).unit L * (0 : K) = b.isum := by ext <;> simp
    rw [ha, hb, hia, hib]
  · exact ⟨_, _, collision_of_overlap L a b h⟩

theorem gravitate_normal (L : Libm K) (a b : NormalSolid K) :
    gravitate L (Solid.normal a) (Solid.normal b)
      = (Solid.normal { a with pMass := (gravitate L a.pMass b.pMass).1 },
         Solid.normal { b with pMass := (gravitate L a.pMass b.pMass).2 }) := rfl

theorem collision_normal (L : Libm K) (a b : NormalSolid K)
    (h : ¬ (a.pMass.r + b.pMass.r) - (b.pMass.p - a.pMass.p).magnitude L < 0) :
    collision L (Solid.normal a) (Solid.normal b)
      = (Solid.normal ((a.translate ((- (b.pMass.p - a.pMass.p).unit L)
            * ((a.pMass.r + b.pMass.r) - (b.pMass.p - a.pMass.p).magnitude L + 1))).hit L
          (- ((b.pMass.p - a.pMass.p).unit L *
            (2 * (dot a.pMass.v ((b.pMass.p - a.pMass.p).unit L) * a.pMass.m
              - (dot a.pMass.v ((b.pMass.p - a.pMass.p).unit L) * a.pMass.m
                  + dot b.pMass.v ((b.pMass.p - a.pMass.p).unit L) * b.pMass.m)
                  / (a.pMass.m + b.pMass.m) * a.pMass.m))))),
         Solid.normal ((b.translate ((b.pMass.p - a.pMass.p).unit L
            * ((a.pMass.r + b.pMass.r) - (b.pMass.p - a.pMass.p).magnitude L + 1))).hit L
          ((b.pMass.p - a.pMass.p).unit L *
            (2 * (dot a.pMass.v ((b.pMass.p - a.pMass.p).unit L) * a.pMass.m
              - (dot a.pMass.v ((b.pMass.p - a.pMass.p).unit L) * a.pMass.m
                  + dot b.pMass.v ((b.pMass.p - a.pMass.p).unit L) * b.pMass.m)
                  / (a.pMass.m + b.pMass.m) * a.pMass.m))))) := by
  unfold collision
  simp only [Mass.position, Mass.radius, Mass.mass, Mass.velocity, Solid.position,
    Solid.velocity, Solid.toNormalSolid, NormalSolid.position, NormalSolid.velocity,
    NormalSolid.radius, NormalSolid.mass, NewtonianMass.position, NewtonianMass.radius,
    NewtonianMass.mass, NewtonianMass.velocity]
  rw [if_neg h]
  rfl


theorem resting_interact (L : Libm K) (a b : NormalSolid K)
    (ha : Solid.AtRest 1000 20 (Solid.normal a)) (hb : Solid.AtRest 2000 35 (Solid.normal b))
    (hmag : (b.pMass.p - a.pMass.p).magnitude L = 10) (h0 : L.sqrt 0 = 0) :
    ∃ a₁ b₁ : NormalSolid K,
      collision L (gravitate L (Solid.normal a) (Solid.normal b)).1
          (gravitate L (Solid.normal a) (Solid.normal b)).2
        = (Solid.normal a₁, Solid.normal b₁)
      ∧ a₁.dead = false ∧ b₁.dead = false
      ∧ a₁.pMass = { a.pMass with
          p := a.pMass.p + (- (b.pMass.p - a.pMass.p).unit L) * (46 : K)
          fsum := a.pMass.fsum + (80 / 441 : K) * (b.pMass.p - a.pMass.p).unit L
          isum := a.pMass.isum + - ((b.pMass.p - a.pMass.p).unit L * (0 : K)) }
      ∧ b₁.pMass = { b.pMass with
          p := b.pMass.p + (b.pMass.p - a.pMass.p).unit L * (46 : K)
          fsum := b.pMass.fsum + - ((80 / 441 : K) * (b.pMass.p - a.pMass.p).unit L)
          isum := b.pMass.isum + (b.pMass.p - a.pMass.p).unit L * (0 : K) } := by
  obtain ⟨_, hdead, hdmg, hm, hr, hv, hf, hi⟩ := ha
  obtain ⟨_, hdead', hdmg', hm', hr', hv', hf', hi'⟩ := hb
  have hov : ¬ (a.pMass.r + b.pMass.r) - (b.pMass.p - a.pMass.p).magnitude L < 0 := by
    rw [hr, hr', hmag]
    norm_num
  have hov1 : (a.pMass.r + b.pMass.r) - (b.pMass.p - a.pMass.p).magnitude L + 1 = 46 := by
    rw [hr, hr', hmag]
    norm_num
  have himp : 2 * (dot a.pMass.v ((b.pMass.p - a.pMass.p).unit L) * a.pMass.m
      - (dot a.pMass.v ((b.pMass.p - a.pMass.p).unit L) * a.pMass.m
          + dot b.pMass.v ((b.pMass.p - a.pMass.p).unit L) * b.pMass.m)
          / (a.pMass.m + b.pMass.m) * a.pMass.m) = 0 := by
    rw [hv, hv']
    simp [dot]
  have hgrav : gravitate L a.pMass b.pMass
      = (a.pMass.push ((80 / 441 : K) * (b.pMass.p - a.pMass.p).unit L),
         b.pMass.push (- ((80 / 441 : K) * (b.pMass.p - a.pMass.p).unit L))) := by
    unfold gravitate
    simp only [Mass.position, Mass.radius, Mass.mass, Mass.push, NewtonianMass.position,
      NewtonianMass.radius, NewtonianMass.mass, hm, hm', hr, hr', hmag]
    norm_num
  have hz : ((b.pMass.p - a.pMass.p).unit L * (0 : K)).magnitude L = 0
      ∧ (- ((b.pMass.p - a.pMass.p).unit L * (0 : K))).magnitude L = 0 := by
    simp [Vector2d.magnitude, h0]
  rw [gravitate_normal, hgrav]
  have hov' : ¬ (({ a with pMass := a.pMass.push ((80 / 441 : K)
        * (b.pMass.p - a.pMass.p).unit L) } : NormalSolid K).pMass.r
      + ({ b with pMass := b.pMass.push (- ((80 / 441 : K)
        * (b.pMass.p - a.pMass.p).unit L)) } : NormalSolid K).pMass.r)
      - (({ b with pMass := b.pMass.push (- ((80 / 441 : K)
        * (b.pMass.p - a.pMass.p).unit L)) } : NormalSolid K).pMass.p
        - ({ a with pMass := a.pMass.push ((80 / 441 : K)
        * (b.pMass.p - a.pMass.p).unit L) } : NormalSolid K).pMass.p).magnitude L < 0 := hov
  rw [collision_normal L _ _ hov']
  simp only [NewtonianMass.push]
  rw [himp, hov1]
  refine ⟨_, _, rfl, ?_, ?_, ?_, ?_⟩
  · simp only [NormalSolid.hit, NormalSolid.translate, NormalSolid.die, hz.2, add_zero]
    rw [if_neg hdmg]
    exact hdead
  · simp only [NormalSolid.hit, NormalSolid.translate, NormalSolid.die, hz.1, add_zero]
    rw [if_neg hdmg']
    exact hdead'
  · simp only [NormalSolid.hit, NormalSolid.translate, NormalSolid.die]
    split_ifs <;> rfl
  · simp only [NormalSolid.hit, NormalSolid.translate, NormalSolid.die]
    split_ifs <;> rfl


theorem two_body_tick (L : Libm K) (fuel : Nat) (dt : K) (h : Heap K) (u : Universe)
    (p q : Nat) (hu : u.allSolids = [p, q]) (hpq : p ≠ q)
    (hpa : p ∉ u.addList) (hqa : q ∉ u.addList)
    (ha : Solid.AtRest 1000 20 (h.get p)) (hb : Solid.AtRest 2000 35 (h.get q))
    (hmag : ((h.get q).position - (h.get p).position).magnitude L = 10)
    (h0 : L.sqrt 0 = 0) :
    ∃ (h₁ h₂ : Heap K) (a b a₁ b₁ : NormalSolid K),
      h.get p = Solid.normal a ∧ h.get q = Solid.normal b
        ∧ interactAll L h u = some (h₁, u)
        ∧ normalizeAllBody L fuel h₁ u
            = some (h₁, { addList := [], allSolids := [p, q] ++ u.addList })
        ∧ stepAll L dt h₁ { addList := [], allSolids := [p, q] ++ u.addList }
            = (h₂, { addList := [], allSolids := [p, q] ++ u.addList })
        ∧ h₁.get p = Solid.normal a₁ ∧ h₁.get q = Solid.normal b₁
        ∧ h₂.get p = Solid.normal (a₁.step dt) ∧ h₂.get q = Solid.normal (b₁.step dt)
        ∧ a₁.pMass = { a.pMass with
            p := a.pMass.p + (- (b.pMass.p - a.pMass.p).unit L) * (46 : K)
            fsum := a.pMass.fsum + (80 / 441 : K) * (b.pMass.p - a.pMass.p).unit L
            isum := a.pMass.isum + - ((b.pMass.p - a.pMass.p).unit L * (0 : K)) }
        ∧ b₁.pMass = { b.pMass with
            p := b.pMass.p + (b.pMass.p - a.pMass.p).unit L * (46 : K)
            fsum := b.pMass.fsum + - ((80 / 441 : K) * (b.pMass.p - a.pMass.p).unit L)
            isum := b.pMass.isum + (b.pMass.p - a.pMass.p).unit L * (0 : K) } := by
  cases hgp : h.get p with
  | ship s => rw [hgp] at ha; exact ha.elim
  | normal a =>
    cases hgq : h.get q with
    | ship s => rw [hgq] at hb; exact hb.elim
    | normal b =>
      rw [hgp] at ha
      rw [hgq] at hb
      rw [hgp, hgq] at hmag
      obtain ⟨a₁, b₁, hc, hda, hdb, hpa₁, hpb₁⟩ := resting_interact L a b ha hb hmag h0
      have hdp : (h.get p).descriptor ≠ 2 := by rw [hgp]; exact ha.1
      have hdq : (h.get q).descriptor ≠ 2 := by rw [hgq]; exact hb.1
      have hg1 : (h.interact (gravitate L) p q).get p
          = (gravitate L (Solid.normal a) (Solid.normal b)).1 := by
        rw [Heap.interact_get_left _ _ _ _ hpq, hgp, hgq]
      have hg2 : (h.interact (gravitate L) p q).get q
          = (gravitate L (Solid.normal a) (Solid.normal b)).2 := by
        rw [Heap.interact_get_right, hgp, hgq]
      have h1p : ((h.interact (gravitate L) p q).interact (collision L) p q).get p
          = Solid.normal a₁ := by
        rw [Heap.interact_get_left _ _ _ _ hpq, hg1, hg2, hc]
      have h1q : ((h.interact (gravitate L) p q).interact (collision L) p q).get q
          = Solid.normal b₁ := by
        rw [Heap.interact_get_right, hg1, hg2, hc]
      have hint : interactAll L h u
          = some ((h.interact (gravitate L) p q).interact (collision L) p q, u) := by
        rw [interactAll_eq]
        have hne : nonEffects h u.allSolids = [p, q] := by
          simp [nonEffects, hu, hdp, hdq]
        have hpairs : interactionPairs h u.allSolids = [(p, q)] := by
          simp [interactionPairs, pairsOf, hu, hdp, hdq]
        rw [hne, hpairs, if_pos (by simp [hpq])]
        rfl
      generalize (h.interact (gravitate L) p q).interact (collision L) p q = H₁
        at h1p h1q hint
      have hnorm : normalizeAllBody L fuel H₁ u
          = some (H₁, { addList := [], allSolids := [p, q] ++ u.addList }) := by
        have hsp : (H₁.get p).hasSpawn = false := by rw [h1p]; rfl
        have hsq : (H₁.get q).hasSpawn = false := by rw [h1q]; rfl
        have hip : Universe.isDead H₁ p = false := by
          simp only [Universe.isDead, h1p]
          exact hda
        have hiq : Universe.isDead H₁ q = false := by
          simp only [Universe.isDead, h1q]
          exact hdb
        have he : explosionLoop [p, q] H₁ u = (H₁, u) := by
          simp [explosionLoop, hip, hiq]
        have hs : spawnLoop L fuel [p, q] H₁ u = some (H₁, u) := by
          simp only [spawnLoop, drainSpawns_of_not_hasSpawn L fuel p H₁ u hsp,
            drainSpawns_of_not_hasSpawn L fuel q H₁ u hsq]
        simp only [normalizeAllBody, hu, he, hs]
        simp [hip, hiq]
      have hcp : ([p, q] ++ u.addList).count p = 1 := by
        simp [List.count_cons, hpq, List.count_eq_zero_of_not_mem hpa, Ne.symm hpq]
      have hcq : ([p, q] ++ u.addList).count q = 1 := by
        simp [List.count_cons, hpq, List.count_eq_zero_of_not_mem hqa, Ne.symm hpq]
      refine ⟨H₁, stepLoop L dt ([p, q] ++ u.addList) H₁, a, b, a₁, b₁, rfl, rfl, hint, hnorm,
        rfl, h1p, h1q, ?_, ?_, hpa₁, hpb₁⟩
      · rw [stepLoop_get, hcp, h1p]
        rfl
      · rw [stepLoop_get, hcq, h1q]
        rfl


theorem NormalSolid.step_pMass (n : NormalSolid K) (dt : K) :
    (n.step dt).pMass = n.pMass.step dt := by
  simp only [NormalSolid.step, NormalSolid.die]
  split_ifs <;> rfl

theorem NewtonianMass.step_p_at_rest (s : NewtonianMass K) (dt : K) (hv : s.v = ⟨0, 0⟩) :
    (s.step dt).p
      = ⟨s.p.x + (s.fsum.x * dt + s.isum.x) / s.m, s.p.y + (s.fsum.y * dt + s.isum.y) / s.m⟩ := by
  rw [NewtonianMass.step_p, NewtonianMass.step_v]
  simp only [NewtonianMass.totalForce, NewtonianMass.velocity, NewtonianMass.mass, hv]
  cases s.cls <;>
    (ext <;> simp only [Vector2d.add_x, Vector2d.add_y, Vector2d.div_x, Vector2d.div_y,
        Vector2d.mul_x, Vector2d.mul_y, Vector2d.smul_x, Vector2d.smul_y] <;> ring)

theorem two_body_positions (L : Libm K) (a b a₁ b₁ : NormalSolid K) (dt : K)
    (ha : Solid.AtRest 1000 20 (Solid.normal a)) (hb : Solid.AtRest 2000 35 (Solid.normal b))
    (hmag : (b.pMass.p - a.pMass.p).magnitude L = 10)
    (hpa₁ : a₁.pMass = { a.pMass with
        p := a.pMass.p + (- (b.pMass.p - a.pMass.p).unit L) * (46 : K)
        fsum := a.pMass.fsum + (80 / 441 : K) * (b.pMass.p - a.pMass.p).unit L
        isum := a.pMass.isum + - ((b.pMass.p - a.pMass.p).unit L * (0 : K)) })
    (hpb₁ : b₁.pMass = { b.pMass with
        p := b.pMass.p + (b.pMass.p - a.pMass.p).unit L * (46 : K)
        fsum := b.pMass.fsum + - ((80 / 441 : K) * (b.pMass.p - a.pMass.p).unit L)
        isum := b.pMass.isum + (b.pMass.p - a.pMass.p).unit L * (0 : K) }) :
    b₁.pMass.p - a₁.pMass.p = (51 / 5 : K) * (b.pMass.p - a.pMass.p)
      ∧ a₁.pMass.isum = ⟨0, 0⟩ ∧ b₁.pMass.isum = ⟨0, 0⟩
      ∧ (b₁.step dt).pMass.p - (a₁.step dt).pMass.p
          = (51 / 5 - dt / 36750 : K) * (b.pMass.p - a.pMass.p) := by
  obtain ⟨_, _, _, hm, _, hv, hf, hi⟩ := ha
  obtain ⟨_, _, _, hm', _, hv', hf', hi'⟩ := hb
  have hu : (b.pMass.p - a.pMass.p).unit L
      = ⟨(b.pMass.p - a.pMass.p).x / 10, (b.pMass.p - a.pMass.p).y / 10⟩ := by
    rw [Vector2d.unit_of_pos L _ (by rw [hmag]; norm_num), hmag]
  have hva : a₁.pMass.v = ⟨0, 0⟩ := by rw [hpa₁]; exact hv
  have hvb : b₁.pMass.v = ⟨0, 0⟩ := by rw [hpb₁]; exact hv'
  refine ⟨?_, ?_, ?_, ?_⟩
  · rw [hpa₁, hpb₁, hu]
    ext
    · simp only [Vector2d.add_x, Vector2d.sub_x, Vector2d.neg_x, Vector2d.mul_x,
        Vector2d.smul_x]
      ring
    · simp only [Vector2d.add_y, Vector2d.sub_y, Vector2d.neg_y, Vector2d.mul_y,
        Vector2d.smul_y]
      ring
  · rw [hpa₁]
    simp only [hi]
    ext <;> simp
  · rw [hpb₁]
    simp only [hi']
    ext <;> simp
  · rw [NormalSolid.step_pMass, NormalSolid.step_pMass,
      NewtonianMass.step_p_at_rest _ dt hva, NewtonianMass.step_p_at_rest _ dt hvb,
      hpa₁, hpb₁, hu]
    simp only [hm, hm', hf, hf', hi, hi']
    ext
    · simp only [Vector2d.add_x, Vector2d.sub_x, Vector2d.neg_x, Vector2d.mul_x,
        Vector2d.smul_x]
      ring
    · simp only [Vector2d.add_y, Vector2d.sub_y, Vector2d.neg_y, Vector2d.mul_y,
        Vector2d.smul_y]
      ring

end TangentLemmas

/-! ## Helper lemmas: the checked divisions -/

section CheckedLemmas
variable {K : Type} [LinearOrderedField K]

theorem checkedDiv_of_ne (x y : K) (hy : y ≠ 0) : checkedDiv x y = some (x / y) := by
  simp [checkedDiv, hy]

theorem Vector2d.unitChecked_eq (L : Libm K) (v : Vector2d K) :
    v.unitChecked L = some (v.unit L) := by
  unfold Vector2d.unitChecked Vector2d.unit
  simp only
  split_ifs with h
  · rw [checkedDiv_of_ne _ _ (ne_of_gt h), checkedDiv_of_ne _ _ (ne_of_gt h)]
  · rfl

/-- A product above the underflow bound is a divisor that is not zero. -/
theorem checkedDivByProduct_of_lt (x y z : K) (h : (1 / 2 : K) ^ 1075 < |y * z|) :
    checkedDivByProduct x y z = some (x / (y * z)) := by
  unfold checkedDivByProduct productIsZero
  rw [if_neg]
  rw [decide_eq_true_eq]
  exact not_le.mpr h

/-- A product within the underflow bound is a zero divisor. -/
theorem checkedDivByProduct_of_le (x y z : K) (h : |y * z| ≤ (1 / 2 : K) ^ 1075) :
    checkedDivByProduct x y z = none := by
  unfold checkedDivByProduct productIsZero
  rw [if_pos]
  rw [decide_eq_true_eq]
  exact h

end CheckedLemmas

/-! ## Helper lemmas: kinetic energy, speed and separation -/

section EnergyAlgebra
variable {K : Type} [LinearOrderedField K]

theorem elastic_energy (ma mb vax vay vbx vby ax ay : K) (hma : ma ≠ 0) (hmb : mb ≠ 0)
    (hs : ma + mb ≠ 0) (hu : ax * ax + ay * ay = 1) :
    1 / 2 * ma *
        ((vax + (0 + - (ax * (2 * ((vax * ax + vay * ay) * ma
              - ((vax * ax + vay * ay) * ma + (vbx * ax + vby * ay) * mb) / (ma + mb) * ma))))
            / ma)
          * (vax + (0 + - (ax * (2 * ((vax * ax + vay * ay) * ma
              - ((vax * ax + vay * ay) * ma + (vbx * ax + vby * ay) * mb) / (ma + mb) * ma))))
            / ma)
        + (vay + (0 + - (ay * (2 * ((vax * ax + vay * ay) * ma
              - ((vax * ax + vay * ay) * ma + (vbx * ax + vby * ay) * mb) / (ma + mb) * ma))))
            / ma)
          * (vay + (0 + - (ay * (2 * ((vax * ax + vay * ay) * ma
              - ((vax * ax + vay * ay) * ma + (vbx * ax + vby * ay) * mb) / (ma + mb) * ma))))
            / ma))
      + 1 / 2 * mb *
        ((vbx + (0 + ax * (2 * ((vax * ax + vay * ay) * ma
              - ((vax * ax + vay * ay) * ma + (vbx * ax + vby * ay) * mb) / (ma + mb) * ma)))
            / mb)
          * (vbx + (0 + ax * (2 * ((vax * ax + vay * ay) * ma
              - ((vax * ax + vay * ay) * ma + (vbx * ax + vby * ay) * mb) / (ma + mb) * ma)))
            / mb)
        + (vby + (0 + ay * (2 * ((vax * ax + vay * ay) * ma
              - ((vax * ax + vay * ay) * ma + (vbx * ax + vby * ay) * mb) / (ma + mb) * ma)))
            / mb)
          * (vby + (0 + ay * (2 * ((vax * ax + vay * ay) * ma
              - ((vax * ax + vay * ay) * ma + (vbx * ax + vby * ay) * mb) / (ma + mb) * ma)))
            / mb))
      = 1 / 2 * ma * (vax * vax + vay * vay) + 1 / 2 * mb * (vbx * vbx + vby * vby) := by
  have key : ∀ c ua ub : K, c = 2 * (ua * ma - (ua * ma + ub * mb) / (ma + mb) * ma) →
      c * c * (ma + mb) = 2 * ma * mb * (c * (ua - ub)) := by
    intro c ua ub hc
    rw [hc]
    field_simp
    ring
  have h := key _ (vax * ax + vay * ay) (vbx * ax + vby * ay) rfl
  generalize 2 * ((vax * ax + vay * ay) * ma
      - ((vax * ax + vay * ay) * ma + (vbx * ax + vby * ay) * mb) / (ma + mb) * ma) = c at h ⊢
  have h' : (ax * ax + ay * ay) * (c * c * (ma + mb)) / (2 * ma * mb)
      = (ax * ax + ay * ay) * (c * ((vax * ax + vay * ay) - (vbx * ax + vby * ay))) := by
    rw [h]
    field_simp
    ring
  have e : 1 / 2 * ma *
        ((vax + (0 + - (ax * c)) / ma) * (vax + (0 + - (ax * c)) / ma)
          + (vay + (0 + - (ay * c)) / ma) * (vay + (0 + - (ay * c)) / ma))
      + 1 / 2 * mb *
        ((vbx + (0 + ax * c) / mb) * (vbx + (0 + ax * c) / mb)
          + (vby + (0 + ay * c) / mb) * (vby + (0 + ay * c) / mb))
      = 1 / 2 * ma * (vax * vax + vay * vay) + 1 / 2 * mb * (vbx * vbx + vby * vby)
        - c * ((vax * ax + vay * ay) - (vbx * ax + vby * ay))
        + (ax * ax + ay * ay) * (c * c * (ma + mb)) / (2 * ma * mb) := by
    field_simp
    ring
  rw [e, h']
  linear_combination (c * ((vax * ax + vay * ay) - (vbx * ax + vby * ay))) * hu

end EnergyAlgebra

section SeparationLemmas
variable {K : Type} [LinearOrderedField K] [FloorRing K]

theorem collision_distance (L : Libm K) (a b : NewtonianMass K)
    (hpos : 0 < (b.p - a.p).magnitude L)
    (hle : (b.p - a.p).magnitude L ≤ a.r + b.r)
    (hs : L.SqrtExactAt (dot (b.p - a.p) (b.p - a.p)))
    (hs' : L.SqrtExactAt (dot ((collision L a b).2.p - (collision L a b).1.p)
      ((collision L a b).2.p - (collision L a b).1.p))) :
    ((collision L a b).2.p - (collision L a b).1.p).magnitude L
      = (b.p - a.p).magnitude L + 2 * ((a.r + b.r) - (b.p - a.p).magnitude L + 1) := by
  have hc := collision_of_overlap L a b (by linarith)
  have hnn := Vector2d.magnitude_nonneg L _ hs'
  have hsq' := Vector2d.magnitude_mul_self L _ hs'
  have hsq := Vector2d.magnitude_mul_self L _ hs
  have hu := Vector2d.unit_of_pos L _ hpos
  generalize ((collision L a b).2.p - (collision L a b).1.p).magnitude L = d' at hnn hsq' ⊢
  rw [hc, hu] at hsq'
  generalize (b.p - a.p).magnitude L = r at hpos hle hsq hsq' hu ⊢
  simp only [Vector2d.add_x, Vector2d.add_y, Vector2d.sub_x, Vector2d.sub_y, Vector2d.neg_x,
    Vector2d.neg_y, Vector2d.mul_x, Vector2d.mul_y] at hsq hsq'
  have hr : r ≠ 0 := ne_of_gt hpos
  have key : d' * d' = (r + 2 * (a.r + b.r - r + 1)) * (r + 2 * (a.r + b.r - r + 1)) := by
    rw [hsq']
    field_simp
    have e : (b.p.x - a.p.x) * (b.p.x - a.p.x) + (b.p.y - a.p.y) * (b.p.y - a.p.y) = r * r := by
      linarith
    linear_combination ((r + 2 * (a.r + b.r - r + 1)) * (r + 2 * (a.r + b.r - r + 1))) * e
  have hfac : (d' - (r + 2 * (a.r + b.r - r + 1))) * (d' + (r + 2 * (a.r + b.r - r + 1))) = 0 := by
    linear_combination key
  rcases mul_eq_zero.mp hfac with h | h
  · linarith
  · exfalso
    linarith

end SeparationLemmas

section FrictionSpeedLemmas
variable {K : Type} [LinearOrderedField K] [FloorRing K]

theorem NewtonianMass.friction_step_v_of_empty (s : NewtonianMass K) (k kt dt : K)
    (hcls : s.cls = MassClass.friction k kt) (hm : s.m ≠ 0)
    (hf : s.fsum = 0) (hi : s.isum = 0) :
    (s.step dt).v = (1 - k * dt) * s.v := by
  rw [NewtonianMass.step_v]
  simp only [NewtonianMass.totalForce, hcls, NewtonianMass.velocity, NewtonianMass.mass, hf, hi]
  ext
  · simp only [Vector2d.add_x, Vector2d.div_x, Vector2d.mul_x, Vector2d.smul_x,
      Vector2d.zero_x]
    field_simp
    ring
  · simp only [Vector2d.add_y, Vector2d.div_y, Vector2d.mul_y, Vector2d.smul_y,
      Vector2d.zero_y]
    field_simp
    ring

end FrictionSpeedLemmas

section SpeedAlgebra
variable {K : Type} [LinearOrderedField K]

theorem dot_smul_self (c : K) (v : Vector2d K) : dot (c * v) (c * v) = c * c * dot v v := by
  simp only [dot, Vector2d.smul_x, Vector2d.smul_y]
  ring

theorem dot_self_pos (v : Vector2d K) (hv : v ≠ ⟨0, 0⟩) : 0 < dot v v := by
  simp only [dot]
  by_contra h
  have hx : v.x = 0 := by nlinarith [mul_self_nonneg v.x, mul_self_nonneg v.y]
  have hy : v.y = 0 := by nlinarith [mul_self_nonneg v.x, mul_self_nonneg v.y]
  exact hv (Vector2d.ext hx hy)

theorem magnitude_le_iff (L : Libm K) (v w : Vector2d K)
    (hv : L.SqrtExactAt (dot v v)) (hw : L.SqrtExactAt (dot w w)) :
    (w.magnitude L ≤ v.magnitude L ↔ dot w w ≤ dot v v)
      ∧ (v.magnitude L < w.magnitude L ↔ dot v v < dot w w) := by
  have h1 : w.magnitude L * w.magnitude L = dot w w := hw.2
  have h2 : v.magnitude L * v.magnitude L = dot v v := hv.2
  have n1 : 0 ≤ w.magnitude L := hw.1
  have n2 : 0 ≤ v.magnitude L := hv.1
  constructor
  · rw [← h1, ← h2]
    exact (mul_self_le_mul_self_iff n1 n2)
  · rw [← h1, ← h2]
    exact (mul_self_lt_mul_self_iff n2 n1)

end SpeedAlgebra

/-! ## Helper lemmas: the population -/

section SpawnerLemmas

theorem firstOccurrences_nodup (l : List Nat) : (firstOccurrences l).Nodup := by
  induction l with
  | nil => simp [firstOccurrences]
  | cons p rest ih =>
    simp only [firstOccurrences, List.nodup_cons, List.mem_filter, bne_self_eq_false,
      Bool.false_eq_true, and_false, not_false_eq_true, true_and]
    exact ih.filter _

end SpawnerLemmas

section SumLemmas
variable {K : Type} [LinearOrderedField K]

theorem sum_map_update (f : Nat → K) (p : Nat) (c : K) (l : List Nat) :
    (l.map (Function.update f p (f p + c))).sum = (l.map f).sum + (l.count p : K) * c := by
  induction l with
  | nil => simp
  | cons x rest ih =>
    simp only [List.map_cons, List.sum_cons, ih, List.count_cons]
    by_cases hx : x = p
    · subst hx
      simp
      ring
    · have hx' : (x == p) = false := by simpa using hx
      simp [Function.update, hx, hx']
      ring

theorem sum_map_pair (f g : Nat → K) (l : List Nat) (p q : Nat) (c : K) (hpq : p ≠ q)
    (hp : g p = f p + c) (hq : g q = f q + - c) (ho : ∀ x, x ≠ p → x ≠ q → g x = f x)
    (hc : l.count p = l.count q) :
    (l.map g).sum = (l.map f).sum := by
  have hg : g = Function.update (Function.update f p (f p + c)) q
      (Function.update f p (f p + c) q + - c) := by
    funext x
    by_cases hxq : x = q
    · subst hxq
      simp [Function.update, Ne.symm hpq, hq]
    · by_cases hxp : x = p
      · subst hxp
        simp [Function.update, hxq, hp]
      · simp [Function.update, hxq, hxp, ho x hxp hxq]
  rw [hg, sum_map_update, sum_map_update, hc]
  ring

end SumLemmas

section HitAccumulator

variable {K : Type} [LinearOrderedField K]

theorem NormalSolid.hit_pMass (L : Libm K) (n : NormalSolid K) (impulse : Vector2d K) :
    (n.hit L impulse).pMass = n.pMass.hit impulse := by
  simp only [NormalSolid.hit, NormalSolid.die]
  split_ifs <;> rfl

end HitAccumulator

section PairAccumulators
variable {K : Type} [LinearOrderedField K] [FloorRing K]

theorem pair_accumulators (L : Libm K) (a b : Solid K) :
    ∃ F I : Vector2d K,
      (collision L (gravitate L a b).1 (gravitate L a b).2).1.toNormalSolid.pMass.fsum
          = a.toNormalSolid.pMass.fsum + F
        ∧ (collision L (gravitate L a b).1 (gravitate L a b).2).2.toNormalSolid.pMass.fsum
          = b.toNormalSolid.pMass.fsum + - F
        ∧ (collision L (gravitate L a b).1 (gravitate L a b).2).1.toNormalSolid.pMass.isum
          = a.toNormalSolid.pMass.isum + - I
        ∧ (collision L (gravitate L a b).1 (gravitate L a b).2).2.toNormalSolid.pMass.isum
          = b.toNormalSolid.pMass.isum + I := by
  have hg : ∃ F : Vector2d K, gravitate L a b = (Mass.push a F, Mass.push b (- F)) := ⟨_, rfl⟩
  obtain ⟨F, hF⟩ := hg
  have hf1 : (Mass.push a F).toNormalSolid.pMass.fsum = a.toNormalSolid.pMass.fsum + F := by
    show (Solid.mapNormalSolid _ a).toNormalSolid.pMass.fsum = _
    rw [Solid.toNormalSolid_mapNormalSolid]
    rfl
  have hf2 : (Mass.push b (- F)).toNormalSolid.pMass.fsum
      = b.toNormalSolid.pMass.fsum + - F := by
    show (Solid.mapNormalSolid _ b).toNormalSolid.pMass.fsum = _
    rw [Solid.toNormalSolid_mapNormalSolid]
    rfl
  have hi1 : (Mass.push a F).toNormalSolid.pMass.isum = a.toNormalSolid.pMass.isum := by
    show (Solid.mapNormalSolid _ a).toNormalSolid.pMass.isum = _
    rw [Solid.toNormalSolid_mapNormalSolid]
    rfl
  have hi2 : (Mass.push b (- F)).toNormalSolid.pMass.isum = b.toNormalSolid.pMass.isum := by
    show (Solid.mapNormalSolid _ b).toNormalSolid.pMass.isum = _
    rw [Solid.toNormalSolid_mapNormalSolid]
    rfl
  rw [hF]
  simp only
  have hcol : ∀ x y : Solid K, ∃ I : Vector2d K,
      (collision L x y).1.toNormalSolid.pMass.fsum = x.toNormalSolid.pMass.fsum
        ∧ (collision L x y).2.toNormalSolid.pMass.fsum = y.toNormalSolid.pMass.fsum
        ∧ (collision L x y).1.toNormalSolid.pMass.isum = x.toNormalSolid.pMass.isum + - I
        ∧ (collision L x y).2.toNormalSolid.pMass.isum = y.toNormalSolid.pMass.isum + I := by
    intro x y
    have hcases : collision L x y = (x, y)
        ∨ ∃ d₁ d₂ I : Vector2d K,
            collision L x y
              = (Mass.hit L (Mass.translate x d₁) (- I), Mass.hit L (Mass.translate y d₂) I) := by
      unfold collision
      simp only
      split_ifs with h
      · exact Or.inl rfl
      · exact Or.inr ⟨_, _, _, rfl⟩
    have hacc : ∀ (z : Solid K) (d imp : Vector2d K),
        (Mass.hit L (Mass.translate z d) imp).toNormalSolid.pMass.fsum
            = z.toNormalSolid.pMass.fsum
          ∧ (Mass.hit L (Mass.translate z d) imp).toNormalSolid.pMass.isum
            = z.toNormalSolid.pMass.isum + imp := by
      intro z d imp
      have e : (Mass.hit L (Mass.translate z d) imp).toNormalSolid
          = (z.toNormalSolid.translate d).hit L imp := by
        show (Solid.mapNormalSolid _ (Solid.mapNormalSolid _ z)).toNormalSolid = _
        rw [Solid.toNormalSolid_mapNormalSolid, Solid.toNormalSolid_mapNormalSolid]
      rw [e, NormalSolid.hit_pMass]
      exact ⟨rfl, rfl⟩
    rcases hcases with hc | ⟨d₁, d₂, I, hc⟩
    · rw [hc]
      refine ⟨⟨0, 0⟩, rfl, rfl, ?_, ?_⟩ <;> ext <;> simp
    · rw [hc]
      exact ⟨I, (hacc x d₁ (- I)).1, (hacc y d₂ I).1, (hacc x d₁ (- I)).2, (hacc y d₂ I).2⟩
  obtain ⟨I, c1, c2, c3, c4⟩ := hcol (Mass.push a F) (Mass.push b (- F))
  exact ⟨F, I, by rw [c1, hf1], by rw [c2, hf2], by rw [c3, hi1], by rw [c4, hi2]⟩

theorem interactPair_sums (L : Libm K) (h : Heap K) (l : List Nat) (p q : Nat) (hpq : p ≠ q)
    (hc : l.count p = l.count q) :
    sumForce ((h.interact (gravitate L) p q).interact (collision L) p q) l = sumForce h l
      ∧ sumImpulse ((h.interact (gravitate L) p q).interact (collision L) p q) l
          = sumImpulse h l := by
  obtain ⟨F, I, e1, e2, e3, e4⟩ := pair_accumulators L (h.get p) (h.get q)
  have hg1 : (h.interact (gravitate L) p q).get p = (gravitate L (h.get p) (h.get q)).1 :=
    Heap.interact_get_left _ _ _ _ hpq
  have hg2 : (h.interact (gravitate L) p q).get q = (gravitate L (h.get p) (h.get q)).2 :=
    Heap.interact_get_right _ _ _ _
  have h1p : ((h.interact (gravitate L) p q).interact (collision L) p q).get p
      = (collision L (gravitate L (h.get p) (h.get q)).1 (gravitate L (h.get p) (h.get q)).2).1 := by
    rw [Heap.interact_get_left _ _ _ _ hpq, hg1, hg2]
  have h1q : ((h.interact (gravitate L) p q).interact (collision L) p q).get q
      = (collision L (gravitate L (h.get p) (h.get q)).1 (gravitate L (h.get p) (h.get q)).2).2 := by
    rw [Heap.interact_get_right, hg1, hg2]
  have ho : ∀ x, x ≠ p → x ≠ q →
      ((h.interact (gravitate L) p q).interact (collision L) p q).get x = h.get x := by
    intro x hxp hxq
    rw [Heap.interact_get_of_ne _ _ _ _ _ hxp hxq, Heap.interact_get_of_ne _ _ _ _ _ hxp hxq]
  generalize (h.interact (gravitate L) p q).interact (collision L) p q = h' at h1p h1q ho
  rw [← h1p] at e1 e3
  rw [← h1q] at e2 e4
  constructor
  · simp only [sumForce]
    congr 1
    · exact sum_map_pair _ _ l p q F.x hpq (by rw [e1]; rfl) (by rw [e2]; rfl)
        (fun x hxp hxq => by rw [ho x hxp hxq]) hc
    · exact sum_map_pair _ _ l p q F.y hpq (by rw [e1]; rfl) (by rw [e2]; rfl)
        (fun x hxp hxq => by rw [ho x hxp hxq]) hc
  · simp only [sumImpulse]
    congr 1
    · exact sum_map_pair _ _ l q p I.x (Ne.symm hpq) (by rw [e4]; rfl) (by rw [e3]; rfl)
        (fun x hxq hxp => by rw [ho x hxp hxq]) hc.symm
    · exact sum_map_pair _ _ l q p I.y (Ne.symm hpq) (by rw [e4]; rfl) (by rw [e3]; rfl)
        (fun x hxq hxp => by rw [ho x hxp hxq]) hc.symm

theorem interactPairs_sums (L : Libm K) (l : List Nat) (pairs : List (Nat × Nat))
    (hp : ∀ pq ∈ pairs, pq.1 ≠ pq.2 ∧ l.count pq.1 = l.count pq.2) :
    ∀ h : Heap K, sumForce (interactPairs L pairs h) l = sumForce h l
      ∧ sumImpulse (interactPairs L pairs h) l = sumImpulse h l := by
  induction pairs with
  | nil => intro h; exact ⟨rfl, rfl⟩
  | cons pq rest ih =>
    intro h
    obtain ⟨h1, h2⟩ := hp pq (List.mem_cons_self _ _)
    obtain ⟨i1, i2⟩ := ih (fun r hr => hp r (List.mem_cons_of_mem _ hr))
      ((h.interact (gravitate L) pq.1 pq.2).interact (collision L) pq.1 pq.2)
    obtain ⟨s1, s2⟩ := interactPair_sums L h l pq.1 pq.2 h1 h2
    rw [interactPairs_cons]
    exact ⟨i1.trans s1, i2.trans s2⟩

end PairAccumulators

/-! ## Helper lemmas: the two threads -/

section ThreadCount

variable {K : Type}

/-- With the count of the semaphore, the two threads are not both inside. -/
theorem World.Exclusive.not_both (w : World K) (hw : w.Exclusive) :
    ¬ (w.sim.inNormalizeAll = true ∧ w.draw.inDrawAll = true) := by
  rintro ⟨h1, h2⟩
  unfold World.Exclusive at hw
  rw [h1, h2] at hw
  simp at hw

end ThreadCount

section PaintThread

variable {K : Type} [LinearOrderedField K]

/-- A statement of the paint thread keeps the count of the semaphore. -/
theorem World.drawStep_exclusive (L : Libm K) (w w' : World K)
    (hw : w.Exclusive) (hs : World.drawStep L w = some w') : w'.Exclusive := by
  obtain ⟨ar, sim, draw, h, u, screen⟩ := w
  unfold World.Exclusive at hw ⊢
  cases draw <;> simp only [World.drawStep] at hs
  · split_ifs at hs with h0
    simp only [Option.some.injEq] at hs
    rw [← hs]
    simp only [DrawPc.inDrawAll] at hw ⊢
    simp only at h0
    split_ifs at hw ⊢ <;> simp_all
  · simp only [Option.some.injEq] at hs
    rw [← hs]
    simpa [DrawPc.inDrawAll] using hw
  · simp only [Option.some.injEq] at hs
    rw [← hs]
    simpa [DrawPc.inDrawAll] using hw
  · cases hg : u.allSolids.get? ‹Nat› with
    | none =>
      rw [hg] at hs
      simp only [Option.some.injEq] at hs
      rw [← hs]
      simpa [DrawPc.inDrawAll] using hw
    | some p =>
      rw [hg] at hs
      simp only [Option.some.injEq] at hs
      rw [← hs]
      simpa [DrawPc.inDrawAll] using hw
  · simp only [Option.some.injEq] at hs
    rw [← hs]
    simpa [DrawPc.inDrawAll] using hw
  · simp only [Option.some.injEq] at hs
    rw [← hs]
    simp only [DrawPc.inDrawAll] at hw ⊢
    split_ifs at hw ⊢ <;> simp_all

/-- A statement of the paint thread changes neither the universe, nor the solids, nor the
place of the simulation thread. -/
theorem World.drawStep_frame (L : Libm K) (w w' : World K)
    (hs : World.drawStep L w = some w') : w'.u = w.u ∧ w'.h = w.h ∧ w'.sim = w.sim := by
  obtain ⟨ar, sim, draw, h, u, screen⟩ := w
  cases draw <;> simp only [World.drawStep] at hs
  · split_ifs at hs with h0
    simp only [Option.some.injEq] at hs
    rw [← hs]
    exact ⟨rfl, rfl, rfl⟩
  · simp only [Option.some.injEq] at hs
    rw [← hs]
    exact ⟨rfl, rfl, rfl⟩
  · simp only [Option.some.injEq] at hs
    rw [← hs]
    exact ⟨rfl, rfl, rfl⟩
  · cases hg : u.allSolids.get? ‹Nat› with
    | none =>
      rw [hg] at hs
      simp only [Option.some.injEq] at hs
      rw [← hs]
      exact ⟨rfl, rfl, rfl⟩
    | some p =>
      rw [hg] at hs
      simp only [Option.some.injEq] at hs
      rw [← hs]
      exact ⟨rfl, rfl, rfl⟩
  · simp only [Option.some.injEq] at hs
    rw [← hs]
    exact ⟨rfl, rfl, rfl⟩
  · simp only [Option.some.injEq] at hs
    rw [← hs]
    exact ⟨rfl, rfl, rfl⟩

end PaintThread

section ThreadLemmas

variable {K : Type} [LinearOrderedField K] [FloorRing K]

open Universe

/-- A statement of the simulation thread keeps the count of the semaphore. -/
theorem World.simStep_exclusive (L : Libm K) (fuel : Nat) (dt : K) (w w' : World K)
    (hw : w.Exclusive) (hs : World.simStep L fuel dt w = some w') : w'.Exclusive := by
  obtain ⟨ar, sim, draw, h, u, screen⟩ := w
  unfold World.Exclusive at hw ⊢
  cases sim <;> simp only [World.simStep] at hs
  · cases hi : interactAll L h u with
    | none => rw [hi] at hs; exact absurd hs (by simp)
    | some r =>
      rw [hi] at hs
      simp only [Option.some.injEq] at hs
      rw [← hs]
      simpa [SimPc.inNormalizeAll] using hw
  · split_ifs at hs with h0
    simp only [Option.some.injEq] at hs
    rw [← hs]
    simp only [SimPc.inNormalizeAll] at hw ⊢
    simp only at h0
    split_ifs at hw ⊢ <;> simp_all
  · simp only [Option.some.injEq] at hs
    rw [← hs]
    simpa [SimPc.inNormalizeAll] using hw
  · cases hi : spawnLoop L fuel u.allSolids h u with
    | none => rw [hi] at hs; exact absurd hs (by simp)
    | some r =>
      rw [hi] at hs
      simp only [Option.some.injEq] at hs
      rw [← hs]
      simpa [SimPc.inNormalizeAll] using hw
  · simp only [Option.some.injEq] at hs
    rw [← hs]
    simpa [SimPc.inNormalizeAll] using hw
  · simp only [Option.some.injEq] at hs
    rw [← hs]
    simpa [SimPc.inNormalizeAll] using hw
  · simp only [Option.some.injEq] at hs
    rw [← hs]
    simp only [SimPc.inNormalizeAll] at hw ⊢
    split_ifs at hw ⊢ <;> simp_all
  · simp only [Option.some.injEq] at hs
    rw [← hs]
    simpa [SimPc.inNormalizeAll] using hw

/-- A move of the scheduler keeps the count of the semaphore. -/
theorem World.step_exclusive (L : Libm K) (fuel : Nat) (m : Move K) (w w' : World K)
    (hw : w.Exclusive) (hs : World.step L fuel m w = some w') : w'.Exclusive := by
  cases m with
  | sim dt => exact World.simStep_exclusive L fuel dt w w' hw hs
  | draw => exact World.drawStep_exclusive L w w' hw hs

/-- An interleaving keeps the count of the semaphore. -/
theorem World.run_exclusive (L : Libm K) (fuel : Nat) (ms : List (Move K)) :
    ∀ (w w' : World K), w.Exclusive → World.run L fuel ms w = some w' → w'.Exclusive := by
  induction ms with
  | nil =>
    intro w w' hw hr
    simp only [World.run, Option.some.injEq] at hr
    rw [← hr]
    exact hw
  | cons m rest ih =>
    intro w w' hw hr
    simp only [World.run] at hr
    cases hs : World.step L fuel m w with
    | none => rw [hs] at hr; exact absurd hr (by simp)
    | some w1 =>
      rw [hs] at hr
      exact ih w1 w' (World.step_exclusive L fuel m w w1 hw hs) hr

/-- A statement of the simulation thread changes neither the screen nor the place of the
paint thread; outside `normalizeAll` it leaves the lists of the universe as they are, and at
the `Lock` it moves only when the semaphore is positive. -/
theorem World.simStep_frame (L : Libm K) (fuel : Nat) (dt : K) (w w' : World K)
    (hs : World.simStep L fuel dt w = some w') :
    w'.screen = w.screen ∧ w'.draw = w.draw
      ∧ (w.sim.inNormalizeAll = false → w.sim ≠ SimPc.lock → w'.u = w.u)
      ∧ (w.sim = SimPc.lock → 0 < w.allResource) := by
  obtain ⟨ar, sim, draw, h, u, screen⟩ := w
  cases sim <;> simp only [World.simStep] at hs
  · cases hi : interactAll L h u with
    | none => rw [hi] at hs; exact absurd hs (by simp)
    | some r =>
      have hu : r.2 = u := by
        rw [interactAll_eq] at hi
        split_ifs at hi
        simp only [Option.some.injEq] at hi
        rw [← hi]
      rw [hi] at hs
      simp only [Option.some.injEq] at hs
      rw [← hs]
      exact ⟨rfl, rfl, fun _ _ => hu, fun hc => absurd hc (by simp)⟩
  · split_ifs at hs with h0
    simp only [Option.some.injEq] at hs
    rw [← hs]
    exact ⟨rfl, rfl, fun _ hc => absurd rfl hc, fun _ => Nat.pos_of_ne_zero h0⟩
  · simp only [Option.some.injEq] at hs
    rw [← hs]
    exact ⟨rfl, rfl, fun hc => absurd hc (by simp [SimPc.inNormalizeAll]),
      fun hc => absurd hc (by simp)⟩
  · cases hi : spawnLoop L fuel u.allSolids h u with
    | none => rw [hi] at hs; exact absurd hs (by simp)
    | some r =>
      rw [hi] at hs
      simp only [Option.some.injEq] at hs
      rw [← hs]
      exact ⟨rfl, rfl, fun hc => absurd hc (by simp [SimPc.inNormalizeAll]),
        fun hc => absurd hc (by simp)⟩
  · simp only [Option.some.injEq] at hs
    rw [← hs]
    exact ⟨rfl, rfl, fun hc => absurd hc (by simp [SimPc.inNormalizeAll]),
      fun hc => absurd hc (by simp)⟩
  · simp only [Option.some.injEq] at hs
    rw [← hs]
    exact ⟨rfl, rfl, fun hc => absurd hc (by simp [SimPc.inNormalizeAll]),
      fun hc => absurd hc (by simp)⟩
  · simp only [Option.some.injEq] at hs
    rw [← hs]
    exact ⟨rfl, rfl, fun hc => absurd hc (by simp [SimPc.inNormalizeAll]),
      fun hc => absurd hc (by simp)⟩
  · simp only [Option.some.injEq] at hs
    rw [← hs]
    exact ⟨rfl, rfl, fun _ _ => rfl, fun hc => absurd hc (by simp)⟩

/-- An interleaving in two parts. -/
theorem World.run_append (L : Libm K) (fuel : Nat) (a b : List (Move K)) :
    ∀ (w1 w2 : World K), World.run L fuel a w1 = some w2 →
      World.run L fuel (a ++ b) w1 = World.run L fuel b w2 := by
  induction a with
  | nil =>
    intro w1 w2 hab
    simp only [World.run, Option.some.injEq] at hab
    rw [hab]
    rfl
  | cons m rest ih =>
    intro w1 w2 hab
    simp only [World.run, List.cons_append] at hab ⊢
    cases hs : World.step L fuel m w1 with
    | none => rw [hs] at hab; exact absurd hab (by simp)
    | some w3 =>
      rw [hs] at hab
      simp only
      exact ih w3 w2 hab

/-- The six statements of `normalizeAll`, executed one after the other by the simulation
thread, are the method `normalizeAll` of the sequential model. -/
theorem World.run_normalizeAll (L : Libm K) (fuel : Nat) (dt : K) (w : World K)
    (h' : Heap K) (u' : Universe)
    (hs : w.sim = SimPc.lock) (hr : w.allResource ≠ 0)
    (hn : normalizeAllBody L fuel w.h w.u = some (h', u')) :
    World.run L fuel (List.replicate 6 (Move.sim dt)) w
      = some { w with h := h', u := u', sim := SimPc.stepAll } := by
  obtain ⟨ar, sim, draw, h, u, screen⟩ := w
  simp only at hs hr hn
  subst hs
  simp only [normalizeAllBody] at hn
  cases hl : spawnLoop L fuel u.allSolids (explosionLoop u.allSolids h u).1
      (explosionLoop u.allSolids h u).2 with
  | none => rw [hl] at hn; exact absurd hn (by simp)
  | some r =>
    obtain ⟨h2, u2⟩ := r
    rw [hl] at hn
    simp only [Option.some.injEq, Prod.mk.injEq] at hn
    obtain ⟨hh, hu⟩ := hn
    subst hh
    subst hu
    have ha : ar - 1 + 1 = ar := Nat.sub_add_cancel (Nat.pos_of_ne_zero hr)
    have hx : (explosionLoop u.allSolids h u).2.allSolids = u.allSolids := by
      obtain ⟨ex, he⟩ := explosionLoop_frame u.allSolids h u
      rw [he]
    simp [List.replicate, World.run, World.step, World.simStep, hr, hl, ha, hx]

/-- The iterations of the loop of `drawAll` that remain when the iterator is at position
`i`, and the move that finds the iterator at the end, executed by the paint thread alone. -/
theorem World.run_drawLoop (L : Libm K) (fuel : Nat) :
    ∀ (l : List Nat) (i : Nat) (w : World K), w.draw = DrawPc.loop i →
      w.u.allSolids.drop i = l →
      World.run L fuel (List.replicate (l.length + 1) Move.draw) w
        = some { w with screen := drawLoop L l w.h w.screen, draw := DrawPc.flip } := by
  intro l
  induction l with
  | nil =>
    intro i w hd hl
    obtain ⟨ar, sim, draw, h, u, screen⟩ := w
    simp only at hd hl
    subst hd
    have hg : u.allSolids.get? i = none := by
      rw [List.get?_eq_none]
      exact List.drop_eq_nil_iff.mp hl
    simp only [List.length_nil, Nat.zero_add, List.replicate_succ, List.replicate_zero,
      World.run, World.step, World.drawStep, hg, drawLoop]
  | cons p rest ih =>
    intro i w hd hl
    obtain ⟨ar, sim, draw, h, u, screen⟩ := w
    simp only at hd hl
    subst hd
    have hg : u.allSolids.get? i = some p := by
      have hd0 : (u.allSolids.drop i)[0]? = u.allSolids[i + 0]? := List.getElem?_drop u.allSolids i 0
      rw [hl] at hd0
      rw [List.get?_eq_getElem?]
      simpa using hd0.symm
    have hrest : u.allSolids.drop (i + 1) = rest := by
      have := congrArg List.tail hl
      simpa [List.tail_drop] using this
    have := ih (i + 1)
      { allResource := ar, sim := sim, draw := DrawPc.loop (i + 1), h := h, u := u,
        screen := (h.get p).draw L screen } rfl hrest
    simp only [List.length_cons, List.replicate_succ, World.run, World.step, World.drawStep,
      hg, drawLoop] at this ⊢
    exact this

/-- A pass of the paint thread that no move of the simulation thread interrupts is the
method `drawAll` of the sequential model. -/
theorem World.run_drawAll (L : Libm K) (fuel : Nat) (w : World K)
    (hd : w.draw = DrawPc.lock) (hr : w.allResource ≠ 0) :
    World.run L fuel (List.replicate (w.u.allSolids.length + 6) Move.draw) w
      = some { w with screen := (drawAll L w.h w.u w.screen).2.2 } := by
  obtain ⟨ar, sim, draw, h, u, screen⟩ := w
  simp only at hd hr
  subst hd
  have ha : ar - 1 + 1 = ar := Nat.sub_add_cancel (Nat.pos_of_ne_zero hr)
  have hl := World.run_drawLoop L fuel u.allSolids 0
    { allResource := ar - 1, sim := sim, draw := DrawPc.loop 0, h := h, u := u,
      screen := screen.clear } rfl rfl
  have happ : ∀ (a b : List (Move K)) (w1 w2 : World K), World.run L fuel a w1 = some w2 →
      World.run L fuel (a ++ b) w1 = World.run L fuel b w2 :=
    fun a b w1 w2 hab => World.run_append L fuel a b w1 w2 hab
  have hsplit : List.replicate (u.allSolids.length + 6) (Move.draw : Move K)
      = [Move.draw, Move.draw, Move.draw]
          ++ (List.replicate (u.allSolids.length + 1) Move.draw ++ [Move.draw, Move.draw]) := by
    rw [show u.allSolids.length + 6 = 3 + ((u.allSolids.length + 1) + 2) by omega,
      List.replicate_add, List.replicate_add]
    rfl
  rw [hsplit]
  rw [happ [Move.draw, Move.draw, Move.draw] _ _
    { allResource := ar - 1, sim := sim, draw := DrawPc.loop 0, h := h, u := u,
      screen := screen.clear }
    (by simp [World.run, World.step, World.drawStep, hr])]
  rw [happ _ [Move.draw, Move.draw] _ _ hl]
  simp [World.run, World.step, World.drawStep, ha, drawAll]

end ThreadLemmas

/-! ## Helper lemmas: the calls that do not return, and the two solids of the scenario -/

section OutcomeLemmas

variable {K : Type} [LinearOrderedField K]

open Universe

/-- When the statements of the body of `normalizeAll` reach the closing brace, the call is
undefined there. -/
theorem normalizeAll_of_body (L : Libm K) (fuel : Nat) (h : Heap K) (u : Universe)
    (s : Heap K × Universe) (hb : normalizeAllBody L fuel h u = some s) :
    normalizeAll L fuel h u = Outcome.undefined s := by
  simp only [normalizeAll, hb]

/-- No call of `normalizeAll` executes a `return` statement. -/
theorem normalizeAll_ne_returns (L : Libm K) (fuel : Nat) (h : Heap K) (u : Universe)
    (r : Heap K × Universe) : normalizeAll L fuel h u ≠ Outcome.returns r := by
  unfold normalizeAll
  cases normalizeAllBody L fuel h u <;> simp

end OutcomeLemmas

section OutcomeLemmas2

variable {K : Type} [LinearOrderedField K] [FloorRing K]

open Universe

/-- The call of `simulateAll` ends as its call of `normalizeAll` does: the call of `stepAll`
is not reached. -/
theorem simulateAll_eq (L : Libm K) (fuel : Nat) (dt : K) (h : Heap K) (u : Universe) :
    simulateAll L fuel dt h u
      = match interactAll L h u with
        | none => Outcome.blocks
        | some r => normalizeAll L fuel r.1 r.2 := by
  unfold simulateAll
  cases hi : interactAll L h u with
  | none => rfl
  | some r =>
    obtain ⟨h₁, u₁⟩ := r
    simp only
    cases hn : normalizeAll L fuel h₁ u₁ with
    | returns s => exact absurd hn (normalizeAll_ne_returns L fuel h₁ u₁ s)
    | blocks => rfl
    | undefined s => rfl

/-- No call of `simulateAll` executes a `return` statement. -/
theorem simulateAll_ne_returns (L : Libm K) (fuel : Nat) (dt : K) (h : Heap K) (u : Universe)
    (r : Heap K × Universe) : simulateAll L fuel dt h u ≠ Outcome.returns r := by
  rw [simulateAll_eq]
  cases interactAll L h u with
  | none => simp
  | some r₁ => exact normalizeAll_ne_returns L fuel r₁.1 r₁.2 r

end OutcomeLemmas2

section TwoSolids

variable {K : Type} [LinearOrderedField K] [FloorRing K]

open Universe

end TwoSolids

section TwoCentres

variable {K : Type} [LinearOrderedField K]

end TwoCentres

/-! # The contracts -/

section MassContracts

variable {K : Type} [LinearOrderedField K] [FloorRing K]

/-- C1: for every NewtonianMass (not a FrictionMass) with mass `m ≠ 0`, position `p`,
velocity `v`, accumulated force `F` and accumulated impulse `J`, `step(dt)` sets the velocity
to `v' = v + (F*dt + J)/m` and the position to `p + v'` (the updated velocity, not scaled by
`dt`); and starting from empty accumulators, `push(f)` followed by `step(dt)` changes the
velocity by exactly `f*dt/m`. -/
theorem step_velocity_position (s : NewtonianMass K) (dt : K) (f : Vector2d K)
    (hcls : ∀ kv kt, s.cls ≠ MassClass.friction kv kt) (_hm : s.m ≠ 0) :
    (s.step dt).v
        = ⟨s.v.x + (s.fsum.x * dt + s.isum.x) / s.m, s.v.y + (s.fsum.y * dt + s.isum.y) / s.m⟩
      ∧ (s.step dt).p = ⟨s.p.x + (s.step dt).v.x, s.p.y + (s.step dt).v.y⟩
      ∧ ((({ s with fsum := 0, isum := 0 } : NewtonianMass K).push f).step dt).v.x - s.v.x
          = f.x * dt / s.m
      ∧ ((({ s with fsum := 0, isum := 0 } : NewtonianMass K).push f).step dt).v.y - s.v.y
          = f.y * dt / s.m := by
  have htf : ∀ t : NewtonianMass K, t.cls = s.cls → t.totalForce dt = t.fsum * dt + t.isum := by
    intro t ht
    unfold NewtonianMass.totalForce
    rw [ht]
    cases hc : s.cls with
    | friction kv kt => exact absurd hc (hcls kv kt)
    | newtonian => rfl
    | linear => rfl
  refine ⟨?_, ?_, ?_, ?_⟩
  · simp only [NewtonianMass.step, NewtonianMass.reset, NewtonianMass.clean, htf s rfl,
      NewtonianMass.mass]
    ext <;> simp [div_eq_mul_inv]
  · simp only [NewtonianMass.step, NewtonianMass.reset, NewtonianMass.clean]
    ext <;> simp
  · have h1 := htf (({ s with fsum := 0, isum := 0 } : NewtonianMass K).push f) rfl
    simp only [NewtonianMass.step, NewtonianMass.reset, NewtonianMass.clean, h1,
      NewtonianMass.mass]
    simp [NewtonianMass.push, div_eq_mul_inv]
  · have h1 := htf (({ s with fsum := 0, isum := 0 } : NewtonianMass K).push f) rfl
    simp only [NewtonianMass.step, NewtonianMass.reset, NewtonianMass.clean, h1,
      NewtonianMass.mass]
    simp [NewtonianMass.push, div_eq_mul_inv]

/-- C2: for all masses `a` and `b`, `gravitate(a, b)` adds a force `F` to the force
accumulator of `a` and exactly `-F` to that of `b`, and changes nothing else. -/
theorem gravitate_equal_and_opposite (L : Libm K) (a b : NewtonianMass K) :
    ∃ F : Vector2d K,
      gravitate L a b = ({ a with fsum := a.fsum + F }, { b with fsum := b.fsum + (- F) }) :=
  ⟨_, rfl⟩

/-- C3: for masses `a`, `b` with distinct positions, with `R = position(b) - position(a)` and
`r = max(|R|, 3*max(radius(a), radius(b)))`, `gravitate(a, b)` pushes `a` with the force
`(0.001 * mass(a) * mass(b) / r^2) * unit(R)`; where the square root is exact at `|R|^2`,
`unit(R)` is `R / |R|` with `|R| > 0` and has length one, so the force is directed from `a`
towards `b`. -/
theorem gravitate_force (L : Libm K) (a b : NewtonianMass K) (hne : a.p ≠ b.p) :
    (gravitate L a b).1
        = a.push ((0.001 * a.m * b.m
            / (max ((b.p - a.p).magnitude L) (3 * max a.r b.r)) ^ 2) * (b.p - a.p).unit L)
      ∧ (L.SqrtExactAt (dot (b.p - a.p) (b.p - a.p)) →
          0 < (b.p - a.p).magnitude L
            ∧ (b.p - a.p).unit L
                = ⟨(b.p.x - a.p.x) / (b.p - a.p).magnitude L,
                    (b.p.y - a.p.y) / (b.p - a.p).magnitude L⟩
            ∧ dot ((b.p - a.p).unit L) ((b.p - a.p).unit L) = 1) := by
  constructor
  · have hr : (if (b.p - a.p).magnitude L < (if a.r > b.r then 3 * a.r else 3 * b.r)
          then (if a.r > b.r then 3 * a.r else 3 * b.r) else (b.p - a.p).magnitude L)
        = max ((b.p - a.p).magnitude L) (3 * max a.r b.r) := by
      have h3 : (if a.r > b.r then 3 * a.r else 3 * b.r) = 3 * max a.r b.r := by
        split_ifs with h
        · rw [max_eq_left (le_of_lt h)]
        · rw [max_eq_right (not_lt.mp h)]
      rw [h3]
      split_ifs with h
      · rw [max_eq_right (le_of_lt h)]
      · rw [max_eq_left (not_lt.mp h)]
    show NewtonianMass.push a _ = _
    simp only [Mass.position, Mass.radius, Mass.mass, NewtonianMass.position,
      NewtonianMass.radius, NewtonianMass.mass]
    rw [hr, pow_two]
  · intro hs
    have hv := Vector2d.sub_ne_zero_of_ne a.p b.p hne
    have hpos := Vector2d.magnitude_pos L _ hs hv
    exact ⟨hpos, Vector2d.unit_of_pos L _ hpos, Vector2d.dot_unit_unit L _ hs hv⟩

/-- Witness for C1: the contract of `step` at `sampleMass` (a plain mass of mass 2 with
non-empty accumulators), `dt = 2` and `f = (3, 4)`. -/
theorem step_velocity_position_witness :
    (∀ kv kt, sampleMass.cls ≠ MassClass.friction kv kt) ∧ sampleMass.m ≠ 0
      ∧ (sampleMass.step 2).v
          = ⟨sampleMass.v.x + (sampleMass.fsum.x * 2 + sampleMass.isum.x) / sampleMass.m,
              sampleMass.v.y + (sampleMass.fsum.y * 2 + sampleMass.isum.y) / sampleMass.m⟩
      ∧ (sampleMass.step 2).p
          = ⟨sampleMass.p.x + (sampleMass.step 2).v.x, sampleMass.p.y + (sampleMass.step 2).v.y⟩
      ∧ ((({ sampleMass with fsum := 0, isum := 0 } : NewtonianMass ℚ).push ⟨3, 4⟩).step 2).v.x
            - sampleMass.v.x = 3 * 2 / sampleMass.m
      ∧ ((({ sampleMass with fsum := 0, isum := 0 } : NewtonianMass ℚ).push ⟨3, 4⟩).step 2).v.y
            - sampleMass.v.y = 4 * 2 / sampleMass.m :=
  have hcls : ∀ kv kt, sampleMass.cls ≠ MassClass.friction kv kt := by
    intro kv kt h
    simp [sampleMass, NewtonianMass.new] at h
  have hm : sampleMass.m ≠ 0 := by norm_num [sampleMass, NewtonianMass.new]
  ⟨hcls, hm, step_velocity_position sampleMass 2 ⟨3, 4⟩ hcls hm⟩

/-- Witness for C3: the force of `gravitate` in the two-body scenario, where the square root
is exact. -/
theorem gravitate_force_witness :
    scenarioA.p ≠ scenarioB.p
      ∧ ratLibm.SqrtExactAt (dot (scenarioB.p - scenarioA.p) (scenarioB.p - scenarioA.p))
      ∧ (gravitate ratLibm scenarioA scenarioB).1
          = scenarioA.push ((0.001 * scenarioA.m * scenarioB.m
              / (max ((scenarioB.p - scenarioA.p).magnitude ratLibm)
                  (3 * max scenarioA.r scenarioB.r)) ^ 2)
              * (scenarioB.p - scenarioA.p).unit ratLibm)
      ∧ 0 < (scenarioB.p - scenarioA.p).magnitude ratLibm
      ∧ dot ((scenarioB.p - scenarioA.p).unit ratLibm)
          ((scenarioB.p - scenarioA.p).unit ratLibm) = 1 :=
  ⟨scenario_ne, scenario_sqrtExactAt,
    (gravitate_force ratLibm scenarioA scenarioB scenario_ne).1,
    ((gravitate_force ratLibm scenarioA scenarioB scenario_ne).2 scenario_sqrtExactAt).1,
    ((gravitate_force ratLibm scenarioA scenarioB scenario_ne).2 scenario_sqrtExactAt).2.2⟩

/-- C4: for all masses `a` and `b`, the impulses `collision(a, b)` adds to `a` and to `b` sum
to the zero vector; so for plain masses of nonzero mass with no other accumulated force or
impulse, after both are stepped the total momentum `mass(a)*v(a) + mass(b)*v(b)`, and its
projection on the collision axis, equal their values before the collision. -/
theorem collision_conserves_momentum (L : Libm K) (a b : NewtonianMass K) :
    ((collision L a b).1.isum - a.isum) + ((collision L a b).2.isum - b.isum) = 0
      ∧ (a.cls = MassClass.newtonian → b.cls = MassClass.newtonian → a.m ≠ 0 → b.m ≠ 0 →
          a.fsum = 0 → a.isum = 0 → b.fsum = 0 → b.isum = 0 → ∀ dt₁ dt₂ : K,
            a.m * ((collision L a b).1.step dt₁).v + b.m * ((collision L a b).2.step dt₂).v
                = a.m * a.v + b.m * b.v
              ∧ dot (a.m * ((collision L a b).1.step dt₁).v
                      + b.m * ((collision L a b).2.step dt₂).v) ((b.p - a.p).unit L)
                  = dot (a.m * a.v + b.m * b.v) ((b.p - a.p).unit L)) := by
  have hsum : ((collision L a b).1.isum - a.isum) + ((collision L a b).2.isum - b.isum) = 0 := by
    by_cases h : (a.r + b.r) - (b.p - a.p).magnitude L < 0
    · rw [collision_of_apart L a b h]
      ext <;> simp
    · rw [collision_of_overlap L a b h]
      ext <;> simp
  have hcls : (collision L a b).1.cls = a.cls ∧ (collision L a b).2.cls = b.cls
      ∧ (collision L a b).1.fsum = a.fsum ∧ (collision L a b).2.fsum = b.fsum
      ∧ (collision L a b).1.m = a.m ∧ (collision L a b).2.m = b.m
      ∧ (collision L a b).1.v = a.v ∧ (collision L a b).2.v = b.v := by
    by_cases h : (a.r + b.r) - (b.p - a.p).magnitude L < 0
    · rw [collision_of_apart L a b h]
      simp
    · rw [collision_of_overlap L a b h]
      simp
  refine ⟨hsum, ?_⟩
  intro hca hcb hma hmb hfa hia hfb hib dt₁ dt₂
  obtain ⟨h1, h2, h3, h4, h5, h6, h7, h8⟩ := hcls
  have hx := congrArg Vector2d.x hsum
  have hy := congrArg Vector2d.y hsum
  simp only [Vector2d.add_x, Vector2d.sub_x, Vector2d.add_y, Vector2d.sub_y, hia, hib,
    Vector2d.zero_x, Vector2d.zero_y, sub_zero] at hx hy
  have hmom : a.m * ((collision L a b).1.step dt₁).v + b.m * ((collision L a b).2.step dt₂).v
      = a.m * a.v + b.m * b.v := by
    rw [step_v_of_empty _ dt₁ (h1.trans hca) (h3.trans hfa),
      step_v_of_empty _ dt₂ (h2.trans hcb) (h4.trans hfb), h5, h6, h7, h8]
    ext
    · simp only [Vector2d.add_x, Vector2d.smul_x]
      field_simp
      linear_combination hx
    · simp only [Vector2d.add_y, Vector2d.smul_y]
      field_simp
      linear_combination hy
  exact ⟨hmom, by rw [hmom]⟩

/-- Witness for C4: momentum is conserved when `movingA` (mass 1, velocity `(3, 0)`) and
`movingB` (mass 2, velocity `(-1, 0)`) collide and are stepped by `dt = 1`. -/
theorem collision_conserves_momentum_witness :
    movingA.cls = MassClass.newtonian ∧ movingB.cls = MassClass.newtonian
      ∧ movingA.m ≠ 0 ∧ movingB.m ≠ 0
      ∧ movingA.fsum = 0 ∧ movingA.isum = 0 ∧ movingB.fsum = 0 ∧ movingB.isum = 0
      ∧ ((collision ratLibm movingA movingB).1.isum - movingA.isum)
          + ((collision ratLibm movingA movingB).2.isum - movingB.isum) = 0
      ∧ movingA.m * ((collision ratLibm movingA movingB).1.step 1).v
          + movingB.m * ((collision ratLibm movingA movingB).2.step 1).v
          = movingA.m * movingA.v + movingB.m * movingB.v :=
  have hma : movingA.m ≠ 0 := by norm_num [movingA, NewtonianMass.new]
  have hmb : movingB.m ≠ 0 := by norm_num [movingB, NewtonianMass.new]
  ⟨rfl, rfl, hma, hmb, rfl, rfl, rfl, rfl,
    (collision_conserves_momentum ratLibm movingA movingB).1,
    ((collision_conserves_momentum ratLibm movingA movingB).2
      rfl rfl hma hmb rfl rfl rfl rfl 1 1).1⟩

/-- C5, as stated, fails: in the two-body scenario (radii 20 and 35, centres 10 apart, so
that the centre distance is at most the sum of the radii; the square root is exact at both
squared distances) the distance of the centres after `collision` is 102, not
`20 + 35 + 1 = 56`.  And when the centres coincide, the distance after `collision` is
still 0. -/
theorem collision_separation_counterexample :
    ((scenarioB.p - scenarioA.p).magnitude ratLibm ≤ scenarioA.r + scenarioB.r
      ∧ ratLibm.SqrtExactAt (dot (scenarioB.p - scenarioA.p) (scenarioB.p - scenarioA.p))
      ∧ ratLibm.SqrtExactAt
          (dot ((collision ratLibm scenarioA scenarioB).2.p
                  - (collision ratLibm scenarioA scenarioB).1.p)
               ((collision ratLibm scenarioA scenarioB).2.p
                  - (collision ratLibm scenarioA scenarioB).1.p))
      ∧ ((collision ratLibm scenarioA scenarioB).2.p
            - (collision ratLibm scenarioA scenarioB).1.p).magnitude ratLibm = 102
      ∧ ((collision ratLibm scenarioA scenarioB).2.p
            - (collision ratLibm scenarioA scenarioB).1.p).magnitude ratLibm
          ≠ scenarioA.r + scenarioB.r + 1)
      ∧ ((collision ratLibm scenarioA coincidentB).2.p
            - (collision ratLibm scenarioA coincidentB).1.p).magnitude ratLibm = 0 := by
  have h102 : ratLibm.sqrt 10404 = 102 := ratLibm_sqrt_of_eq 102 10404 (by norm_num)
  have h0 : ratLibm.sqrt 0 = 0 := ratLibm_sqrt_of_eq 0 0 (by norm_num)
  have hmag' : (⟨102, 0⟩ : Vector2d ℚ).magnitude ratLibm = 102 := by
    norm_num [Vector2d.magnitude, h102]
  have hmag0 : (⟨0, 0⟩ : Vector2d ℚ).magnitude ratLibm = 0 := by
    norm_num [Vector2d.magnitude, h0]
  rw [scenario_collision_sub, hmag', scenario_magnitude, coincident_collision_sub, hmag0]
  refine ⟨⟨by norm_num [scenarioA, scenarioB, NewtonianMass.new], scenario_sqrtExactAt, ?_, rfl,
    by norm_num [scenarioA, scenarioB, NewtonianMass.new]⟩, rfl⟩
  exact ratLibm_sqrtExactAt 102 _ (by norm_num [dot])

/-- C5, amended: for masses `a`, `b` whose centre distance `r` satisfies
`0 < r ≤ radius(a) + radius(b)`, immediately after `collision(a, b)` the distance between
their centres is exactly `(radius(a) + radius(b) + 1) + (radius(a) + radius(b) - r + 1)`:
each of the two bodies has been moved by `overlap + 1`.  The square root is exact at the
squared distances before and after. -/
theorem collision_separation (L : Libm K) (a b : NewtonianMass K)
    (hpos : 0 < (b.p - a.p).magnitude L)
    (hle : (b.p - a.p).magnitude L ≤ a.r + b.r)
    (hs : L.SqrtExactAt (dot (b.p - a.p) (b.p - a.p)))
    (hs' : L.SqrtExactAt (dot ((collision L a b).2.p - (collision L a b).1.p)
      ((collision L a b).2.p - (collision L a b).1.p))) :
    ((collision L a b).2.p - (collision L a b).1.p).magnitude L
      = (a.r + b.r + 1) + ((a.r + b.r) - (b.p - a.p).magnitude L + 1) := by
  have hc := collision_of_overlap L a b (by linarith)
  have hnn := Vector2d.magnitude_nonneg L _ hs'
  have hsq' := Vector2d.magnitude_mul_self L _ hs'
  have hsq := Vector2d.magnitude_mul_self L _ hs
  have hu := Vector2d.unit_of_pos L _ hpos
  generalize ((collision L a b).2.p - (collision L a b).1.p).magnitude L = d' at hnn hsq' ⊢
  rw [hc, hu] at hsq'
  generalize (b.p - a.p).magnitude L = r at hpos hle hsq hsq' hu ⊢
  simp only [Vector2d.add_x, Vector2d.add_y, Vector2d.sub_x, Vector2d.sub_y, Vector2d.neg_x,
    Vector2d.neg_y, Vector2d.mul_x, Vector2d.mul_y] at hsq hsq'
  have hr : r ≠ 0 := ne_of_gt hpos
  have key : d' * d' = (r + 2 * (a.r + b.r - r + 1)) * (r + 2 * (a.r + b.r - r + 1)) := by
    rw [hsq']
    field_simp
    have e : (b.p.x - a.p.x) * (b.p.x - a.p.x) + (b.p.y - a.p.y) * (b.p.y - a.p.y) = r * r := by
      linarith
    linear_combination ((r + 2 * (a.r + b.r - r + 1)) * (r + 2 * (a.r + b.r - r + 1))) * e
  have hfac : (d' - (r + 2 * (a.r + b.r - r + 1))) * (d' + (r + 2 * (a.r + b.r - r + 1))) = 0 := by
    linear_combination key
  rcases mul_eq_zero.mp hfac with h | h
  · linarith
  · exfalso
    linarith

/-- Witness for the amended C5: the two-body scenario. -/
theorem collision_separation_witness :
    0 < (scenarioB.p - scenarioA.p).magnitude ratLibm
      ∧ (scenarioB.p - scenarioA.p).magnitude ratLibm ≤ scenarioA.r + scenarioB.r
      ∧ ((collision ratLibm scenarioA scenarioB).2.p
            - (collision ratLibm scenarioA scenarioB).1.p).magnitude ratLibm
          = (scenarioA.r + scenarioB.r + 1)
            + ((scenarioA.r + scenarioB.r) - (scenarioB.p - scenarioA.p).magnitude ratLibm + 1) :=
  have hpos : 0 < (scenarioB.p - scenarioA.p).magnitude ratLibm := by
    rw [scenario_magnitude]; norm_num
  have hle : (scenarioB.p - scenarioA.p).magnitude ratLibm ≤ scenarioA.r + scenarioB.r := by
    rw [scenario_magnitude]; norm_num [scenarioA, scenarioB, NewtonianMass.new]
  ⟨hpos, hle, collision_separation ratLibm scenarioA scenarioB hpos hle scenario_sqrtExactAt
    (by rw [scenario_collision_sub]; exact ratLibm_sqrtExactAt 102 _ (by norm_num [dot]))⟩

/-- C6: for plain masses `a`, `b` with positive masses, distinct centres and overlap `≥ 0`
and no other accumulated forces, with `axis = unit(position(b) - position(a))`,
`u_a = v(a).axis`, `u_b = v(b).axis` and `vc = (mass(a)*u_a + mass(b)*u_b)/(mass(a)+mass(b))`:
after `collision(a, b)` and one step of each body, the axis components of the new velocities
satisfy `u_a' - vc = -(u_a - vc)` and `u_b' - vc = -(u_b - vc)`.  The square root is exact at
the squared distance of the centres. -/
theorem collision_reverses_relative_velocity (L : Libm K) (a b : NewtonianMass K)
    (dt₁ dt₂ : K)
    (hca : a.cls = MassClass.newtonian) (hcb : b.cls = MassClass.newtonian)
    (hma : 0 < a.m) (hmb : 0 < b.m) (hne : a.p ≠ b.p)
    (hov : 0 ≤ (a.r + b.r) - (b.p - a.p).magnitude L)
    (hs : L.SqrtExactAt (dot (b.p - a.p) (b.p - a.p)))
    (hfa : a.fsum = 0) (hia : a.isum = 0) (hfb : b.fsum = 0) (hib : b.isum = 0) :
    dot ((collision L a b).1.step dt₁).v ((b.p - a.p).unit L)
          - (a.m * dot a.v ((b.p - a.p).unit L) + b.m * dot b.v ((b.p - a.p).unit L))
              / (a.m + b.m)
        = - (dot a.v ((b.p - a.p).unit L)
          - (a.m * dot a.v ((b.p - a.p).unit L) + b.m * dot b.v ((b.p - a.p).unit L))
              / (a.m + b.m))
      ∧ dot ((collision L a b).2.step dt₂).v ((b.p - a.p).unit L)
          - (a.m * dot a.v ((b.p - a.p).unit L) + b.m * dot b.v ((b.p - a.p).unit L))
              / (a.m + b.m)
        = - (dot b.v ((b.p - a.p).unit L)
          - (a.m * dot a.v ((b.p - a.p).unit L) + b.m * dot b.v ((b.p - a.p).unit L))
              / (a.m + b.m)) := by
  have hu := Vector2d.dot_unit_unit L _ hs (Vector2d.sub_ne_zero_of_ne a.p b.p hne)
  have hsum : a.m + b.m ≠ 0 := by positivity
  have hma' : a.m ≠ 0 := ne_of_gt hma
  have hmb' : b.m ≠ 0 := ne_of_gt hmb
  have hc := collision_of_overlap L a b (not_lt.mpr hov)
  have h1 := step_v_of_empty (collision L a b).1 dt₁ (by rw [hc]; exact hca) (by rw [hc]; exact hfa)
  have h2 := step_v_of_empty (collision L a b).2 dt₂ (by rw [hc]; exact hcb) (by rw [hc]; exact hfb)
  rw [h1, h2, hc]
  generalize (b.p - a.p).unit L = axis at hu ⊢
  simp only [dot, hia, hib, Vector2d.add_x, Vector2d.add_y, Vector2d.neg_x, Vector2d.neg_y,
    Vector2d.mul_x, Vector2d.mul_y, Vector2d.zero_x, Vector2d.zero_y, zero_add] at hu ⊢
  constructor
  · linear_combination
      elastic_first a.m b.m (a.v.x * axis.x + a.v.y * axis.y) (b.v.x * axis.x + b.v.y * axis.y)
        hma' hsum
      - (2 * ((a.v.x * axis.x + a.v.y * axis.y) * a.m
          - ((a.v.x * axis.x + a.v.y * axis.y) * a.m + (b.v.x * axis.x + b.v.y * axis.y) * b.m)
              / (a.m + b.m) * a.m)) / a.m * hu
  · linear_combination
      elastic_second a.m b.m (a.v.x * axis.x + a.v.y * axis.y)
        (b.v.x * axis.x + b.v.y * axis.y) hmb' hsum
      + (2 * ((a.v.x * axis.x + a.v.y * axis.y) * a.m
          - ((a.v.x * axis.x + a.v.y * axis.y) * a.m + (b.v.x * axis.x + b.v.y * axis.y) * b.m)
              / (a.m + b.m) * a.m)) / b.m * hu

/-- Witness for C6: `movingA` (mass 1, velocity `(3, 0)`) and `movingB` (mass 2, velocity
`(-1, 0)`), 3 apart with radii 2 and 2, collide and are stepped by `dt = 1`. -/
theorem collision_reverses_relative_velocity_witness :
    0 < movingA.m ∧ 0 < movingB.m ∧ movingA.p ≠ movingB.p
      ∧ 0 ≤ (movingA.r + movingB.r) - (movingB.p - movingA.p).magnitude ratLibm
      ∧ ratLibm.SqrtExactAt (dot (movingB.p - movingA.p) (movingB.p - movingA.p))
      ∧ dot ((collision ratLibm movingA movingB).1.step 1).v
            ((movingB.p - movingA.p).unit ratLibm)
          - (movingA.m * dot movingA.v ((movingB.p - movingA.p).unit ratLibm)
              + movingB.m * dot movingB.v ((movingB.p - movingA.p).unit ratLibm))
              / (movingA.m + movingB.m)
        = - (dot movingA.v ((movingB.p - movingA.p).unit ratLibm)
          - (movingA.m * dot movingA.v ((movingB.p - movingA.p).unit ratLibm)
              + movingB.m * dot movingB.v ((movingB.p - movingA.p).unit ratLibm))
              / (movingA.m + movingB.m)) :=
  have hma : 0 < movingA.m := by norm_num [movingA, NewtonianMass.new]
  have hmb : 0 < movingB.m := by norm_num [movingB, NewtonianMass.new]
  have hov : 0 ≤ (movingA.r + movingB.r) - (movingB.p - movingA.p).magnitude ratLibm := by
    rw [moving_magnitude]; norm_num [movingA, movingB, NewtonianMass.new]
  ⟨hma, hmb, moving_ne, hov, moving_sqrtExactAt,
    (collision_reverses_relative_velocity ratLibm movingA movingB 1 1 rfl rfl hma hmb
      moving_ne hov moving_sqrtExactAt rfl rfl rfl rfl).1⟩

end MassContracts

section CollisionFrame

variable {K : Type} [LinearOrderedField K]

/-- C7: for every pair of masses `a`, `b` whose centre distance is strictly greater than
`radius(a) + radius(b)`, `collision(a, b)` leaves both masses completely unchanged: no
translation is applied and nothing is added to any impulse accumulator. -/
theorem collision_apart {M₁ M₂ : Type} [Mass K M₁] [Mass K M₂] (L : Libm K) (a : M₁) (b : M₂)
    (h : Mass.radius a + Mass.radius b < (Mass.position b - Mass.position a).magnitude L) :
    collision L a b = (a, b) := by
  unfold collision
  simp only
  rw [if_pos (by linarith)]

/-- Witness for C7: `movingA` (radius 2) and `farB` (radius 1) are 5 apart. -/
theorem collision_apart_witness :
    Mass.radius movingA + Mass.radius farB
        < (Mass.position farB - Mass.position movingA).magnitude ratLibm
      ∧ collision ratLibm movingA farB = (movingA, farB) :=
  have h : Mass.radius movingA + Mass.radius farB
      < (Mass.position farB - Mass.position movingA).magnitude ratLibm := by
    show movingA.r + farB.r < (farB.p - movingA.p).magnitude ratLibm
    rw [far_magnitude]
    norm_num [movingA, farB, NewtonianMass.new]
  ⟨h, collision_apart ratLibm movingA farB h⟩

end CollisionFrame

section UniverseContracts

variable {K : Type} [LinearOrderedField K]

open Universe

/-- C8 (the code fails it): `normalizeAll` has no `return` statement, so no call of it
returns: the behaviour is undefined when control reaches the closing brace.  In the state
in which control reaches it (the active handles allocated), the statements of the body have
created one effect entity for each entry of the active list that is dead and not an effect,
at that entity's position and velocity, and put it in the active list; they have created no
other effect entity; and no entity that was dead and in the active list, and was not also in
the pending list, is in the active list. -/
theorem normalizeAll_effects (L : Libm K) (fuel : Nat) (h : Heap K) (u : Universe)
    (hv : ∀ p ∈ u.allSolids, p < h.next) :
    (∀ r, normalizeAll L (fuel + 1) h u ≠ Outcome.returns r)
      ∧ ∃ (h' : Heap K) (u' : Universe),
        normalizeAll L (fuel + 1) h u = Outcome.undefined (h', u')
          ∧ (List.range' h.next (deadNonEffects h u.allSolids).length).map h'.get
              = (deadNonEffects h u.allSolids).map
                  (fun p => newExplosion (h.get p).position (h.get p).velocity)
          ∧ (∀ q ∈ List.range' h.next (deadNonEffects h u.allSolids).length, q ∈ u'.allSolids)
          ∧ (∀ q, h.next ≤ q → q < h'.next →
              ((h'.get q).descriptor = 2 ↔ q < h.next + (deadNonEffects h u.allSolids).length))
          ∧ (∀ p ∈ u.allSolids, isDead h p = true → p ∉ u.addList → p ∉ u'.allSolids) := by
  refine ⟨normalizeAll_ne_returns L (fuel + 1) h u, ?_⟩
  obtain ⟨h', hn, hnext, _, hE, hS⟩ := normalizeAllBody_spec L fuel h u hv
  refine ⟨h', _, normalizeAll_of_body L (fuel + 1) h u _ hn, hE, ?_, ?_, ?_⟩
  · intro q hq
    simp only [List.mem_append]
    exact Or.inr (Or.inl (Or.inr hq))
  · intro q hq1 hq2
    by_cases hq : q < h.next + (deadNonEffects h u.allSolids).length
    · have hmem : q ∈ List.range' h.next (deadNonEffects h u.allSolids).length :=
        List.mem_range'_1.mpr ⟨hq1, hq⟩
      have h1 : h'.get q ∈ (List.range' h.next (deadNonEffects h u.allSolids).length).map h'.get :=
        List.mem_map_of_mem _ hmem
      rw [hE] at h1
      obtain ⟨p, _, hp⟩ := List.mem_map.mp h1
      rw [← hp]
      exact ⟨fun _ => hq, fun _ => rfl⟩
    · have hmem : q ∈ List.range' (h.next + (deadNonEffects h u.allSolids).length)
          (spawners h u.allSolids).length :=
        List.mem_range'_1.mpr ⟨Nat.le_of_not_lt hq, by rw [hnext] at hq2; exact hq2⟩
      have h1 : some (h'.get q) ∈ (List.range' (h.next + (deadNonEffects h u.allSolids).length)
          (spawners h u.allSolids).length).map (fun q => some (h'.get q)) :=
        List.mem_map.mpr ⟨q, hmem, rfl⟩
      rw [hS] at h1
      obtain ⟨p, _, hp⟩ := List.mem_map.mp h1
      have hd := Solid.descriptor_of_spawn L _ _ hp
      constructor
      · intro h2
        rw [hd] at h2
        exact absurd h2 (by decide)
      · intro h2
        exact absurd h2 hq
  · intro p hp hdead hpend hmem
    simp only [List.mem_append] at hmem
    rcases hmem with hs | (hP | hE') | hS'
    · have := (List.mem_filter.mp hs).2
      simp [hdead] at this
    · exact hpend hP
    · have := (List.mem_range'_1.mp hE').1
      have := hv p hp
      omega
    · have := (List.mem_range'_1.mp hS').1
      have := hv p hp
      omega

/-- Witness for C8: on `sampleUniverse`, where the expired missile `1` is the only dead
entity, the call of `normalizeAll` is undefined at the closing brace, in a state in which one
explosion has been created at the position and velocity of the missile, behind the new handle
`4`, and the missile is not in the active list. -/
theorem normalizeAll_effects_witness :
    (∀ p ∈ sampleUniverse.allSolids, p < sampleHeap.next)
      ∧ (∀ r, normalizeAll ratLibm 1 sampleHeap sampleUniverse ≠ Outcome.returns r)
      ∧ ∃ (h' : Heap ℚ) (u' : Universe),
          normalizeAll ratLibm 1 sampleHeap sampleUniverse = Outcome.undefined (h', u')
            ∧ [h'.get 4] = [newExplosion expiredMissle.position expiredMissle.velocity]
            ∧ 4 ∈ u'.allSolids
            ∧ 1 ∉ u'.allSolids := by
  have hv : ∀ p ∈ sampleUniverse.allSolids, p < sampleHeap.next := by decide
  obtain ⟨hnr, h', u', hn, hE, hin, _, hout⟩ :=
    normalizeAll_effects ratLibm 0 sampleHeap sampleUniverse hv
  have hD : deadNonEffects sampleHeap sampleUniverse.allSolids = [1] := by decide
  rw [hD] at hE hin
  exact ⟨hv, hnr, h', u', hn, hE, hin 4 (by decide), hout 1 (by decide) rfl (by decide)⟩

/-- A dead solid that is in the active list and has been added again is in the active list
when control reaches the closing brace of `normalizeAll`: in `aliasUniverse` the solid `0`
is dead, active and pending. -/
theorem normalizeAll_alias :
    (∀ p ∈ aliasUniverse.allSolids, p < aliasHeap.next)
      ∧ 0 ∈ aliasUniverse.allSolids
      ∧ isDead aliasHeap 0 = true
      ∧ ∃ (h' : Heap ℚ) (u' : Universe),
          normalizeAll ratLibm 1 aliasHeap aliasUniverse = Outcome.undefined (h', u')
            ∧ 0 ∈ u'.allSolids := by
  have hv : ∀ p ∈ aliasUniverse.allSolids, p < aliasHeap.next := by decide
  obtain ⟨h', hn, _⟩ := normalizeAllBody_spec ratLibm 0 aliasHeap aliasUniverse hv
  refine ⟨hv, by simp [aliasUniverse], rfl, h', _,
    normalizeAll_of_body ratLibm 1 aliasHeap aliasUniverse _ hn, ?_⟩
  simp [aliasUniverse]

/-- C9 (the code fails it): for every universe state and entity `e`, `add(e)` appends `e` to
the end of the pending list and leaves the active list unchanged (so `e` is in the active
list only if it already was); but the next call of `normalizeAll` does not return, whatever
has been added after `e` and whatever has happened to the solids in between: the behaviour
is undefined when control reaches its closing brace, in a state in which `e` is in the active
list and the pending list is empty. -/
theorem add_then_normalizeAll (L : Libm K) (fuel : Nat) (u : Universe) (e : Nat) :
    (u.add e).addList = u.addList ++ [e]
      ∧ (u.add e).allSolids = u.allSolids
      ∧ (e ∈ (u.add e).allSolids ↔ e ∈ u.allSolids)
      ∧ ∀ (h : Heap K) (later : List Nat),
          (∀ r, normalizeAll L (fuel + 1) h (later.foldl Universe.add (u.add e))
              ≠ Outcome.returns r)
            ∧ ∃ (h' : Heap K) (u' : Universe),
              normalizeAll L (fuel + 1) h (later.foldl Universe.add (u.add e))
                  = Outcome.undefined (h', u')
                ∧ e ∈ u'.allSolids ∧ u'.addList = [] := by
  refine ⟨rfl, rfl, Iff.rfl, ?_⟩
  intro h later
  refine ⟨normalizeAll_ne_returns L (fuel + 1) h _, ?_⟩
  obtain ⟨h', extra, hn⟩ := normalizeAllBody_frame L fuel h (later.foldl Universe.add (u.add e))
  refine ⟨h', _, normalizeAll_of_body L (fuel + 1) h _ _ hn, ?_, rfl⟩
  rw [foldl_add]
  simp [Universe.add]

/-- C10 (the code fails it): for every universe state with active list `A` and pending list
`P` (the handles of `A` allocated), the call of `normalizeAll` does not return: the behaviour
is undefined when control reaches the closing brace.  In the state in which control reaches
it the active list is exactly: the entities of `A` that are not dead, in their original
order, followed by `P`, followed by one effect entity per dead non-effect entry of `A` (in
the order of `A`), followed by every spawn drained from the entities of `A` (in the order of
`A`, dead or not); and the pending list is empty. -/
theorem normalizeAll_active_list (L : Libm K) (fuel : Nat) (h : Heap K) (u : Universe)
    (hv : ∀ p ∈ u.allSolids, p < h.next) :
    (∀ r, normalizeAll L (fuel + 1) h u ≠ Outcome.returns r)
      ∧ ∃ h' : Heap K,
        normalizeAll L (fuel + 1) h u
            = Outcome.undefined (h',
                { addList := []
                  allSolids :=
                    survivors h u.allSolids ++ u.addList
                      ++ List.range' h.next (deadNonEffects h u.allSolids).length
                      ++ List.range' (h.next + (deadNonEffects h u.allSolids).length)
                          (spawners h u.allSolids).length })
          ∧ (List.range' h.next (deadNonEffects h u.allSolids).length).map h'.get
              = (deadNonEffects h u.allSolids).map
                  (fun p => newExplosion (h.get p).position (h.get p).velocity)
          ∧ (List.range' (h.next + (deadNonEffects h u.allSolids).length)
                (spawners h u.allSolids).length).map (fun q => some (h'.get q))
              = (spawners h u.allSolids).map (fun p => (h.get p).spawn L) := by
  refine ⟨normalizeAll_ne_returns L (fuel + 1) h u, ?_⟩
  obtain ⟨h', hn, _, _, hE, hS⟩ := normalizeAllBody_spec L fuel h u hv
  refine ⟨h', ?_, hE, hS⟩
  rw [normalizeAll_of_body L (fuel + 1) h u _ hn]
  simp only [List.append_assoc]

/-- Witness for C10: on `sampleUniverse` (active `[0, 1, 2]`: a ship waiting to fire, an
expired missile, a rock; pending `[3]`), control reaches the closing brace of `normalizeAll`
with the active list `[0, 2, 3, 4, 5]`: the survivors, the pending alien, the explosion of
the missile and the missile the ship fired. -/
theorem normalizeAll_active_list_witness :
    (∀ p ∈ sampleUniverse.allSolids, p < sampleHeap.next)
      ∧ ∃ h' : Heap ℚ,
          normalizeAll ratLibm 1 sampleHeap sampleUniverse
              = Outcome.undefined (h', { addList := [], allSolids := [0, 2, 3, 4, 5] })
            ∧ [h'.get 4] = [newExplosion expiredMissle.position expiredMissle.velocity]
            ∧ [some (h'.get 5)] = [firingShip.spawn ratLibm] := by
  have hv : ∀ p ∈ sampleUniverse.allSolids, p < sampleHeap.next := by decide
  obtain ⟨_, h', hn, hE, hS⟩ := normalizeAll_active_list ratLibm 0 sampleHeap sampleUniverse hv
  have hD : deadNonEffects sampleHeap sampleUniverse.allSolids = [1] := by decide
  have hF : spawners sampleHeap sampleUniverse.allSolids = [0] := by decide
  have hA : survivors sampleHeap sampleUniverse.allSolids = [0, 2] := by decide
  rw [hD] at hE hS hn
  rw [hF] at hS hn
  rw [hA] at hn
  exact ⟨hv, h', hn, hE, hS⟩

end UniverseContracts

section InteractClaims

variable {K : Type} [LinearOrderedField K] [FloorRing K]

open Universe

/-- C11: for every universe state, `interactAll` leaves every entity whose category is
effect (descriptor 2) completely unchanged, however close it is to any other entity: when
`interactAll` returns, the object behind every such handle is the object it was.  And
`interactAll` returns whenever no entity that is not an effect occurs twice in the active
list. -/
theorem interactAll_effects_unchanged (L : Libm K) (h : Heap K) (u : Universe) :
    (∀ (h' : Heap K) (u' : Universe), interactAll L h u = some (h', u') →
        u' = u ∧ ∀ p, (h.get p).descriptor = 2 → h'.get p = h.get p)
      ∧ ((nonEffects h u.allSolids).Nodup → ∃ h' : Heap K, interactAll L h u = some (h', u)) := by
  rw [interactAll_eq]
  constructor
  · intro h' u' hr
    by_cases hn : (nonEffects h u.allSolids).Nodup
    · rw [if_pos hn] at hr
      simp only [Option.some.injEq, Prod.mk.injEq] at hr
      obtain ⟨h1, h2⟩ := hr
      refine ⟨h2.symm, ?_⟩
      intro p hp
      rw [← h1]
      apply interactPairs_get_of_not_mem
      intro pq hpq
      have hf := (List.mem_filter.mp hpq).2
      simp only [Bool.and_eq_true, bne_iff_ne, ne_eq] at hf
      constructor
      · intro hh
        rw [← hh] at hf
        exact hf.1 hp
      · intro hh
        rw [← hh] at hf
        exact hf.2 hp
    · rw [if_neg hn] at hr
      exact absurd hr (by simp)
  · intro hn
    rw [if_pos hn]
    exact ⟨_, rfl⟩

/-- Witness for C11: in `rockUniverse` the explosion `1` is one unit from a rock; after
`interactAll` it is as it was. -/
theorem interactAll_effects_unchanged_witness :
    (nonEffects rockHeap rockUniverse.allSolids).Nodup
      ∧ (rockHeap.get 1).descriptor = 2
      ∧ ∃ h' : Heap ℚ,
          interactAll ratLibm rockHeap rockUniverse = some (h', rockUniverse)
            ∧ h'.get 1 = rockHeap.get 1 := by
  have hn : (nonEffects rockHeap rockUniverse.allSolids).Nodup := by decide
  obtain ⟨h', hr⟩ := (interactAll_effects_unchanged ratLibm rockHeap rockUniverse).2 hn
  exact ⟨hn, rfl, h', hr,
    ((interactAll_effects_unchanged ratLibm rockHeap rockUniverse).1 h' rockUniverse hr).2 1 rfl⟩

/-- C12, as stated, fails: in `repeatedUniverse` the active list is `[0, 0]`, the rock `0`
twice.  The only index pair is `(0, 1)`, the rock with itself, and `interactAll` does not
return: the second `Lock` waits on the semaphore the first one holds. -/
theorem interactAll_pairs_counterexample :
    interactAll ratLibm rockHeap repeatedUniverse = none
      ∧ interactionPairs rockHeap repeatedUniverse.allSolids = [(0, 0)] := by
  refine ⟨?_, by decide⟩
  rw [interactAll_eq, if_neg (by decide)]

/-- C12, amended: for every active list `e_0..e_(n-1)` in which no entity that is not an effect
occurs twice, `interactAll` has the same effect as applying `gravitate(e_i, e_j)` followed by
`collision(e_i, e_j)` once for each index pair `i < j` in which neither `e_i` nor `e_j` is an
effect, in the lexicographic order of `(i, j)`; no pair is processed twice, no entity is
paired with itself, and the active and pending lists are unchanged.  (When such an entity
does occur twice, `interactAll` does not return.) -/
theorem interactAll_pairs (L : Libm K) (h : Heap K) (u : Universe) :
    ((interactAll L h u).isSome ↔ (nonEffects h u.allSolids).Nodup)
      ∧ ((nonEffects h u.allSolids).Nodup →
          interactAll L h u = some (interactPairs L (interactionPairs h u.allSolids) h, u)
            ∧ (interactionPairs h u.allSolids).Nodup
            ∧ ∀ pq ∈ interactionPairs h u.allSolids, pq.1 ≠ pq.2)
      ∧ pairsOf u.allSolids
          = (List.range u.allSolids.length).flatMap
              (fun i => (u.allSolids.drop (i + 1)).map (fun q => (u.allSolids.getD i 0, q))) := by
  refine ⟨?_, ?_, pairsOf_eq_flatMap _⟩
  · rw [interactAll_eq]
    by_cases hn : (nonEffects h u.allSolids).Nodup
    · simp [hn]
    · simp [hn]
  · intro hn
    rw [interactAll_eq, if_pos hn, ← pairsOf_nonEffects]
    exact ⟨rfl, pairsOf_nodup _ hn⟩

/-- Witness for C12: in `rockUniverse` the only pair that interacts is the pair of the two
rocks. -/
theorem interactAll_pairs_witness :
    (nonEffects rockHeap rockUniverse.allSolids).Nodup
      ∧ interactionPairs rockHeap rockUniverse.allSolids = [(0, 2)]
      ∧ interactAll ratLibm rockHeap rockUniverse
          = some (interactPairs ratLibm (interactionPairs rockHeap rockUniverse.allSolids)
              rockHeap, rockUniverse) := by
  have hn : (nonEffects rockHeap rockUniverse.allSolids).Nodup := by decide
  exact ⟨hn, by decide, ((interactAll_pairs ratLibm rockHeap rockUniverse).2.1 hn).1⟩

/-- C13 (the code fails it): for every universe state and time step `dt`, `simulateAll(dt)`
calls `interactAll` and then `normalizeAll`, and ends as that call of `normalizeAll` does: it
does not return, and the call of `stepAll(dt)` is not reached; when no entity that is not an
effect occurs twice in the active list, the behaviour is undefined in the state in which
control reaches the closing brace of `normalizeAll`.  The method `stepAll(dt)` itself calls
`step(dt)` once for every entry of the active list (so exactly once on every entity of the
list that is not repeated in it) and on no other entity, and leaves the lists as they
are. -/
theorem simulateAll_sequence (L : Libm K) (fuel : Nat) (dt : K) (h : Heap K) (u : Universe) :
    (∀ r, simulateAll L fuel dt h u ≠ Outcome.returns r)
      ∧ simulateAll L fuel dt h u
          = (match interactAll L h u with
             | none => Outcome.blocks
             | some r₁ => normalizeAll L fuel r₁.1 r₁.2)
      ∧ (∀ (h₂ : Heap K) (u₂ : Universe),
          (stepAll L dt h₂ u₂).2 = u₂
            ∧ (∀ p, (stepAll L dt h₂ u₂).1.get p
                = (fun s => Mass.step L s dt)^[u₂.allSolids.count p] (h₂.get p))
            ∧ (∀ p, p ∉ u₂.allSolids → (stepAll L dt h₂ u₂).1.get p = h₂.get p)
            ∧ (∀ p, u₂.allSolids.count p = 1 →
                (stepAll L dt h₂ u₂).1.get p = Mass.step L (h₂.get p) dt))
      ∧ ((nonEffects h u.allSolids).Nodup →
          ∃ (h₁ : Heap K) (s : Heap K × Universe),
            interactAll L h u = some (h₁, u)
              ∧ normalizeAllBody L (fuel + 1) h₁ u = some s
              ∧ simulateAll L (fuel + 1) dt h u = Outcome.undefined s) := by
  refine ⟨simulateAll_ne_returns L fuel dt h u, simulateAll_eq L fuel dt h u, ?_, ?_⟩
  · intro h₂ u₂
    refine ⟨rfl, fun p => stepLoop_get L dt _ h₂ p, ?_, ?_⟩
    · intro p hp
      show (stepLoop L dt u₂.allSolids h₂).get p = _
      rw [stepLoop_get, List.count_eq_zero_of_not_mem hp]
      rfl
    · intro p hp
      show (stepLoop L dt u₂.allSolids h₂).get p = _
      rw [stepLoop_get, hp]
      rfl
  · intro hn
    obtain ⟨h₁, hr⟩ := (show ∃ h₁ : Heap K, interactAll L h u = some (h₁, u) by
      rw [interactAll_eq, if_pos hn]; exact ⟨_, rfl⟩)
    obtain ⟨h₂, extra, hnorm⟩ := normalizeAllBody_frame L fuel h₁ u
    refine ⟨h₁, _, hr, hnorm, ?_⟩
    rw [simulateAll_eq, hr]
    exact normalizeAll_of_body L (fuel + 1) h₁ u _ hnorm

/-- Witness for C13: on `rockUniverse` the call of `simulateAll` does not return; it is
undefined at the closing brace of `normalizeAll`. -/
theorem simulateAll_sequence_witness :
    (nonEffects rockHeap rockUniverse.allSolids).Nodup
      ∧ (∀ r, simulateAll ratLibm 1 1 rockHeap rockUniverse ≠ Outcome.returns r)
      ∧ ∃ s, simulateAll ratLibm 1 1 rockHeap rockUniverse = Outcome.undefined s := by
  have hn : (nonEffects rockHeap rockUniverse.allSolids).Nodup := by decide
  obtain ⟨_, s, _, _, hs⟩ := (simulateAll_sequence ratLibm 0 1 rockHeap rockUniverse).2.2.2 hn
  exact ⟨hn, (simulateAll_sequence ratLibm 1 1 rockHeap rockUniverse).1, s, hs⟩

end InteractClaims

section SolidContracts

variable {K : Type} [LinearOrderedField K] [FloorRing K]

/-- C14: for every NormalSolid (or Ship) constructed with hit-point budget `H ≥ 0` and
lifetime budget `Lf ≥ 0`, in every state reachable from construction by any sequence of
calls of push, hit, push and hit with an offset, torque, twist, translate, step and
nextSpawn: `isDead` is true if and only if (`H ≠ 0` and the accumulated damage is `> H`) or
(`Lf ≠ 0` and the age is `> Lf`); in particular an entity with `H = 0` and `Lf = 0` is never
dead.  The square root of `<math.h>` returns no negative number. -/
theorem dead_iff_budget_exceeded (L : Libm K) (hsqrt : ∀ x, 0 ≤ L.sqrt x)
    (s₀ : Solid K) (pMass : NewtonianMass K) (H Lf d : Int)
    (hnew : s₀.toNormalSolid = NormalSolid.new pMass H Lf d)
    (hH : 0 ≤ H) (hL : 0 ≤ Lf) (calls : List (SolidCall K)) :
    ((SolidCall.runAll L calls s₀).isDead = true ↔
        (H ≠ 0 ∧ (SolidCall.runAll L calls s₀).toNormalSolid.damage > (H : K))
          ∨ (Lf ≠ 0 ∧ (SolidCall.runAll L calls s₀).toNormalSolid.age > (Lf : K)))
      ∧ (H = 0 → Lf = 0 → (SolidCall.runAll L calls s₀).isDead = false) := by
  have key : ∀ (calls : List (SolidCall K)) (s : Solid K),
      (s.toNormalSolid.hitPoints = H ∧ s.toNormalSolid.life = Lf
        ∧ (s.toNormalSolid.dead = true ↔
            (H ≠ 0 ∧ s.toNormalSolid.damage > (H : K))
              ∨ (Lf ≠ 0 ∧ s.toNormalSolid.age > (Lf : K)))) →
      ((SolidCall.runAll L calls s).toNormalSolid.dead = true ↔
        (H ≠ 0 ∧ (SolidCall.runAll L calls s).toNormalSolid.damage > (H : K))
          ∨ (Lf ≠ 0 ∧ (SolidCall.runAll L calls s).toNormalSolid.age > (Lf : K))) := by
    intro calls
    induction calls with
    | nil => intro s hs; exact hs.2.2
    | cons c rest ih =>
      intro s ⟨h1, h2, h3⟩
      apply ih (c.run L s)
      obtain ⟨r1, r2, r3⟩ := SolidCall.run_life L c s
      refine ⟨r1.trans h1, r2.trans h2, ?_⟩
      rcases r3 with ⟨impulse, _, e1, e2, e3⟩ | ⟨deltaTime, _, e1, e2, e3⟩ | ⟨e1, e2, e3⟩
      · have hmag : 0 ≤ impulse.magnitude L := hsqrt _
        rw [e3, h3, h1, e2]
        constructor
        · rintro ((⟨ha, hb⟩ | hb) | hb)
          · exact Or.inl ⟨ha, by rw [e1]; linarith⟩
          · exact Or.inr hb
          · exact Or.inl hb
        · rintro (hb | hb)
          · exact Or.inr hb
          · exact Or.inl (Or.inr hb)
      · rw [e3, h3, h2, e1]
        constructor
        · rintro ((hb | ⟨ha, hb⟩) | hb)
          · exact Or.inl hb
          · exact Or.inr ⟨ha, by rw [e2]; linarith⟩
          · exact Or.inr hb
        · rintro (hb | hb)
          · exact Or.inl (Or.inl hb)
          · exact Or.inr hb
      · rw [e1, e2, e3]
        exact h3
  have hinit : s₀.toNormalSolid.hitPoints = H ∧ s₀.toNormalSolid.life = Lf
      ∧ (s₀.toNormalSolid.dead = true ↔
          (H ≠ 0 ∧ s₀.toNormalSolid.damage > (H : K))
            ∨ (Lf ≠ 0 ∧ s₀.toNormalSolid.age > (Lf : K))) := by
    rw [hnew]
    refine ⟨rfl, rfl, ?_⟩
    simp only [NormalSolid.new]
    have h1 : ¬ ((0 : K) > (H : K)) := not_lt.mpr (by exact_mod_cast hH)
    have h2 : ¬ ((0 : K) > (Lf : K)) := not_lt.mpr (by exact_mod_cast hL)
    simp [h1, h2]
  have hmain := key calls s₀ hinit
  refine ⟨hmain, ?_⟩
  intro hH0 hL0
  have : ¬ ((SolidCall.runAll L calls s₀).toNormalSolid.dead = true) := by
    rw [hmain]
    simp [hH0, hL0]
  simpa [Solid.isDead, NormalSolid.isDead] using this

/-- Witness for C14: a missile (hit points 2, lifetime 500) after a hit of magnitude 5. -/
theorem dead_iff_budget_exceeded_witness :
    (∀ x, 0 ≤ ratLibm.sqrt x) ∧ (0 : Int) ≤ 2 ∧ (0 : Int) ≤ 500
      ∧ ((SolidCall.runAll ratLibm [SolidCall.hit ⟨3, 4⟩] (newMissle ⟨0, 0⟩ ⟨1, 0⟩)).isDead
            = true ↔
          (((2 : Int) ≠ 0
              ∧ (SolidCall.runAll ratLibm [SolidCall.hit ⟨3, 4⟩]
                  (newMissle ⟨0, 0⟩ ⟨1, 0⟩)).toNormalSolid.damage > ((2 : Int) : ℚ))
            ∨ ((500 : Int) ≠ 0
              ∧ (SolidCall.runAll ratLibm [SolidCall.hit ⟨3, 4⟩]
                  (newMissle ⟨0, 0⟩ ⟨1, 0⟩)).toNormalSolid.age > ((500 : Int) : ℚ)))) :=
  ⟨ratLibm_sqrt_nonneg, by decide, by decide,
    (dead_iff_budget_exceeded ratLibm ratLibm_sqrt_nonneg (newMissle ⟨0, 0⟩ ⟨1, 0⟩)
      (NewtonianMass.newLinear 30 60 5 ⟨0, 0⟩ ⟨1, 0⟩) 2 500 4 rfl (by decide) (by decide)
      [SolidCall.hit ⟨3, 4⟩]).1⟩

/-- C15: for every NormalSolid or Ship state in which `isDead` is true, and every call of
its interface (push, hit, push and hit with an offset, torque, twist, translate, step,
nextSpawn), `isDead` is still true after the call, and so after any sequence of calls:
liveness never reverts. -/
theorem dead_stays_dead (L : Libm K) (s : Solid K) (hdead : s.isDead = true) :
    (∀ c : SolidCall K, (c.run L s).isDead = true)
      ∧ ∀ calls : List (SolidCall K), (SolidCall.runAll L calls s).isDead = true := by
  have one : ∀ (c : SolidCall K) (s : Solid K), s.isDead = true → (c.run L s).isDead = true := by
    intro c s hs
    have hs' : s.toNormalSolid.dead = true := hs
    show (c.run L s).toNormalSolid.dead = true
    obtain ⟨_, _, r3⟩ := SolidCall.run_life L c s
    rcases r3 with ⟨_, _, _, _, e3⟩ | ⟨_, _, _, _, e3⟩ | ⟨_, _, e3⟩
    · exact e3.mpr (Or.inl hs')
    · exact e3.mpr (Or.inl hs')
    · rw [e3]; exact hs'
  refine ⟨fun c => one c s hdead, ?_⟩
  intro calls
  induction calls generalizing s with
  | nil => exact hdead
  | cons c rest ih => exact ih (c.run L s) (one c s hdead)

/-- Witness for C15: the expired missile stays dead through a step and a hit. -/
theorem dead_stays_dead_witness :
    expiredMissle.isDead = true
      ∧ ((SolidCall.step 1).run ratLibm expiredMissle).isDead = true
      ∧ (SolidCall.runAll ratLibm [SolidCall.step 1, SolidCall.hit ⟨3, 4⟩]
          expiredMissle).isDead = true :=
  ⟨rfl, (dead_stays_dead ratLibm expiredMissle rfl).1 (SolidCall.step 1),
    (dead_stays_dead ratLibm expiredMissle rfl).2 [SolidCall.step 1, SolidCall.hit ⟨3, 4⟩]⟩

end SolidContracts

section MassContracts2

variable {K : Type} [LinearOrderedField K] [FloorRing K]

/-- C16: for every NewtonianMass with nonzero mass and moment and every `dt`, after
`step(dt)` the force, impulse, torque and sudden-torque accumulators are all zero; hence (for
a NewtonianMass that is not a FrictionMass) a second `step(dt2)` with no intervening
push/hit/torque/twist leaves the velocity unchanged and advances the position by exactly
that velocity. -/
theorem step_resets_accumulators (s : NewtonianMass K) (dt dt2 : K)
    (_hm : s.m ≠ 0) (_hI : s.I ≠ 0) :
    (s.step dt).fsum = 0 ∧ (s.step dt).isum = 0 ∧ (s.step dt).tsum = 0
      ∧ (s.step dt).stsum = 0
      ∧ ((∀ kv kt, s.cls ≠ MassClass.friction kv kt) →
          ((s.step dt).step dt2).v = (s.step dt).v
            ∧ ((s.step dt).step dt2).p = (s.step dt).p + (s.step dt).v) := by
  refine ⟨rfl, rfl, rfl, rfl, ?_⟩
  intro hcls
  have hf : (s.step dt).fsum = 0 := rfl
  have hi : (s.step dt).isum = 0 := rfl
  have hv : ((s.step dt).step dt2).v = (s.step dt).v := by
    rw [NewtonianMass.step_v (s.step dt) dt2,
      NewtonianMass.totalForce_of_not_friction (s.step dt) dt2 hcls, hf, hi]
    ext <;> simp
  exact ⟨hv, by rw [NewtonianMass.step_p (s.step dt) dt2, hv]⟩

/-- Witness for C16: two steps of `sampleMass`. -/
theorem step_resets_accumulators_witness :
    sampleMass.m ≠ 0 ∧ sampleMass.I ≠ 0
      ∧ (∀ kv kt, sampleMass.cls ≠ MassClass.friction kv kt)
      ∧ (sampleMass.step 2).fsum = 0 ∧ (sampleMass.step 2).isum = 0
      ∧ (sampleMass.step 2).tsum = 0 ∧ (sampleMass.step 2).stsum = 0
      ∧ ((sampleMass.step 2).step 3).v = (sampleMass.step 2).v
      ∧ ((sampleMass.step 2).step 3).p = (sampleMass.step 2).p + (sampleMass.step 2).v :=
  have hm : sampleMass.m ≠ 0 := by norm_num [sampleMass, NewtonianMass.new]
  have hI : sampleMass.I ≠ 0 := by norm_num [sampleMass, NewtonianMass.new]
  have hcls : ∀ kv kt, sampleMass.cls ≠ MassClass.friction kv kt := by
    intro kv kt h
    simp [sampleMass, NewtonianMass.new] at h
  ⟨hm, hI, hcls, (step_resets_accumulators sampleMass 2 3 hm hI).1,
    (step_resets_accumulators sampleMass 2 3 hm hI).2.1,
    (step_resets_accumulators sampleMass 2 3 hm hI).2.2.1,
    (step_resets_accumulators sampleMass 2 3 hm hI).2.2.2.1,
    ((step_resets_accumulators sampleMass 2 3 hm hI).2.2.2.2 hcls).1,
    ((step_resets_accumulators sampleMass 2 3 hm hI).2.2.2.2 hcls).2⟩

/-- C17: for every force (or impulse) and every offset whose magnitude is at most `0.0001`,
`push(force, offset)` (respectively `hit(impulse, offset)`) on a NewtonianMass leaves the
torque (respectively sudden-torque) accumulator unchanged and has exactly the effect of
`push(force)` (respectively `hit(impulse)`). -/
theorem offset_guard (L : Libm K) (s : NewtonianMass K) (force impulse offset : Vector2d K)
    (h : offset.magnitude L ≤ 0.0001) :
    Mass.pushOffset L s force offset = s.push force
      ∧ (Mass.pushOffset L s force offset).tsum = s.tsum
      ∧ Mass.hitOffset L s impulse offset = s.hit impulse
      ∧ (Mass.hitOffset L s impulse offset).stsum = s.stsum := by
  have hp : Mass.pushOffset L s force offset = s.push force := by
    show Mass.pushOffsetDefault NewtonianMass.push NewtonianMass.torque L s force offset = _
    simp [Mass.pushOffsetDefault, not_lt.mpr h]
  have hh : Mass.hitOffset L s impulse offset = s.hit impulse := by
    show Mass.hitOffsetDefault NewtonianMass.hit NewtonianMass.twist L s impulse offset = _
    simp [Mass.hitOffsetDefault, not_lt.mpr h]
  exact ⟨hp, by rw [hp]; rfl, hh, by rw [hh]; rfl⟩

/-- Witness for C17: the zero offset, of magnitude `0`, on `sampleMass`. -/
theorem offset_guard_witness :
    (⟨0, 0⟩ : Vector2d ℚ).magnitude ratLibm ≤ 0.0001
      ∧ Mass.pushOffset ratLibm sampleMass ⟨3, 4⟩ ⟨0, 0⟩ = sampleMass.push ⟨3, 4⟩
      ∧ Mass.hitOffset ratLibm sampleMass ⟨5, 6⟩ ⟨0, 0⟩ = sampleMass.hit ⟨5, 6⟩ :=
  have h : (⟨0, 0⟩ : Vector2d ℚ).magnitude ratLibm ≤ 0.0001 := by
    have h0 : ratLibm.sqrt 0 = 0 := ratLibm_sqrt_of_eq 0 0 (by norm_num)
    norm_num [Vector2d.magnitude, h0]
  ⟨h, (offset_guard ratLibm sampleMass ⟨3, 4⟩ ⟨5, 6⟩ ⟨0, 0⟩ h).1,
    (offset_guard ratLibm sampleMass ⟨3, 4⟩ ⟨5, 6⟩ ⟨0, 0⟩ h).2.2.1⟩

/-- C18: the code of `cross` at `left = (1, 0)`, `right = (0, 1)` returns `0`, where the
z-component of the cross product `left.x*right.y - left.y*right.x` is `1`; in general `cross`
returns `left.x*left.y - left.y*right.x`, and that is what `push(force, offset)` adds to the
torque accumulator. -/
theorem cross_as_written :
    cross (⟨1, 0⟩ : Vector2d ℚ) ⟨0, 1⟩ = 0
      ∧ (1 : ℚ) * 1 - 0 * 0 = 1
      ∧ (∀ left right : Vector2d ℚ, cross left right = left.x * left.y - left.y * right.x)
      ∧ (Mass.pushOffset ratLibm sampleMass ⟨1, 0⟩ ⟨0, 1⟩).tsum = sampleMass.tsum + 0
      ∧ (Mass.hitOffset ratLibm sampleMass ⟨1, 0⟩ ⟨0, 1⟩).stsum = sampleMass.stsum + 0 := by
  have h1 : ratLibm.sqrt 1 = 1 := ratLibm_sqrt_of_eq 1 1 (by norm_num)
  have hmag : (⟨0, 1⟩ : Vector2d ℚ).magnitude ratLibm = 1 := by
    norm_num [Vector2d.magnitude, h1]
  refine ⟨by norm_num [cross], by norm_num, fun _ _ => rfl, ?_, ?_⟩
  · show (Mass.pushOffsetDefault NewtonianMass.push NewtonianMass.torque ratLibm sampleMass
      ⟨1, 0⟩ ⟨0, 1⟩).tsum = _
    simp only [Mass.pushOffsetDefault, hmag]
    norm_num [NewtonianMass.torque, NewtonianMass.push, cross]
  · show (Mass.hitOffsetDefault NewtonianMass.hit NewtonianMass.twist ratLibm sampleMass
      ⟨1, 0⟩ ⟨0, 1⟩).stsum = _
    simp only [Mass.hitOffsetDefault, hmag]
    norm_num [NewtonianMass.twist, NewtonianMass.hit, cross]

/-- C19: for every (plain) NewtonianMass with nonzero moment `I`, angle `a`, angular rate `o`,
accumulated torque `T` and sudden torque `S`, `step(dt)` sets the angular rate to
`fmod(o + (T*dt + S)/I, 360)` and the angle to `fmod(a + o + (T*dt + S)/I, 360)`, where `fmod`
is the truncated remainder; hence after the step both lie strictly between `-360` and `360`
and differ from the un-normalised values by an integer multiple of `360`. -/
theorem step_angle_rotation (L : Libm K) (s : NewtonianMass K) (dt : K)
    (hcls : s.cls = MassClass.newtonian) (_hI : s.I ≠ 0) :
    (s.step dt).rotation = fmod (s.o + (s.tsum * dt + s.stsum) / s.I) 360
      ∧ (s.step dt).angle L = fmod (s.a + s.o + (s.tsum * dt + s.stsum) / s.I) 360
      ∧ (- 360 < (s.step dt).rotation ∧ (s.step dt).rotation < 360)
      ∧ (- 360 < (s.step dt).angle L ∧ (s.step dt).angle L < 360)
      ∧ (∃ n : ℤ, (s.o + (s.tsum * dt + s.stsum) / s.I) - (s.step dt).rotation = (n : K) * 360)
      ∧ (∃ n : ℤ,
          (s.a + s.o + (s.tsum * dt + s.stsum) / s.I) - (s.step dt).angle L = (n : K) * 360) := by
  have ht : s.totalTorque dt = s.tsum * dt + s.stsum := by
    simp only [NewtonianMass.totalTorque, hcls]
  have ho : (s.step dt).rotation = fmod (s.o + (s.tsum * dt + s.stsum) / s.I) 360 := by
    show (s.step dt).o = _
    rw [NewtonianMass.step_o, ht]
  have ha : (s.step dt).angle L = fmod (s.a + s.o + (s.tsum * dt + s.stsum) / s.I) 360 := by
    have hc : (s.step dt).cls = MassClass.newtonian := hcls
    simp only [NewtonianMass.angle, hc]
    rw [NewtonianMass.step_a, ht, add_assoc]
  rw [ho, ha]
  exact ⟨rfl, rfl, fmod_bounds _ 360 (by norm_num), fmod_bounds _ 360 (by norm_num),
    fmod_sub_eq _ 360, fmod_sub_eq _ 360⟩

/-- Witness for C19: a step of `sampleMass` (angle 350, angular rate 20, moment 1). -/
theorem step_angle_rotation_witness :
    sampleMass.cls = MassClass.newtonian ∧ sampleMass.I ≠ 0
      ∧ (sampleMass.step 2).rotation
          = fmod (sampleMass.o + (sampleMass.tsum * 2 + sampleMass.stsum) / sampleMass.I) 360
      ∧ (- 360 < (sampleMass.step 2).angle ratLibm ∧ (sampleMass.step 2).angle ratLibm < 360) :=
  have hI : sampleMass.I ≠ 0 := by norm_num [sampleMass, NewtonianMass.new]
  ⟨rfl, hI, (step_angle_rotation ratLibm sampleMass 2 rfl hI).1,
    (step_angle_rotation ratLibm sampleMass 2 rfl hI).2.2.2.1⟩

/-- C20: for every plain, frictional or velocity-aligned mass with nonzero mass and moment,
zero velocity and empty force and impulse accumulators, and every `dt`, `step(dt)` leaves the
position and the velocity unchanged. -/
theorem step_at_rest (s : NewtonianMass K) (dt : K) (_hm : s.m ≠ 0) (_hI : s.I ≠ 0)
    (hv : s.v = 0) (hf : s.fsum = 0) (hi : s.isum = 0) :
    (s.step dt).p = s.p ∧ (s.step dt).v = s.v := by
  have ht : s.totalForce dt = 0 := by
    unfold NewtonianMass.totalForce
    cases s.cls with
    | friction kv kt =>
      simp only [hf, hi, NewtonianMass.velocity, hv]
      ext <;> simp
    | newtonian =>
      simp only [hf, hi]
      ext <;> simp
    | linear =>
      simp only [hf, hi]
      ext <;> simp
  have hv' : (s.step dt).v = s.v := by
    rw [NewtonianMass.step_v, ht, hv]
    ext <;> simp
  refine ⟨?_, hv'⟩
  rw [NewtonianMass.step_p, hv', hv]
  ext <;> simp

/-- A ship's mass at rest: a FrictionMass with empty accumulators. -/
theorem step_at_rest_witness :
    (NewtonianMass.newFriction 100 2000 12 ⟨5, 7⟩ 0 0 0 0.0002 0.002 : NewtonianMass ℚ).m ≠ 0
      ∧ ((NewtonianMass.newFriction 100 2000 12 ⟨5, 7⟩ 0 0 0 0.0002 0.002 :
            NewtonianMass ℚ).step 3).p = ⟨5, 7⟩
      ∧ ((NewtonianMass.newFriction 100 2000 12 ⟨5, 7⟩ 0 0 0 0.0002 0.002 :
            NewtonianMass ℚ).step 3).v = 0 :=
  have hm : (NewtonianMass.newFriction 100 2000 12 ⟨5, 7⟩ 0 0 0 0.0002 0.002 :
      NewtonianMass ℚ).m ≠ 0 := by norm_num [NewtonianMass.newFriction, NewtonianMass.new]
  have hI : (NewtonianMass.newFriction 100 2000 12 ⟨5, 7⟩ 0 0 0 0.0002 0.002 :
      NewtonianMass ℚ).I ≠ 0 := by norm_num [NewtonianMass.newFriction, NewtonianMass.new]
  ⟨hm, (step_at_rest _ 3 hm hI rfl rfl rfl).1, (step_at_rest _ 3 hm hI rfl rfl rfl).2⟩

end MassContracts2

section ScenarioContracts

variable {K : Type} [LinearOrderedField K] [FloorRing K]

open Universe

/-- C22: for all masses `a` and `b`, `collision(a, b)` calls nothing but `translate` and
`hit`: it adds nothing to either body's torque or sudden-torque accumulator and changes
neither angle nor angular rate, and the impulses it applies are `-c*axis` and `c*axis` for a
scalar `c`, with `axis = unit(position(b) - position(a))`; so after a step the velocity
component of each body perpendicular to the axis is what it is after a step without the
collision, and for plain masses with no other force or impulse accumulated, what it was
before. -/
theorem collision_no_tangential {M₁ M₂ : Type} [Mass K M₁] [Mass K M₂] (L : Libm K)
    (x : M₁) (y : M₂) (a b : NewtonianMass K) (dt₁ dt₂ : K) :
    (∃ c d : K,
        collision L x y
          = (Mass.hit L (Mass.translate x
                ((- (Mass.position y - Mass.position x).unit L) * d))
                (- ((Mass.position y - Mass.position x).unit L * c)),
             Mass.hit L (Mass.translate y ((Mass.position y - Mass.position x).unit L * d))
                ((Mass.position y - Mass.position x).unit L * c))
          ∨ collision L x y = (x, y))
      ∧ ((collision L a b).1.tsum = a.tsum ∧ (collision L a b).1.stsum = a.stsum
          ∧ (collision L a b).2.tsum = b.tsum ∧ (collision L a b).2.stsum = b.stsum)
      ∧ (Mass.angle L (collision L a b).1 = Mass.angle L a
          ∧ Mass.rotation (collision L a b).1 = Mass.rotation a
          ∧ Mass.angle L (collision L a b).2 = Mass.angle L b
          ∧ Mass.rotation (collision L a b).2 = Mass.rotation b)
      ∧ (∃ c : K,
          (collision L a b).1.isum = a.isum + - ((b.p - a.p).unit L * c)
            ∧ (collision L a b).2.isum = b.isum + (b.p - a.p).unit L * c)
      ∧ (dot ((collision L a b).1.step dt₁).v ((b.p - a.p).unit L).perp
            = dot (a.step dt₁).v ((b.p - a.p).unit L).perp
          ∧ dot ((collision L a b).2.step dt₂).v ((b.p - a.p).unit L).perp
            = dot (b.step dt₂).v ((b.p - a.p).unit L).perp)
      ∧ (a.cls = MassClass.newtonian → a.fsum = 0 → a.isum = 0 →
          dot ((collision L a b).1.step dt₁).v ((b.p - a.p).unit L).perp
            = dot a.v ((b.p - a.p).unit L).perp)
      ∧ (b.cls = MassClass.newtonian → b.fsum = 0 → b.isum = 0 →
          dot ((collision L a b).2.step dt₂).v ((b.p - a.p).unit L).perp
            = dot b.v ((b.p - a.p).unit L).perp) := by
  obtain ⟨c, d, hc⟩ := collision_cases L a b
  have hperp : ∀ (s : NewtonianMass K) (q : Vector2d K) (e dt : K),
      dot (({ s with p := q, isum := s.isum + (b.p - a.p).unit L * e } : NewtonianMass K).step
          dt).v ((b.p - a.p).unit L).perp
        = dot (s.step dt).v ((b.p - a.p).unit L).perp := by
    intro s q e dt
    rw [NewtonianMass.step_v_hit]
    simp only [dot, Vector2d.perp, Vector2d.add_x, Vector2d.add_y, Vector2d.div_x,
      Vector2d.div_y, Vector2d.mul_x, Vector2d.mul_y]
    ring
  have hneg : - ((b.p - a.p).unit L * c) = (b.p - a.p).unit L * (- c) := by
    ext <;> simp
  have h1 : dot ((collision L a b).1.step dt₁).v ((b.p - a.p).unit L).perp
      = dot (a.step dt₁).v ((b.p - a.p).unit L).perp := by
    rw [hc]
    simp only [hneg]
    exact hperp a _ (- c) dt₁
  have h2 : dot ((collision L a b).2.step dt₂).v ((b.p - a.p).unit L).perp
      = dot (b.step dt₂).v ((b.p - a.p).unit L).perp := by
    rw [hc]
    exact hperp b _ c dt₂
  have hplain : ∀ (s : NewtonianMass K) (dt : K), s.cls = MassClass.newtonian → s.fsum = 0 →
      s.isum = 0 → (s.step dt).v = s.v := by
    intro s dt hcls hf hi
    rw [step_v_of_empty s dt hcls hf, hi]
    ext <;> simp
  refine ⟨?_, ?_, ?_, ⟨c, ?_, ?_⟩, ⟨h1, h2⟩, ?_, ?_⟩
  · by_cases h : (Mass.radius x + Mass.radius y)
        - (Mass.position y - Mass.position x).magnitude L < 0
    · refine ⟨0, 0, Or.inr ?_⟩
      unfold collision
      simp only
      rw [if_pos h]
    · refine ⟨2 * (dot (Mass.velocity x) ((Mass.position y - Mass.position x).unit L)
            * Mass.mass x
          - (dot (Mass.velocity x) ((Mass.position y - Mass.position x).unit L) * Mass.mass x
              + dot (Mass.velocity y) ((Mass.position y - Mass.position x).unit L)
                * Mass.mass y) / (Mass.mass x + Mass.mass y) * Mass.mass x),
        (Mass.radius x + Mass.radius y)
          - (Mass.position y - Mass.position x).magnitude L + 1, Or.inl ?_⟩
      unfold collision
      simp only
      rw [if_neg h]
  · rw [hc]
    exact ⟨rfl, rfl, rfl, rfl⟩
  · rw [hc]
    exact ⟨rfl, rfl, rfl, rfl⟩
  · rw [hc]
  · rw [hc]
  · intro hcls hf hi
    rw [h1, hplain a dt₁ hcls hf hi]
  · intro hcls hf hi
    rw [h2, hplain b dt₂ hcls hf hi]

/-- Witness for C22: `movingA` and `movingB` collide along the x axis; after the step the
velocity component of `movingA` across the axis is what it was. -/
theorem collision_no_tangential_witness :
    movingA.cls = MassClass.newtonian ∧ movingA.fsum = 0 ∧ movingA.isum = 0
      ∧ (collision ratLibm movingA movingB).1.tsum = movingA.tsum
      ∧ dot ((collision ratLibm movingA movingB).1.step 1).v
            ((movingB.p - movingA.p).unit ratLibm).perp
          = dot movingA.v ((movingB.p - movingA.p).unit ratLibm).perp :=
  ⟨rfl, rfl, rfl,
    (collision_no_tangential ratLibm movingA movingB movingA movingB 1 1).2.1.1,
    (collision_no_tangential ratLibm movingA movingB movingA movingB 1 1).2.2.2.2.2.1
      rfl rfl rfl⟩

end ScenarioContracts

section VectorContracts

variable {K : Type} [LinearOrderedField K]

/-- C23: `unit()` of the zero vector is the zero vector; and for every nonzero vector `v`,
where the square root is exact at `|v|^2` and at `1`, `v.unit()` has magnitude `1` and `v`
equals `v.magnitude()` times `v.unit()`. -/
theorem unit_contract (L : Libm K) (v : Vector2d K) :
    (⟨0, 0⟩ : Vector2d K).unit L = ⟨0, 0⟩
      ∧ (v ≠ ⟨0, 0⟩ → L.SqrtExactAt (dot v v) → L.SqrtExactAt 1 →
          (v.unit L).magnitude L = 1 ∧ v.magnitude L * v.unit L = v) := by
  refine ⟨?_, ?_⟩
  · simp only [Vector2d.unit]
    split_ifs <;> simp
  · intro hv hs h1
    have hpos := Vector2d.magnitude_pos L v hs hv
    have hu := Vector2d.dot_unit_unit L v hs hv
    refine ⟨?_, ?_⟩
    · have h : (v.unit L).magnitude L = L.sqrt (dot (v.unit L) (v.unit L)) := rfl
      rw [h, hu]
      exact Libm.sqrt_eq_of_sqrtExactAt L 1 1 h1 zero_le_one (one_mul 1)
    · rw [Vector2d.unit_of_pos L v hpos]
      have hne : v.magnitude L ≠ 0 := ne_of_gt hpos
      ext
      · simp only [Vector2d.smul_x]
        field_simp
      · simp only [Vector2d.smul_y]
        field_simp

/-- Witness for C23: the vector `(3, 4)`, of magnitude `5`. -/
theorem unit_contract_witness :
    (⟨3, 4⟩ : Vector2d ℚ) ≠ ⟨0, 0⟩
      ∧ ratLibm.SqrtExactAt (dot (⟨3, 4⟩ : Vector2d ℚ) ⟨3, 4⟩) ∧ ratLibm.SqrtExactAt 1
      ∧ ((⟨3, 4⟩ : Vector2d ℚ).unit ratLibm).magnitude ratLibm = 1
      ∧ (⟨3, 4⟩ : Vector2d ℚ).magnitude ratLibm * (⟨3, 4⟩ : Vector2d ℚ).unit ratLibm = ⟨3, 4⟩ :=
  have hv : (⟨3, 4⟩ : Vector2d ℚ) ≠ ⟨0, 0⟩ := by
    intro h
    have := congrArg Vector2d.x h
    norm_num at this
  have hs : ratLibm.SqrtExactAt (dot (⟨3, 4⟩ : Vector2d ℚ) ⟨3, 4⟩) :=
    ratLibm_sqrtExactAt 5 _ (by norm_num [dot])
  have h1 : ratLibm.SqrtExactAt 1 := ratLibm_sqrtExactAt 1 _ (by norm_num)
  ⟨hv, hs, h1, ((unit_contract ratLibm ⟨3, 4⟩).2 hv hs h1).1,
    ((unit_contract ratLibm ⟨3, 4⟩).2 hv hs h1).2⟩

/-- C24: for every angle `t`, the one-argument constructor `Vector2d(t)` yields a vector of
magnitude `1`, where `sin^2 + cos^2 = 1` holds at the angle in radians and the square root is
exact at `1`; and `Vector2d(0)` is the vector `(0, -1)`, where `sin 0 = 0` and `cos 0 = 1`. -/
theorem ofAngle_unit (L : Libm K) (t : K)
    (hsc : L.sin (0.0174532925 * t) * L.sin (0.0174532925 * t)
      + L.cos (0.0174532925 * t) * L.cos (0.0174532925 * t) = 1)
    (h1 : L.SqrtExactAt 1) (hs0 : L.sin 0 = 0) (hc0 : L.cos 0 = 1) :
    (Vector2d.ofAngle L t).magnitude L = 1 ∧ Vector2d.ofAngle L 0 = ⟨0, -1⟩ := by
  constructor
  · have h : (Vector2d.ofAngle L t).magnitude L
        = L.sqrt (L.sin (0.0174532925 * t) * L.sin (0.0174532925 * t)
          + (- L.cos (0.0174532925 * t)) * (- L.cos (0.0174532925 * t))) := rfl
    rw [h, neg_mul_neg, hsc]
    exact Libm.sqrt_eq_of_sqrtExactAt L 1 1 h1 zero_le_one (one_mul 1)
  · simp only [Vector2d.ofAngle, mul_zero, hs0, hc0]

/-- Witness for C24: the angle of 90 degrees, with `trigLibm`. -/
theorem ofAngle_unit_witness :
    trigLibm.SqrtExactAt 1 ∧ trigLibm.sin 0 = 0 ∧ trigLibm.cos 0 = 1
      ∧ (Vector2d.ofAngle trigLibm 90).magnitude trigLibm = 1
      ∧ Vector2d.ofAngle trigLibm 0 = ⟨0, -1⟩ :=
  have h1 : trigLibm.SqrtExactAt 1 := ratLibm_sqrtExactAt 1 _ (by norm_num)
  have hs0 : trigLibm.sin 0 = 0 := by norm_num [trigLibm]
  have hc0 : trigLibm.cos 0 = 1 := by norm_num [trigLibm]
  ⟨h1, hs0, hc0, (ofAngle_unit trigLibm 90 (trigLibm_sin_cos _) h1 hs0 hc0).1,
    (ofAngle_unit trigLibm 90 (trigLibm_sin_cos _) h1 hs0 hc0).2⟩

/-- C25: `angle()` of `(0, -1)` is `0` and `angle()` of `(0, 1)` is `180`; where `atan` maps
the positive numbers into `(0, 90)` degrees and the negative numbers into `(-90, 0)` degrees,
`angle()` of a vector with `x > 0` and `y ≠ 0` lies strictly between `0` and `180`; but for
`x > 0` and `y = 0` the quotient `x/y` is `+∞`, and `angle()` returns `-atan(+∞)` in degrees,
a negative number (a quarter turn to the left of "up"), not a value between `0` and `180`. -/
theorem angle_right_of_up (L : Libm K)
    (hpos : ∀ z : K, 0 < z → 0 < L.atan z * 57.2957795 ∧ L.atan z * 57.2957795 < 90)
    (hneg : ∀ z : K, z < 0 → -90 < L.atan z * 57.2957795 ∧ L.atan z * 57.2957795 < 0)
    (hinf : 0 < L.atanPosInf) :
    (⟨0, -1⟩ : Vector2d K).angle L = 0
      ∧ (⟨0, 1⟩ : Vector2d K).angle L = 180
      ∧ (∀ v : Vector2d K, 0 < v.x → v.y ≠ 0 → 0 < v.angle L ∧ v.angle L < 180)
      ∧ (∀ x : K, 0 < x →
          (⟨x, 0⟩ : Vector2d K).angle L = - L.atanPosInf * 57.2957795
            ∧ (⟨x, 0⟩ : Vector2d K).angle L < 0) := by
  refine ⟨?_, ?_, ?_, ?_⟩
  · simp [Vector2d.angle]
  · simp [Vector2d.angle]
  · intro v hx hy
    have hx0 : v.x ≠ 0 := ne_of_gt hx
    simp only [Vector2d.angle, if_neg hx0, if_neg hy]
    rcases lt_or_gt_of_ne hy with hlt | hgt
    · rw [if_pos (le_of_lt hlt)]
      have h := hneg (v.x / v.y) (div_neg_of_pos_of_neg hx hlt)
      constructor <;> linarith [h.1, h.2]
    · rw [if_neg (not_le.mpr hgt)]
      have h := hpos (v.x / v.y) (div_pos hx hgt)
      constructor <;> linarith [h.1, h.2]
  · intro x hx
    have hx0 : x ≠ 0 := ne_of_gt hx
    have e : (⟨x, 0⟩ : Vector2d K).angle L = - L.atanPosInf * 57.2957795 := by
      simp [Vector2d.angle, hx0, hx]
    rw [e]
    refine ⟨rfl, ?_⟩
    have : (0 : K) < 57.2957795 := by norm_num
    nlinarith

/-- Witness for C25: with `trigLibm`, `angle()` of `(1, 0)` is negative. -/
theorem angle_right_of_up_witness :
    (0 : ℚ) < trigLibm.atanPosInf
      ∧ (⟨1, 0⟩ : Vector2d ℚ).angle trigLibm = - trigLibm.atanPosInf * 57.2957795
      ∧ (⟨1, 0⟩ : Vector2d ℚ).angle trigLibm < 0
      ∧ (0 < (⟨1, -1⟩ : Vector2d ℚ).angle trigLibm
          ∧ (⟨1, -1⟩ : Vector2d ℚ).angle trigLibm < 180) :=
  have hinf : (0 : ℚ) < trigLibm.atanPosInf := by norm_num [trigLibm]
  ⟨hinf,
    ((angle_right_of_up trigLibm trigLibm_atan_pos trigLibm_atan_neg hinf).2.2.2 1
      (by norm_num)).1,
    ((angle_right_of_up trigLibm trigLibm_atan_pos trigLibm_atan_neg hinf).2.2.2 1
      (by norm_num)).2,
    (angle_right_of_up trigLibm trigLibm_atan_pos trigLibm_atan_neg hinf).2.2.1 ⟨1, -1⟩
      (by norm_num) (by norm_num)⟩

/-- C26: `rotatedBy(0)` is not the identity: where `sin 0 = 0` and `cos 0 = 1`,
`v.rotatedBy(0)` is `(v.y, -v.x)`, a quarter turn of `v`, which differs from `v` for every
nonzero `v`; and `Vector2d(0).rotatedBy(0)` is `(-1, 0)` where `Vector2d(0 + 0)` is
`(0, -1)`.  In general `rotatedBy` returns `(x*sin + y*cos, y*sin - x*cos)`. -/
theorem rotatedBy_zero (L : Libm K) (hs0 : L.sin 0 = 0) (hc0 : L.cos 0 = 1) :
    (∀ v : Vector2d K, v.rotatedBy L 0 = ⟨v.y, - v.x⟩)
      ∧ (∀ v : Vector2d K, v ≠ ⟨0, 0⟩ → v.rotatedBy L 0 ≠ v)
      ∧ (⟨1, 0⟩ : Vector2d K).rotatedBy L 0 = ⟨0, -1⟩
      ∧ (Vector2d.ofAngle L 0).rotatedBy L 0 = ⟨-1, 0⟩
      ∧ Vector2d.ofAngle L (0 + 0) = ⟨0, -1⟩
      ∧ (Vector2d.ofAngle L 0).rotatedBy L 0 ≠ Vector2d.ofAngle L (0 + 0)
      ∧ (∀ (v : Vector2d K) (angle : K), v.rotatedBy L angle
          = ⟨v.x * L.sin (0.0174532925 * angle) + v.y * L.cos (0.0174532925 * angle),
              v.y * L.sin (0.0174532925 * angle) - v.x * L.cos (0.0174532925 * angle)⟩) := by
  have h0 : ∀ v : Vector2d K, v.rotatedBy L 0 = ⟨v.y, - v.x⟩ := by
    intro v
    simp [Vector2d.rotatedBy, hs0, hc0]
  have hof : ∀ t : K, t = 0 → Vector2d.ofAngle L t = ⟨0, -1⟩ := by
    intro t ht
    simp [Vector2d.ofAngle, ht, hs0, hc0]
  refine ⟨h0, ?_, ?_, ?_, hof _ (by norm_num), ?_, fun _ _ => rfl⟩
  · intro v hv h
    rw [h0] at h
    have hx := congrArg Vector2d.x h
    have hy := congrArg Vector2d.y h
    simp only at hx hy
    apply hv
    ext
    · show v.x = 0
      linarith
    · show v.y = 0
      linarith
  · rw [h0]
  · rw [h0, hof 0 rfl]
    simp
  · rw [h0, hof 0 rfl, hof (0 + 0) (by norm_num)]
    intro h
    have hx := congrArg Vector2d.x h
    simp only at hx
    norm_num at hx

/-- Witness for C26: with `trigLibm`, `(1, 0).rotatedBy(0)` is `(0, -1)`. -/
theorem rotatedBy_zero_witness :
    trigLibm.sin 0 = 0 ∧ trigLibm.cos 0 = 1
      ∧ (⟨1, 0⟩ : Vector2d ℚ).rotatedBy trigLibm 0 = ⟨0, -1⟩
      ∧ (⟨1, 0⟩ : Vector2d ℚ).rotatedBy trigLibm 0 ≠ ⟨1, 0⟩ :=
  have hs0 : trigLibm.sin 0 = 0 := by norm_num [trigLibm]
  have hc0 : trigLibm.cos 0 = 1 := by norm_num [trigLibm]
  ⟨hs0, hc0, (rotatedBy_zero trigLibm hs0 hc0).2.2.1,
    (rotatedBy_zero trigLibm hs0 hc0).2.1 ⟨1, 0⟩ (by
      intro h
      have := congrArg Vector2d.x h
      norm_num at this)⟩

end VectorContracts

section FrictionContracts

variable {K : Type} [LinearOrderedField K] [FloorRing K]

/-- C27: for every FrictionMass with nonzero mass `m` and moment `I`, friction coefficients
`kv` and `kt`, velocity `v`, angular rate `o` and accumulators `F`, `J`, `T`, `S`, `step(dt)`
sets the velocity to `v + (F*dt + J)/m - kv*dt*v` and the angular rate to
`fmod(o + (T*dt + S)/I - kt*dt*o, 360)`: the drag in the total force is `-kv*dt*v*m` and in
the total torque `-kt*dt*o*I`; so with no applied forces the velocity is scaled by
`1 - kv*dt`, whatever the mass. -/
theorem friction_step (s : NewtonianMass K) (kv kt dt : K)
    (hcls : s.cls = MassClass.friction kv kt) (hm : s.m ≠ 0) (hI : s.I ≠ 0) :
    (s.step dt).v
        = ⟨s.v.x + (s.fsum.x * dt + s.isum.x) / s.m - kv * dt * s.v.x,
            s.v.y + (s.fsum.y * dt + s.isum.y) / s.m - kv * dt * s.v.y⟩
      ∧ (s.step dt).o = fmod (s.o + (s.tsum * dt + s.stsum) / s.I - kt * dt * s.o) 360
      ∧ s.totalForce dt = (s.fsum * dt + s.isum) + (- (kv * dt)) * s.v * s.m
      ∧ s.totalTorque dt = (s.tsum * dt + s.stsum) - kt * dt * s.o * s.I
      ∧ (s.fsum = 0 → s.isum = 0 → (s.step dt).v = (1 - kv * dt) * s.v) := by
  have hF : s.totalForce dt = (s.fsum * dt + s.isum) + (- (kv * dt)) * s.v * s.m := by
    simp only [NewtonianMass.totalForce, hcls, NewtonianMass.velocity, NewtonianMass.mass]
    ext <;> simp
  have hT : s.totalTorque dt = (s.tsum * dt + s.stsum) - kt * dt * s.o * s.I := by
    simp only [NewtonianMass.totalTorque, hcls, NewtonianMass.rotation, NewtonianMass.moment]
    ring
  have hv : (s.step dt).v
      = ⟨s.v.x + (s.fsum.x * dt + s.isum.x) / s.m - kv * dt * s.v.x,
          s.v.y + (s.fsum.y * dt + s.isum.y) / s.m - kv * dt * s.v.y⟩ := by
    rw [NewtonianMass.step_v, hF]
    ext
    · simp only [Vector2d.add_x, Vector2d.div_x, Vector2d.mul_x, Vector2d.smul_x]
      field_simp
      ring
    · simp only [Vector2d.add_y, Vector2d.div_y, Vector2d.mul_y, Vector2d.smul_y]
      field_simp
      ring
  refine ⟨hv, ?_, hF, hT, ?_⟩
  · rw [NewtonianMass.step_o, hT]
    congr 1
    field_simp
    ring
  · intro hf hi
    rw [hv, hf, hi]
    ext
    · simp only [Vector2d.zero_x, Vector2d.smul_x]
      ring
    · simp only [Vector2d.zero_y, Vector2d.smul_y]
      ring

/-- Witness for C27: a step of `sampleFriction`, a ship's mass of mass 100 and moment 2000
with coefficients `0.0002` and `0.002`. -/
theorem friction_step_witness :
    sampleFriction.cls = MassClass.friction 0.0002 0.002
      ∧ sampleFriction.m ≠ 0 ∧ sampleFriction.I ≠ 0
      ∧ (sampleFriction.step 2).v
          = ⟨sampleFriction.v.x + (sampleFriction.fsum.x * 2 + sampleFriction.isum.x)
                / sampleFriction.m - 0.0002 * 2 * sampleFriction.v.x,
              sampleFriction.v.y + (sampleFriction.fsum.y * 2 + sampleFriction.isum.y)
                / sampleFriction.m - 0.0002 * 2 * sampleFriction.v.y⟩
      ∧ (sampleFriction.step 2).o
          = fmod (sampleFriction.o + (sampleFriction.tsum * 2 + sampleFriction.stsum)
              / sampleFriction.I - 0.002 * 2 * sampleFriction.o) 360 :=
  have hm : sampleFriction.m ≠ 0 := by
    norm_num [sampleFriction, NewtonianMass.newFriction, NewtonianMass.new]
  have hI : sampleFriction.I ≠ 0 := by
    norm_num [sampleFriction, NewtonianMass.newFriction, NewtonianMass.new]
  ⟨rfl, hm, hI, (friction_step sampleFriction 0.0002 0.002 2 rfl hm hI).1,
    (friction_step sampleFriction 0.0002 0.002 2 rfl hm hI).2.1⟩

/-- C28: for every LinearMass state, `angle()` equals `velocity().angle()`, before and after
any step; and for every `dt`, `step(dt)` on a LinearMass yields the same position and
velocity as `step(dt)` on a NewtonianMass with the same mass, position, velocity and
accumulators. -/
theorem linear_mass (L : Libm K) (s t : NewtonianMass K) (dt : K)
    (hs : s.cls = MassClass.linear) (ht : t.cls = MassClass.newtonian)
    (hm : t.m = s.m) (hp : t.p = s.p) (hv : t.v = s.v)
    (hf : t.fsum = s.fsum) (hi : t.isum = s.isum) :
    Mass.angle L s = (Mass.velocity s).angle L
      ∧ Mass.angle L (s.step dt) = (Mass.velocity (s.step dt)).angle L
      ∧ (s.step dt).p = (t.step dt).p ∧ (s.step dt).v = (t.step dt).v := by
  have hcs : (s.step dt).cls = MassClass.linear := hs
  have hFs : s.totalForce dt = s.fsum * dt + s.isum := by
    simp only [NewtonianMass.totalForce, hs]
  have hFt : t.totalForce dt = t.fsum * dt + t.isum := by
    simp only [NewtonianMass.totalForce, ht]
  have hvv : (s.step dt).v = (t.step dt).v := by
    rw [NewtonianMass.step_v, NewtonianMass.step_v, hFs, hFt, hm, hv, hf, hi]
  refine ⟨?_, ?_, ?_, hvv⟩
  · show NewtonianMass.angle L s = _
    simp only [NewtonianMass.angle, hs]
    rfl
  · show NewtonianMass.angle L (s.step dt) = _
    simp only [NewtonianMass.angle, hcs]
    rfl
  · rw [NewtonianMass.step_p, NewtonianMass.step_p, hvv, hp]

/-- Witness for C28: a step of `sampleLinear`, a missile's mass, and of the plain mass with
the same members. -/
theorem linear_mass_witness :
    sampleLinear.cls = MassClass.linear
      ∧ ({ sampleLinear with cls := MassClass.newtonian } : NewtonianMass ℚ).cls
          = MassClass.newtonian
      ∧ Mass.angle ratLibm (sampleLinear.step 2)
          = (Mass.velocity (sampleLinear.step 2)).angle ratLibm
      ∧ (sampleLinear.step 2).p
          = (({ sampleLinear with cls := MassClass.newtonian } : NewtonianMass ℚ).step 2).p
      ∧ (sampleLinear.step 2).v
          = (({ sampleLinear with cls := MassClass.newtonian } : NewtonianMass ℚ).step 2).v :=
  ⟨rfl, rfl,
    (linear_mass ratLibm sampleLinear { sampleLinear with cls := MassClass.newtonian } 2
      rfl rfl rfl rfl rfl rfl rfl).2.1,
    (linear_mass ratLibm sampleLinear { sampleLinear with cls := MassClass.newtonian } 2
      rfl rfl rfl rfl rfl rfl rfl).2.2.1,
    (linear_mass ratLibm sampleLinear { sampleLinear with cls := MassClass.newtonian } 2
      rfl rfl rfl rfl rfl rfl rfl).2.2.2⟩

end FrictionContracts

section LockContracts

/-- C29: for every 32-bit return code `c` of the underlying semaphore call, `tryWait` and
`waitTimeout` return true if and only if `c = 0`, raise `ResourceError` if and only if `c` is
`-1` (`0xFFFFFFFF` as an unsigned 32-bit value), and return false without raising for every
other code. -/
theorem tryWait_result (c timeout : Int) (hlo : -2147483648 ≤ c) (hhi : c ≤ 2147483647) :
    (Resource.tryWait c = Except.ok true ↔ c = 0)
      ∧ (Resource.tryWait c = Except.error ResourceError.mk ↔ c = -1)
      ∧ (Resource.tryWait c = Except.ok false ↔ c ≠ 0 ∧ c ≠ -1)
      ∧ Resource.waitTimeout timeout c = Resource.tryWait c
      ∧ (c = -1 ↔ Resource.toUint32 c = 0xFFFFFFFF) := by
  have h0 : Resource.toUint32 c = 0 ↔ c = 0 := by
    unfold Resource.toUint32
    omega
  have h1 : Resource.toUint32 c = 4294967295 ↔ c = -1 := by
    unfold Resource.toUint32
    omega
  refine ⟨?_, ?_, ?_, rfl, ?_⟩
  · unfold Resource.tryWait
    rw [Resource.boolOrError_eq]
    split_ifs with ha hb
    · simp [h0.mp ha]
    · have := h1.mp hb
      simp [this]
    · have : c ≠ 0 := fun h => ha (h0.mpr h)
      simp [this]
  · unfold Resource.tryWait
    rw [Resource.boolOrError_eq]
    split_ifs with ha hb
    · have := h0.mp ha
      simp [this]
    · simp [h1.mp hb]
    · have : c ≠ -1 := fun h => hb (h1.mpr h)
      simp [this]
  · unfold Resource.tryWait
    rw [Resource.boolOrError_eq]
    split_ifs with ha hb
    · have := h0.mp ha
      simp [this]
    · have := h1.mp hb
      simp [this]
    · have h2 : c ≠ 0 := fun h => ha (h0.mpr h)
      have h3 : c ≠ -1 := fun h => hb (h1.mpr h)
      simp [h2, h3]
  · exact h1.symm

/-- Witness for C29: the code `1` (`SDL_MUTEX_TIMEDOUT`) is reported as false. -/
theorem tryWait_result_witness :
    (-2147483648 : Int) ≤ 1 ∧ (1 : Int) ≤ 2147483647
      ∧ Resource.tryWait 1 = Except.ok false
      ∧ Resource.waitTimeout 100 1 = Except.ok false :=
  ⟨by decide, by decide,
    (tryWait_result 1 100 (by decide) (by decide)).2.2.1.mpr ⟨by decide, by decide⟩,
    ((tryWait_result 1 100 (by decide) (by decide)).2.2.2.1).trans
      ((tryWait_result 1 100 (by decide) (by decide)).2.2.1.mpr ⟨by decide, by decide⟩)⟩

end LockContracts

section ActiveSetFrame

variable {K : Type} [LinearOrderedField K] [FloorRing K]

open Universe

/-- C30: the sequence of entities in the active set is unchanged by `add`, `interactAll`,
`stepAll` and `drawAll`, for every universe state and argument.  Of the other operations of
`Universe`, `center(newCenter)` ends in a state with the lists it started with; the state in
which `simulateAll` ends is the one in which its call of `normalizeAll` ends, started where
`interactAll` returned with the active list unchanged; and the statements of `normalizeAll`
do remove from the active list and insert into it. -/
theorem active_set_frame (L : Libm K) (fuel : Nat) (dt : K) (h : Heap K) (u : Universe)
    (screen : Screen K) (pSolid : Nat) (newCenter : Vector2d K) :
    (u.add pSolid).allSolids = u.allSolids
      ∧ (∀ r, interactAll L h u = some r → r.2.allSolids = u.allSolids)
      ∧ (stepAll L dt h u).2.allSolids = u.allSolids
      ∧ (drawAll L h u screen).2.1.allSolids = u.allSolids
      ∧ (∀ s, (setCenter u screen newCenter).lastState = some s → s.1 = u)
      ∧ (∀ s, (simulateAll L fuel dt h u).lastState = some s →
          ∃ h₁, interactAll L h u = some (h₁, u)
            ∧ (normalizeAll L fuel h₁ u).lastState = some s)
      ∧ (∃ r, (normalizeAll ratLibm 1 sampleHeap sampleUniverse).lastState = some r
          ∧ r.2.allSolids ≠ sampleUniverse.allSolids
          ∧ 1 ∈ sampleUniverse.allSolids ∧ 1 ∉ r.2.allSolids
          ∧ 3 ∉ sampleUniverse.allSolids ∧ 3 ∈ r.2.allSolids) := by
  refine ⟨rfl, ?_, rfl, rfl, ?_, ?_, ?_⟩
  · intro r hr
    rw [interactAll_eq] at hr
    split_ifs at hr
    simp only [Option.some.injEq] at hr
    rw [← hr]
  · intro s hs
    simp only [setCenter, Screen.setOrigin, Outcome.lastState, Option.some.injEq] at hs
    rw [← hs]
  · intro s hs
    rw [simulateAll_eq] at hs
    cases hi : interactAll L h u with
    | none =>
      rw [hi] at hs
      simp [Outcome.lastState] at hs
    | some r₀ =>
      obtain ⟨h₁, u₁⟩ := r₀
      have hu₁ : u₁ = u := by
        rw [interactAll_eq] at hi
        split_ifs at hi
        simp only [Option.some.injEq, Prod.mk.injEq] at hi
        exact hi.2.symm
      subst hu₁
      rw [hi] at hs
      exact ⟨h₁, rfl, hs⟩
  · obtain ⟨h', hn, _⟩ := normalizeAllBody_spec ratLibm 0 sampleHeap sampleUniverse (by decide)
    have hD : deadNonEffects sampleHeap sampleUniverse.allSolids = [1] := by decide
    have hF : spawners sampleHeap sampleUniverse.allSolids = [0] := by decide
    have hA : survivors sampleHeap sampleUniverse.allSolids = [0, 2] := by decide
    have hl : [0, 2] ++ (sampleUniverse.addList ++ List.range' sampleHeap.next [1].length
        ++ List.range' (sampleHeap.next + [1].length) [0].length) = [0, 2, 3, 4, 5] := by decide
    rw [hD, hF, hA, hl] at hn
    refine ⟨(h', { addList := [], allSolids := [0, 2, 3, 4, 5] }), ?_, ?_, by decide, ?_,
      by decide, ?_⟩
    · rw [normalizeAll_of_body ratLibm 1 sampleHeap sampleUniverse _ hn]
      rfl
    · show [0, 2, 3, 4, 5] ≠ sampleUniverse.allSolids
      decide
    · show 1 ∉ [0, 2, 3, 4, 5]
      decide
    · show 3 ∈ [0, 2, 3, 4, 5]
      decide

end ActiveSetFrame

section SafetyContracts
variable {K : Type} [LinearOrderedField K]

/-- C31, as stated, fails: the bodies `tinyA` and `tinyB` have mass 1 and the positive
radius `10^-200`, and their centres coincide; the clamped distance of `gravitate` is
`3 * 10^-200`, its square `9 * 10^-400` is below half of the least positive double, so the
product `r*r` is zero on the machine, and `gravitate` divides by zero. -/
theorem gravitate_underflow_counterexample :
    0 < Mass.mass tinyA ∧ 0 < Mass.mass tinyB
      ∧ 0 < Mass.radius tinyA ∧ 0 < Mass.radius tinyB
      ∧ gravitateChecked ratLibm tinyA tinyB = none := by
  have h0 : ratLibm.sqrt 0 = 0 := ratLibm_sqrt_of_eq 0 0 (by norm_num)
  have hmag : (Mass.position tinyB - Mass.position tinyA).magnitude ratLibm = 0 := by
    show (tinyB.p - tinyA.p).magnitude ratLibm = 0
    norm_num [Vector2d.magnitude, tinyA, tinyB, NewtonianMass.new, h0]
  refine ⟨?_, ?_, ?_, ?_, ?_⟩
  · show (0 : ℚ) < tinyA.m
    norm_num [tinyA, NewtonianMass.new]
  · show (0 : ℚ) < tinyB.m
    norm_num [tinyB, NewtonianMass.new]
  · show (0 : ℚ) < tinyA.r
    norm_num [tinyA, NewtonianMass.new]
  · show (0 : ℚ) < tinyB.r
    norm_num [tinyB, NewtonianMass.new]
  · unfold gravitateChecked
    simp only [hmag]
    have hr : Mass.radius tinyA = (1 / 10 : ℚ) ^ 200 := rfl
    have hr' : Mass.radius tinyB = (1 / 10 : ℚ) ^ 200 := rfl
    rw [hr, hr']
    have hlt : (0 : ℚ) < 3 * (1 / 10) ^ 200 := by positivity
    simp only [gt_iff_lt, lt_self_iff_false, if_false, hlt, if_true]
    rw [checkedDivByProduct_of_le]
    rw [abs_of_nonneg (by positivity)]
    norm_num

/-- C31, amended: for all masses `a` and `b` with positive mass and positive radius for
which the square of `3*max(radius(a), radius(b))` is above `2^-1075`, so that it does not
underflow to zero, whatever their positions and velocities, `gravitate(a, b)` and
`collision(a, b)` never divide by zero: with every division checked they return the results
of `gravitate` and `collision`; the clamped distance `r` of `gravitate` is at least
`3*max(radius(a), radius(b)) > 0` and the product `r*r` is not zero on the machine, `unit()`
divides only by a positive magnitude, and the divisor `mass(a) + mass(b)` of `collision` is
positive.  And for all masses, `gravitate` divides by zero exactly when the square of the
clamped distance is at most `2^-1075`. -/
theorem interactions_never_divide_by_zero {M₁ M₂ : Type} [Mass K M₁] [Mass K M₂]
    (L : Libm K) (a : M₁) (b : M₂)
    (hma : 0 < Mass.mass a) (hmb : 0 < Mass.mass b)
    (hra : 0 < Mass.radius a) (hrb : 0 < Mass.radius b)
    (hth : (1 / 2 : K) ^ 1075
      < (3 * max (Mass.radius a) (Mass.radius b)) * (3 * max (Mass.radius a) (Mass.radius b))) :
    gravitateChecked L a b = some (gravitate L a b)
      ∧ collisionChecked L a b = some (collision L a b)
      ∧ (3 * max (Mass.radius a) (Mass.radius b)
          ≤ (if (Mass.position b - Mass.position a).magnitude L
                < (if Mass.radius a > Mass.radius b then 3 * Mass.radius a
                    else 3 * Mass.radius b)
              then (if Mass.radius a > Mass.radius b then 3 * Mass.radius a
                    else 3 * Mass.radius b)
              else (Mass.position b - Mass.position a).magnitude L)
        ∧ 0 < 3 * max (Mass.radius a) (Mass.radius b))
      ∧ (∀ v : Vector2d K, v.unitChecked L = some (v.unit L)
          ∧ (¬ 0 < v.magnitude L → v.unit L = ⟨0, 0⟩))
      ∧ 0 < Mass.mass a + Mass.mass b
      ∧ (∀ (a' : M₁) (b' : M₂),
          gravitateChecked L a' b' = none
            ↔ |(if (Mass.position b' - Mass.position a').magnitude L
                    < (if Mass.radius a' > Mass.radius b' then 3 * Mass.radius a'
                        else 3 * Mass.radius b')
                  then (if Mass.radius a' > Mass.radius b' then 3 * Mass.radius a'
                        else 3 * Mass.radius b')
                  else (Mass.position b' - Mass.position a').magnitude L)
                * (if (Mass.position b' - Mass.position a').magnitude L
                    < (if Mass.radius a' > Mass.radius b' then 3 * Mass.radius a'
                        else 3 * Mass.radius b')
                  then (if Mass.radius a' > Mass.radius b' then 3 * Mass.radius a'
                        else 3 * Mass.radius b')
                  else (Mass.position b' - Mass.position a').magnitude L)|
              ≤ (1 / 2 : K) ^ 1075) := by
  have hmax : (if Mass.radius a > Mass.radius b then 3 * Mass.radius a
      else 3 * Mass.radius b) = 3 * max (Mass.radius a) (Mass.radius b) := by
    split_ifs with h
    · rw [max_eq_left (le_of_lt h)]
    · rw [max_eq_right (not_lt.mp h)]
  have hthr : 0 < (if Mass.radius a > Mass.radius b then 3 * Mass.radius a
      else 3 * Mass.radius b) := by
    split_ifs
    · exact mul_pos three_pos hra
    · exact mul_pos three_pos hrb
  have hpos : 0 < 3 * max (Mass.radius a) (Mass.radius b) := by
    rw [← hmax]
    exact hthr
  have hclamp : 3 * max (Mass.radius a) (Mass.radius b)
      ≤ (if (Mass.position b - Mass.position a).magnitude L
            < (if Mass.radius a > Mass.radius b then 3 * Mass.radius a
                else 3 * Mass.radius b)
          then (if Mass.radius a > Mass.radius b then 3 * Mass.radius a
                else 3 * Mass.radius b)
          else (Mass.position b - Mass.position a).magnitude L) := by
    rw [hmax]
    split_ifs with h
    · exact le_refl _
    · exact not_lt.mp h
  refine ⟨?_, ?_, ⟨hclamp, hpos⟩, ?_, by linarith, ?_⟩
  · unfold gravitateChecked gravitate
    simp only
    rw [checkedDivByProduct_of_lt, Vector2d.unitChecked_eq]
    have h1 := mul_le_mul hclamp hclamp (le_of_lt hpos) (le_trans (le_of_lt hpos) hclamp)
    rw [abs_of_nonneg (le_trans (mul_nonneg (le_of_lt hpos) (le_of_lt hpos)) h1)]
    exact lt_of_lt_of_le hth h1
  · unfold collisionChecked collision
    simp only
    split_ifs with h
    · rfl
    · rw [Vector2d.unitChecked_eq]
      simp only
      rw [checkedDiv_of_ne _ _ (ne_of_gt (add_pos hma hmb))]
  · intro v
    exact ⟨Vector2d.unitChecked_eq L v, Vector2d.unit_of_not_pos L v⟩
  · intro a' b'
    unfold gravitateChecked
    simp only
    rw [Vector2d.unitChecked_eq]
    constructor
    · intro hn
      by_contra hc
      rw [checkedDivByProduct_of_lt _ _ _ (not_le.mp hc)] at hn
      simp at hn
    · intro hle
      rw [checkedDivByProduct_of_le _ _ _ hle]

end SafetyContracts

section SafetyWitness

/-- Witness for C31: the bodies `scenarioA` and `coincidentB`, of radii 20 and 35, whose
centres coincide. -/
theorem interactions_never_divide_by_zero_witness :
    scenarioA.p = coincidentB.p
      ∧ gravitateChecked ratLibm scenarioA coincidentB
          = some (gravitate ratLibm scenarioA coincidentB)
      ∧ collisionChecked ratLibm scenarioA coincidentB
          = some (collision ratLibm scenarioA coincidentB) := by
  have hma : (0 : ℚ) < Mass.mass scenarioA := by
    show (0 : ℚ) < scenarioA.m
    norm_num [scenarioA, NewtonianMass.new]
  have hmb : (0 : ℚ) < Mass.mass coincidentB := by
    show (0 : ℚ) < coincidentB.m
    norm_num [coincidentB, NewtonianMass.new]
  have hra : (0 : ℚ) < Mass.radius scenarioA := by
    show (0 : ℚ) < scenarioA.r
    norm_num [scenarioA, NewtonianMass.new]
  have hrb : (0 : ℚ) < Mass.radius coincidentB := by
    show (0 : ℚ) < coincidentB.r
    norm_num [coincidentB, NewtonianMass.new]
  have key := interactions_never_divide_by_zero ratLibm scenarioA coincidentB hma hmb hra hrb
    (lt_of_le_of_lt (pow_le_one₀ (le_of_lt one_half_pos) (le_of_lt one_half_lt_one))
      (by
        show (1 : ℚ) < (3 * max scenarioA.r coincidentB.r) * (3 * max scenarioA.r coincidentB.r)
        norm_num [scenarioA, coincidentB, NewtonianMass.new]))
  exact ⟨rfl, key.1, key.2.1⟩

end SafetyWitness

section ThreadContracts

variable {K : Type} [LinearOrderedField K] [FloorRing K]

open Universe

/-- C32: in every interleaving of the simulation thread (which runs `simulateAll` in a
loop) and the paint thread (which runs `drawAll` in a loop), started with the semaphore
`allResource` at 1, the two threads are never inside `normalizeAll` and inside `drawAll` at
the same time; while the paint thread is inside a pass of `drawAll`, no move of either
thread changes the active list or the pending list, and the simulation thread is blocked at
the `Lock` of `normalizeAll`; while the simulation thread is inside `normalizeAll`, the paint
thread is blocked at the `Lock` of `drawAll`. -/
theorem drawAll_normalizeAll_exclusive (L : Libm K) (fuel : Nat) (ms : List (Move K))
    (h : Heap K) (u : Universe) (screen : Screen K) (w : World K)
    (hrun : World.run L fuel ms (World.init h u screen) = some w) :
    ¬ (w.sim.inNormalizeAll = true ∧ w.draw.inDrawAll = true)
      ∧ (w.draw.inDrawAll = true →
          (∀ (m : Move K) (w' : World K), World.step L fuel m w = some w' → w'.u = w.u)
            ∧ (w.sim = SimPc.lock → ∀ dt : K, World.simStep L fuel dt w = none))
      ∧ (w.sim.inNormalizeAll = true →
          w.draw = DrawPc.lock ∧ World.drawStep L w = none) := by
  have hinit : (World.init h u screen).Exclusive := by
    simp [World.Exclusive, World.init, SimPc.inNormalizeAll, DrawPc.inDrawAll]
  have hw := World.run_exclusive L fuel ms _ w hinit hrun
  refine ⟨World.Exclusive.not_both w hw, ?_, ?_⟩
  · intro hd
    have hns : w.sim.inNormalizeAll = false := by
      cases hb : w.sim.inNormalizeAll
      · rfl
      · exact absurd ⟨hb, hd⟩ (World.Exclusive.not_both w hw)
    have har : w.allResource = 0 := by
      unfold World.Exclusive at hw
      rw [hns, hd] at hw
      simpa using hw
    refine ⟨?_, ?_⟩
    · intro m w' hs
      cases m with
      | sim dt =>
        obtain ⟨_, _, hu, hl⟩ := World.simStep_frame L fuel dt w w' hs
        have hnl : w.sim ≠ SimPc.lock := by
          intro hc
          have := hl hc
          omega
        exact hu hns hnl
      | draw => exact (World.drawStep_frame L w w' hs).1
    · intro hl dt
      simp [World.simStep, hl, har]
  · intro hs
    have hnd : w.draw.inDrawAll = false := by
      cases hb : w.draw.inDrawAll
      · rfl
      · exact absurd ⟨hs, hb⟩ (World.Exclusive.not_both w hw)
    have har : w.allResource = 0 := by
      unfold World.Exclusive at hw
      rw [hs, hnd] at hw
      simpa using hw
    have hdl : w.draw = DrawPc.lock := by
      cases hc : w.draw <;> simp [hc, DrawPc.inDrawAll] at hnd
      rfl
    exact ⟨hdl, by simp [World.drawStep, hdl, har]⟩

/-- Witness for C32: over `rockHeap`, with the rock `0` pending and nothing active, the
paint thread takes the lock and clears the screen, and the simulation thread runs
`interactAll`: the paint thread is inside `drawAll`, and the simulation thread is blocked at
the `Lock` of `normalizeAll`. -/
theorem drawAll_normalizeAll_exclusive_witness :
    World.run ratLibm 1 [Move.draw, Move.draw, Move.sim 1]
        (World.init rockHeap { addList := [0], allSolids := [] } ⟨⟨0, 0⟩, []⟩)
      = some { allResource := 0, sim := SimPc.lock, draw := DrawPc.background, h := rockHeap,
               u := { addList := [0], allSolids := [] }, screen := ⟨⟨0, 0⟩, []⟩ }
    ∧ World.simStep ratLibm 1 (1 : ℚ)
        { allResource := 0, sim := SimPc.lock, draw := DrawPc.background, h := rockHeap,
          u := { addList := [0], allSolids := [] }, screen := ⟨⟨0, 0⟩, []⟩ } = none := by
  have hr : World.run ratLibm 1 [Move.draw, Move.draw, Move.sim 1]
        (World.init rockHeap { addList := [0], allSolids := [] } ⟨⟨0, 0⟩, []⟩)
      = some { allResource := 0, sim := SimPc.lock, draw := DrawPc.background, h := rockHeap,
               u := { addList := [0], allSolids := [] }, screen := ⟨⟨0, 0⟩, []⟩ } := rfl
  exact ⟨hr, ((drawAll_normalizeAll_exclusive ratLibm 1 _ _ _ _ _ hr).2.1 rfl).2 rfl 1⟩

end ThreadContracts

section EnergyContracts
variable {K : Type} [LinearOrderedField K] [FloorRing K]

/-- C33: for every pair of plain masses with positive masses, distinct centres and overlap
`≥ 0`, and no other accumulated forces, the total kinetic energy
`(1/2)*mass(a)*|v(a)|^2 + (1/2)*mass(b)*|v(b)|^2` after `collision(a, b)` and one step of each
body equals the total kinetic energy before.  The square root is exact at the squared
distance of the centres. -/
theorem collision_elastic (L : Libm K) (a b : NewtonianMass K) (dt₁ dt₂ : K)
    (hca : a.cls = MassClass.newtonian) (hcb : b.cls = MassClass.newtonian)
    (hma : 0 < a.m) (hmb : 0 < b.m) (hne : a.p ≠ b.p)
    (hov : 0 ≤ (a.r + b.r) - (b.p - a.p).magnitude L)
    (hs : L.SqrtExactAt (dot (b.p - a.p) (b.p - a.p)))
    (hfa : a.fsum = 0) (hia : a.isum = 0) (hfb : b.fsum = 0) (hib : b.isum = 0) :
    ((collision L a b).1.step dt₁).kineticEnergy + ((collision L a b).2.step dt₂).kineticEnergy
      = a.kineticEnergy + b.kineticEnergy := by
  have hu := Vector2d.dot_unit_unit L _ hs (Vector2d.sub_ne_zero_of_ne a.p b.p hne)
  have hsum : a.m + b.m ≠ 0 := by positivity
  have hma' : a.m ≠ 0 := ne_of_gt hma
  have hmb' : b.m ≠ 0 := ne_of_gt hmb
  have hc := collision_of_overlap L a b (not_lt.mpr hov)
  have h1 := step_v_of_empty (collision L a b).1 dt₁ (by rw [hc]; exact hca) (by rw [hc]; exact hfa)
  have h2 := step_v_of_empty (collision L a b).2 dt₂ (by rw [hc]; exact hcb) (by rw [hc]; exact hfb)
  have hm1 : ((collision L a b).1.step dt₁).m = a.m := by rw [hc]; rfl
  have hm2 : ((collision L a b).2.step dt₂).m = b.m := by rw [hc]; rfl
  simp only [NewtonianMass.kineticEnergy, hm1, hm2, h1, h2]
  rw [hc]
  generalize (b.p - a.p).unit L = axis at hu ⊢
  simp only [dot, hia, hib, Vector2d.add_x, Vector2d.add_y, Vector2d.neg_x, Vector2d.neg_y,
    Vector2d.mul_x, Vector2d.mul_y, Vector2d.zero_x, Vector2d.zero_y] at hu ⊢
  exact elastic_energy a.m b.m a.v.x a.v.y b.v.x b.v.y axis.x axis.y hma' hmb' hsum hu

/-- Witness for C33: `movingA` (mass 1, velocity `(3, 0)`) and `movingB` (mass 2, velocity
`(-1, 0)`) collide and are stepped by `dt = 1`; the kinetic energy is `11/2` before and
after. -/
theorem collision_elastic_witness :
    0 < movingA.m ∧ 0 < movingB.m ∧ movingA.p ≠ movingB.p
      ∧ 0 ≤ (movingA.r + movingB.r) - (movingB.p - movingA.p).magnitude ratLibm
      ∧ ratLibm.SqrtExactAt (dot (movingB.p - movingA.p) (movingB.p - movingA.p))
      ∧ movingA.kineticEnergy + movingB.kineticEnergy = 11 / 2
      ∧ ((collision ratLibm movingA movingB).1.step 1).kineticEnergy
          + ((collision ratLibm movingA movingB).2.step 1).kineticEnergy
        = movingA.kineticEnergy + movingB.kineticEnergy :=
  have hma : 0 < movingA.m := by norm_num [movingA, NewtonianMass.new]
  have hmb : 0 < movingB.m := by norm_num [movingB, NewtonianMass.new]
  have hov : 0 ≤ (movingA.r + movingB.r) - (movingB.p - movingA.p).magnitude ratLibm := by
    rw [moving_magnitude]; norm_num [movingA, movingB, NewtonianMass.new]
  ⟨hma, hmb, moving_ne, hov, moving_sqrtExactAt,
    by norm_num [NewtonianMass.kineticEnergy, movingA, movingB, NewtonianMass.new, dot],
    collision_elastic ratLibm movingA movingB 1 1 rfl rfl hma hmb moving_ne hov
      moving_sqrtExactAt rfl rfl rfl rfl⟩

end EnergyContracts

section LifetimeContracts
variable {K : Type} [LinearOrderedField K] [FloorRing K]

/-- C34: for every NormalSolid (or Ship) constructed with lifetime budget `Lf > 0`, and for
every sequence of `dt` values, after the `step` calls of the sequence the age is the number
of calls, whatever the values, and the entity is dead if and only if that number is greater
than `Lf`: it is alive after each of its first `Lf` steps and dead after step `Lf + 1`. -/
theorem lifetime_in_steps (L : Libm K) (s₀ : Solid K) (pMass : NewtonianMass K)
    (H Lf d : Int) (hnew : s₀.toNormalSolid = NormalSolid.new pMass H Lf d) (hL : 0 < Lf)
    (dts : List K) :
    (SolidCall.runAll L (dts.map SolidCall.step) s₀).toNormalSolid.age = (dts.length : K)
      ∧ ((SolidCall.runAll L (dts.map SolidCall.step) s₀).isDead = true
          ↔ Lf < (dts.length : Int))
      ∧ ((dts.length : Int) ≤ Lf →
          (SolidCall.runAll L (dts.map SolidCall.step) s₀).isDead = false)
      ∧ ((dts.length : Int) = Lf + 1 →
          (SolidCall.runAll L (dts.map SolidCall.step) s₀).isDead = true) := by
  have key : ∀ (dts : List K) (s : Solid K) (n : Nat),
      s.toNormalSolid.life = Lf → s.toNormalSolid.age = (n : K)
        → (s.toNormalSolid.dead = true ↔ Lf < (n : Int)) →
      (SolidCall.runAll L (dts.map SolidCall.step) s).toNormalSolid.age
          = ((n + dts.length : Nat) : K)
        ∧ ((SolidCall.runAll L (dts.map SolidCall.step) s).toNormalSolid.dead = true
            ↔ Lf < ((n + dts.length : Nat) : Int)) := by
    intro dts
    induction dts with
    | nil =>
      intro s n _ ha hd
      exact ⟨by simpa using ha, by simpa using hd⟩
    | cons dt rest ih =>
      intro s n hl ha hd
      have hrun : SolidCall.runAll L ((dt :: rest).map SolidCall.step) s
          = SolidCall.runAll L (rest.map SolidCall.step) ((SolidCall.step dt).run L s) := rfl
      rw [hrun]
      obtain ⟨_, r2, r3⟩ := SolidCall.run_life L (SolidCall.step dt) s
      have hstep : ((SolidCall.step dt).run L s).toNormalSolid.age = s.toNormalSolid.age + 1
          ∧ (((SolidCall.step dt).run L s).toNormalSolid.dead = true ↔
              s.toNormalSolid.dead = true
                ∨ (s.toNormalSolid.life ≠ 0
                    ∧ ((SolidCall.step dt).run L s).toNormalSolid.age
                        > (s.toNormalSolid.life : K))) := by
        rcases r3 with ⟨impulse, hc, _⟩ | ⟨deltaTime, _, _, e2, e3⟩ | ⟨_, e2, e3⟩
        · exact absurd hc (by simp)
        · exact ⟨e2, e3⟩
        · exfalso
          obtain ⟨n', hn', _, _, _, h4, _⟩ := Solid.step_toNormalSolid L s dt
          have : ((SolidCall.step dt).run L s).toNormalSolid.age = s.toNormalSolid.age + 1 := by
            show (Mass.step L s dt).toNormalSolid.age = _
            rw [hn', ← h4]
            simp only [NormalSolid.step, NormalSolid.die]
            split_ifs <;> rfl
          rw [e2] at this
          linarith
      have hage : ((SolidCall.step dt).run L s).toNormalSolid.age = ((n + 1 : Nat) : K) := by
        rw [hstep.1, ha]
        push_cast
        ring
      have hdead : (((SolidCall.step dt).run L s).toNormalSolid.dead = true
          ↔ Lf < ((n + 1 : Nat) : Int)) := by
        rw [hstep.2, hd, hl, hage]
        have hcast : ((((n + 1 : Nat) : K)) > (Lf : K)) ↔ Lf < ((n + 1 : Nat) : Int) := by
          have : (((n + 1 : Nat) : K)) = (((n + 1 : Nat) : Int) : K) := by push_cast; ring
          rw [this, gt_iff_lt, Int.cast_lt]
        rw [hcast]
        constructor
        · rintro (h | ⟨_, h⟩)
          · push_cast at h ⊢
            linarith
          · exact h
        · intro h
          exact Or.inr ⟨ne_of_gt hL, h⟩
      obtain ⟨i1, i2⟩ := ih ((SolidCall.step dt).run L s) (n + 1) (r2.trans hl) hage hdead
      have hlen : n + 1 + rest.length = n + (dt :: rest).length := by
        simp only [List.length_cons]
        omega
      rw [hlen] at i1 i2
      exact ⟨i1, i2⟩
  have h0 := key dts s₀ 0 (by rw [hnew]; rfl) (by rw [hnew]; simp [NormalSolid.new])
    (by rw [hnew]; simp [NormalSolid.new]; omega)
  rw [Nat.zero_add] at h0
  have hdead : (SolidCall.runAll L (dts.map SolidCall.step) s₀).isDead = true
      ↔ Lf < (dts.length : Int) := h0.2
  refine ⟨h0.1, hdead, ?_, ?_⟩
  · intro h
    have : ¬ (SolidCall.runAll L (dts.map SolidCall.step) s₀).isDead = true := by
      rw [hdead]
      omega
    simpa using this
  · intro h
    rw [hdead]
    omega

/-- Witness for C34: an explosion (lifetime 50) is not dead after three steps. -/
theorem lifetime_in_steps_witness :
    (0 : Int) < 50
      ∧ (SolidCall.runAll ratLibm ([1, 2, 7].map SolidCall.step)
          (newExplosion ⟨0, 0⟩ ⟨0, 0⟩)).toNormalSolid.age = 3
      ∧ (SolidCall.runAll ratLibm ([1, 2, 7].map SolidCall.step)
          (newExplosion ⟨0, 0⟩ ⟨0, 0⟩)).isDead = false :=
  ⟨by decide,
    by
      have h := (lifetime_in_steps ratLibm (newExplosion ⟨0, 0⟩ ⟨0, 0⟩)
        (NewtonianMass.new 100 200 10 ⟨0, 0⟩ ⟨0, 0⟩ 0 0.1) 100 50 2 rfl (by decide)
        [1, 2, 7]).1
      simpa using h,
    (lifetime_in_steps ratLibm (newExplosion ⟨0, 0⟩ ⟨0, 0⟩)
      (NewtonianMass.new 100 200 10 ⟨0, 0⟩ ⟨0, 0⟩ 0 0.1) 100 50 2 rfl (by decide)
      [1, 2, 7]).2.2.1 (by decide)⟩

end LifetimeContracts

section TerminationContracts
variable {K : Type} [LinearOrderedField K]
open Universe

/-- C35 (the code fails it): the loops of `normalizeAll` end on every universe of
NormalSolids and Ships, but the call does not return: control reaches the closing brace of
the function, which has no `return` statement, and the behaviour is undefined there.  A
NormalSolid never has a spawn, and for a Ship `hasSpawn()` is false immediately after
`nextSpawn()`, so the drain loop of a solid ends after at most one iteration (the fuel 1 is
enough); where the active handles are allocated, the statements of the body allocate one
solid for each dead solid that is not an effect and one for each ship that is waiting to
fire, each such ship counted once. -/
theorem normalizeAll_terminates (L : Libm K) (fuel : Nat) (h : Heap K) (u : Universe) :
    (∀ r, normalizeAll L (fuel + 1) h u ≠ Outcome.returns r)
      ∧ (∃ s, normalizeAll L (fuel + 1) h u = Outcome.undefined s)
      ∧ (∀ n : NormalSolid K, (Solid.normal n).hasSpawn = false)
      ∧ (∀ s : Ship K, ∃ sp, (Solid.ship s).nextSpawn L = some (Solid.ship (s.nextSpawn L).1, sp)
          ∧ (Solid.ship (s.nextSpawn L).1).hasSpawn = false)
      ∧ (∀ p : Nat, ∃ r, drainSpawns L 1 p h u = some r
          ∧ (r.2.addList = u.addList ∨ ∃ q, r.2.addList = u.addList ++ [q]))
      ∧ ((∀ p ∈ u.allSolids, p < h.next) →
          ∃ (h' : Heap K) (u' : Universe),
            normalizeAll L (fuel + 1) h u = Outcome.undefined (h', u')
              ∧ h'.next = h.next + (deadNonEffects h u.allSolids).length
                  + (spawners h u.allSolids).length
              ∧ (spawners h u.allSolids).Nodup
              ∧ ∀ p ∈ spawners h u.allSolids, ∃ s : Ship K, h.get p = Solid.ship s) := by
  refine ⟨normalizeAll_ne_returns L (fuel + 1) h u, ?_, fun _ => rfl, fun s => ⟨_, rfl, rfl⟩,
    ?_, ?_⟩
  · obtain ⟨h', extra, hn⟩ := normalizeAllBody_frame L fuel h u
    exact ⟨_, normalizeAll_of_body L (fuel + 1) h u _ hn⟩
  · intro p
    cases hs : (h.get p).hasSpawn with
    | true =>
      obtain ⟨sp, hn⟩ := Solid.nextSpawn_of_hasSpawn L (h.get p) hs
      exact ⟨_, drainSpawns_of_hasSpawn L 0 p h u sp hn hs, Or.inr ⟨h.next, rfl⟩⟩
    | false =>
      exact ⟨_, drainSpawns_of_not_hasSpawn L 1 p h u hs, Or.inl rfl⟩
  · intro hv
    obtain ⟨h', hn, hnext, _⟩ := normalizeAllBody_spec L fuel h u hv
    refine ⟨h', _, normalizeAll_of_body L (fuel + 1) h u _ hn, hnext,
      firstOccurrences_nodup _, ?_⟩
    intro p hp
    have hsp := ((mem_spawners h p u.allSolids).mp hp).2
    cases hg : h.get p with
    | normal n => rw [hg] at hsp; simp [Solid.hasSpawn, NormalSolid.hasSpawn] at hsp
    | ship s => exact ⟨s, rfl⟩

end TerminationContracts

section TerminationWitness
open Universe

/-- Witness for C35: on `sampleUniverse`, where the ship `0` is waiting to fire, control
reaches the closing brace of `normalizeAll` after two solids have been allocated, an
explosion and a missile, and the call does not return. -/
theorem normalizeAll_terminates_witness :
    (∀ p ∈ sampleUniverse.allSolids, p < sampleHeap.next)
      ∧ spawners sampleHeap sampleUniverse.allSolids = [0]
      ∧ (∀ r, normalizeAll ratLibm 1 sampleHeap sampleUniverse ≠ Outcome.returns r)
      ∧ ∃ (h' : Heap ℚ) (u' : Universe),
          normalizeAll ratLibm 1 sampleHeap sampleUniverse = Outcome.undefined (h', u')
            ∧ h'.next = sampleHeap.next + 1 + 1 := by
  have hv : ∀ p ∈ sampleUniverse.allSolids, p < sampleHeap.next := by decide
  obtain ⟨h', u', hn, hnext, _⟩ :=
    (normalizeAll_terminates ratLibm 0 sampleHeap sampleUniverse).2.2.2.2.2 hv
  have hD : deadNonEffects sampleHeap sampleUniverse.allSolids = [1] := by decide
  have hF : spawners sampleHeap sampleUniverse.allSolids = [0] := by decide
  rw [hD, hF] at hnext
  exact ⟨hv, hF, (normalizeAll_terminates ratLibm 0 sampleHeap sampleUniverse).1,
    h', u', hn, hnext⟩

end TerminationWitness

section HitOffsetContracts
variable {K : Type} [LinearOrderedField K] [FloorRing K]

/-- C36: for every NormalSolid (or Ship), every impulse and every offset,
`hit(impulse, offset)` leaves the accumulated damage and the liveness flag unchanged, while
it adds the impulse to the impulse accumulator of the underlying mass; only the one-argument
`hit(impulse)` accrues damage, the magnitude of the impulse. -/
theorem hit_offset_no_damage (L : Libm K) (s : Solid K) (impulse offset : Vector2d K) :
    (Mass.hitOffset L s impulse offset).toNormalSolid.damage = s.toNormalSolid.damage
      ∧ (Mass.hitOffset L s impulse offset).isDead = s.isDead
      ∧ (Mass.hitOffset L s impulse offset).toNormalSolid.pMass.isum
          = s.toNormalSolid.pMass.isum + impulse
      ∧ (Mass.hit L s impulse).toNormalSolid.damage
          = s.toNormalSolid.damage + impulse.magnitude L
      ∧ (Mass.hit L s impulse).toNormalSolid.pMass.isum
          = s.toNormalSolid.pMass.isum + impulse := by
  have h1 : (Mass.hitOffset L s impulse offset).toNormalSolid
      = s.toNormalSolid.hitOffset L impulse offset :=
    Solid.toNormalSolid_mapNormalSolid _ s
  have h2 : (Mass.hit L s impulse).toNormalSolid = s.toNormalSolid.hit L impulse :=
    Solid.toNormalSolid_mapNormalSolid _ s
  refine ⟨?_, ?_, ?_, ?_, ?_⟩
  · rw [h1]; rfl
  · show (Mass.hitOffset L s impulse offset).toNormalSolid.dead = s.toNormalSolid.dead
    rw [h1]; rfl
  · rw [h1]
    simp only [NormalSolid.hitOffset, Mass.hitOffsetDefault, NewtonianMass.hit,
      NewtonianMass.twist]
    split_ifs <;> rfl
  · rw [h2]
    simp only [NormalSolid.hit, NormalSolid.die]
    split_ifs <;> rfl
  · rw [h2]
    simp only [NormalSolid.hit, NormalSolid.die, NewtonianMass.hit]
    split_ifs <;> rfl

/-- Witness for C36: a missile (hit-point budget 2) is alive after `hit((3, 4), (5, 0))`, an
impulse of magnitude 5, and dead after `hit((3, 4))`. -/
theorem hit_offset_no_damage_witness :
    (Mass.hitOffset ratLibm (newMissle (⟨0, 0⟩ : Vector2d ℚ) ⟨1, 0⟩) ⟨3, 4⟩ ⟨5, 0⟩).isDead
        = false
      ∧ (Mass.hitOffset ratLibm (newMissle (⟨0, 0⟩ : Vector2d ℚ) ⟨1, 0⟩) ⟨3, 4⟩
          ⟨5, 0⟩).toNormalSolid.damage = 0
      ∧ (Mass.hit ratLibm (newMissle (⟨0, 0⟩ : Vector2d ℚ) ⟨1, 0⟩) ⟨3, 4⟩).toNormalSolid.damage
          = 5
      ∧ (Mass.hit ratLibm (newMissle (⟨0, 0⟩ : Vector2d ℚ) ⟨1, 0⟩) ⟨3, 4⟩).isDead = true := by
  have h5 : ratLibm.sqrt 25 = 5 := ratLibm_sqrt_of_eq 5 25 (by norm_num)
  have hmag : (⟨3, 4⟩ : Vector2d ℚ).magnitude ratLibm = 5 := by
    norm_num [Vector2d.magnitude, h5]
  obtain ⟨e1, e2, _, e4, _⟩ :=
    hit_offset_no_damage ratLibm (newMissle (⟨0, 0⟩ : Vector2d ℚ) ⟨1, 0⟩) ⟨3, 4⟩ ⟨5, 0⟩
  refine ⟨e2, e1, ?_, ?_⟩
  · rw [e4, hmag]
    norm_num [newMissle, NormalSolid.new, Solid.toNormalSolid]
  · show ((Solid.mapNormalSolid (fun n => n.hit ratLibm ⟨3, 4⟩)
        (newMissle (⟨0, 0⟩ : Vector2d ℚ) ⟨1, 0⟩)).toNormalSolid).dead = true
    rw [Solid.toNormalSolid_mapNormalSolid]
    simp only [NormalSolid.hit, NormalSolid.die, hmag]
    norm_num [newMissle, NormalSolid.new, Solid.toNormalSolid]

end HitOffsetContracts

section PopulationContracts
variable {K : Type} [LinearOrderedField K] [FloorRing K]
open Universe

/-- C37: for every active set, when `interactAll` returns, the vector sum over the entries
of the active list of the force accumulators, and of the impulse accumulators, is what it was
before; so when all entities start with empty accumulators, both sums are the zero vector
after `interactAll`.  (And `interactAll` returns whenever no entity that is not an effect
occurs twice in the active list.) -/
theorem interactAll_third_law (L : Libm K) (h : Heap K) (u : Universe) :
    (∀ (h' : Heap K) (u' : Universe), interactAll L h u = some (h', u') →
        sumForce h' u'.allSolids = sumForce h u.allSolids
          ∧ sumImpulse h' u'.allSolids = sumImpulse h u.allSolids
          ∧ ((∀ p ∈ u.allSolids, (h.get p).toNormalSolid.pMass.fsum = ⟨0, 0⟩
                ∧ (h.get p).toNormalSolid.pMass.isum = ⟨0, 0⟩) →
              sumForce h' u'.allSolids = ⟨0, 0⟩ ∧ sumImpulse h' u'.allSolids = ⟨0, 0⟩))
      ∧ ((nonEffects h u.allSolids).Nodup → ∃ h' : Heap K, interactAll L h u = some (h', u)) := by
  rw [interactAll_eq]
  constructor
  · intro h' u' hr
    by_cases hn : (nonEffects h u.allSolids).Nodup
    · rw [if_pos hn] at hr
      simp only [Option.some.injEq, Prod.mk.injEq] at hr
      obtain ⟨hh, hu⟩ := hr
      subst hu
      subst hh
      have hp : ∀ pq ∈ interactionPairs h u.allSolids,
          pq.1 ≠ pq.2 ∧ u.allSolids.count pq.1 = u.allSolids.count pq.2 := by
        intro pq hpq
        rw [← pairsOf_nonEffects] at hpq
        have hne := (pairsOf_nodup _ hn).2 pq hpq
        obtain ⟨m1, m2⟩ := mem_pairsOf _ pq.1 pq.2 hpq
        have hcount : ∀ x ∈ nonEffects h u.allSolids, u.allSolids.count x = 1 := by
          intro x hx
          have hx' := (List.mem_filter.mp hx).2
          have hx'' : (fun p => (h.get p).descriptor != 2) x = true := hx'
          have : (nonEffects h u.allSolids).count x = u.allSolids.count x :=
            List.count_filter hx''
          rw [← this]
          exact List.count_eq_one_of_mem hn hx
        exact ⟨hne, by rw [hcount _ m1, hcount _ m2]⟩
      obtain ⟨s1, s2⟩ := interactPairs_sums L u.allSolids _ hp h
      refine ⟨s1, s2, ?_⟩
      intro h0
      rw [s1, s2]
      constructor
      · simp only [sumForce]
        congr 1
        · apply List.sum_eq_zero
          intro x hx
          obtain ⟨p, hp, rfl⟩ := List.mem_map.mp hx
          rw [(h0 p hp).1]
        · apply List.sum_eq_zero
          intro x hx
          obtain ⟨p, hp, rfl⟩ := List.mem_map.mp hx
          rw [(h0 p hp).1]
      · simp only [sumImpulse]
        congr 1
        · apply List.sum_eq_zero
          intro x hx
          obtain ⟨p, hp, rfl⟩ := List.mem_map.mp hx
          rw [(h0 p hp).2]
        · apply List.sum_eq_zero
          intro x hx
          obtain ⟨p, hp, rfl⟩ := List.mem_map.mp hx
          rw [(h0 p hp).2]
    · rw [if_neg hn] at hr
      exact absurd hr (by simp)
  · intro hn
    rw [if_pos hn]
    exact ⟨_, rfl⟩

/-- Witness for C37: in `rockUniverse` (two rocks and an explosion, fresh from their
factories) the sums of the accumulators are zero after `interactAll`. -/
theorem interactAll_third_law_witness :
    (nonEffects rockHeap rockUniverse.allSolids).Nodup
      ∧ ∃ h' : Heap ℚ,
          interactAll ratLibm rockHeap rockUniverse = some (h', rockUniverse)
            ∧ sumForce h' rockUniverse.allSolids = ⟨0, 0⟩
            ∧ sumImpulse h' rockUniverse.allSolids = ⟨0, 0⟩ := by
  have hn : (nonEffects rockHeap rockUniverse.allSolids).Nodup := by decide
  obtain ⟨h', hr⟩ := (interactAll_third_law ratLibm rockHeap rockUniverse).2 hn
  have h0 : ∀ p ∈ rockUniverse.allSolids,
      (rockHeap.get p).toNormalSolid.pMass.fsum = ⟨0, 0⟩
        ∧ (rockHeap.get p).toNormalSolid.pMass.isum = ⟨0, 0⟩ := by
    intro p hp
    simp only [rockUniverse, List.mem_cons, List.mem_singleton, List.not_mem_nil, or_false]
      at hp
    rcases hp with rfl | rfl | rfl <;> exact ⟨rfl, rfl⟩
  obtain ⟨_, _, hz⟩ :=
    (interactAll_third_law ratLibm rockHeap rockUniverse).1 h' rockUniverse hr
  exact ⟨hn, h', hr, (hz h0).1, (hz h0).2⟩

end PopulationContracts

section SeparationContracts
variable {K : Type} [LinearOrderedField K] [FloorRing K]

/-- C38: for every pair of masses with distinct centres at distance `r` with
`0 < r ≤ radius(a) + radius(b)`, after `collision(a, b)` the distance between the centres is
exactly `r + 2*(radius(a) + radius(b) - r + 1) = 2*(radius(a) + radius(b)) - r + 2`, which is
at least `radius(a) + radius(b) + 2`, so the two bodies no longer overlap: a second
`collision` leaves them as they are.  The square root is exact at the squared distances
before and after. -/
theorem collision_ends_overlap (L : Libm K) (a b : NewtonianMass K)
    (hpos : 0 < (b.p - a.p).magnitude L)
    (hle : (b.p - a.p).magnitude L ≤ a.r + b.r)
    (hs : L.SqrtExactAt (dot (b.p - a.p) (b.p - a.p)))
    (hs' : L.SqrtExactAt (dot ((collision L a b).2.p - (collision L a b).1.p)
      ((collision L a b).2.p - (collision L a b).1.p))) :
    ((collision L a b).2.p - (collision L a b).1.p).magnitude L
        = (b.p - a.p).magnitude L + 2 * ((a.r + b.r) - (b.p - a.p).magnitude L + 1)
      ∧ ((collision L a b).2.p - (collision L a b).1.p).magnitude L
        = 2 * (a.r + b.r) - (b.p - a.p).magnitude L + 2
      ∧ a.r + b.r + 2 ≤ ((collision L a b).2.p - (collision L a b).1.p).magnitude L
      ∧ ((collision L a b).1.r + (collision L a b).2.r)
          - ((collision L a b).2.p - (collision L a b).1.p).magnitude L < 0
      ∧ collision L (collision L a b).1 (collision L a b).2 = collision L a b := by
  have hd := collision_distance L a b hpos hle hs hs'
  have hc := collision_of_overlap L a b (by linarith)
  have hr1 : (collision L a b).1.r = a.r := by rw [hc]
  have hr2 : (collision L a b).2.r = b.r := by rw [hc]
  have hlt : ((collision L a b).1.r + (collision L a b).2.r)
      - ((collision L a b).2.p - (collision L a b).1.p).magnitude L < 0 := by
    rw [hr1, hr2, hd]
    linarith
  refine ⟨hd, ?_, ?_, hlt, collision_of_apart L _ _ hlt⟩
  · rw [hd]
    ring
  · rw [hd]
    linarith

/-- Witness for C38: the two-body scenario (radii 20 and 35, centres 10 apart): the centres
are 102 apart after `collision`. -/
theorem collision_ends_overlap_witness :
    0 < (scenarioB.p - scenarioA.p).magnitude ratLibm
      ∧ (scenarioB.p - scenarioA.p).magnitude ratLibm ≤ scenarioA.r + scenarioB.r
      ∧ ((collision ratLibm scenarioA scenarioB).2.p
            - (collision ratLibm scenarioA scenarioB).1.p).magnitude ratLibm
          = 2 * (scenarioA.r + scenarioB.r) - (scenarioB.p - scenarioA.p).magnitude ratLibm + 2
      ∧ collision ratLibm (collision ratLibm scenarioA scenarioB).1
            (collision ratLibm scenarioA scenarioB).2
          = collision ratLibm scenarioA scenarioB :=
  have hpos : 0 < (scenarioB.p - scenarioA.p).magnitude ratLibm := by
    rw [scenario_magnitude]; norm_num
  have hle : (scenarioB.p - scenarioA.p).magnitude ratLibm ≤ scenarioA.r + scenarioB.r := by
    rw [scenario_magnitude]; norm_num [scenarioA, scenarioB, NewtonianMass.new]
  have hs' : ratLibm.SqrtExactAt
      (dot ((collision ratLibm scenarioA scenarioB).2.p
              - (collision ratLibm scenarioA scenarioB).1.p)
           ((collision ratLibm scenarioA scenarioB).2.p
              - (collision ratLibm scenarioA scenarioB).1.p)) := by
    rw [scenario_collision_sub]; exact ratLibm_sqrtExactAt 102 _ (by norm_num [dot])
  ⟨hpos, hle,
    (collision_ends_overlap ratLibm scenarioA scenarioB hpos hle scenario_sqrtExactAt hs').2.1,
    (collision_ends_overlap ratLibm scenarioA scenarioB hpos hle scenario_sqrtExactAt
      hs').2.2.2.2⟩

/-- C39: for every pair of masses whose centres coincide (with radii whose sum is not
negative, and a square root that is exact at `0`), `collision(a, b)` takes the overlapping
branch, but the axis `unit(0)` is the zero vector: both translations and the impulse are
zero, and the two bodies are left exactly as they are, fully overlapping; likewise
`gravitate(a, b)` applies the zero force to both. -/
theorem coincident_centres (L : Libm K) (a b : NewtonianMass K)
    (hp : a.p = b.p) (h0 : L.SqrtExactAt 0) (hr : 0 ≤ a.r + b.r) :
    ¬ ((a.r + b.r) - (b.p - a.p).magnitude L < 0)
      ∧ (b.p - a.p).unit L = ⟨0, 0⟩
      ∧ (∀ c : K, (- (b.p - a.p).unit L) * c = ⟨0, 0⟩ ∧ (b.p - a.p).unit L * c = ⟨0, 0⟩
          ∧ - ((b.p - a.p).unit L * c) = ⟨0, 0⟩)
      ∧ collision L a b = (a, b)
      ∧ (collision L a b).2.p - (collision L a b).1.p = ⟨0, 0⟩
      ∧ gravitate L a b = (a, b) := by
  have hR : b.p - a.p = ⟨0, 0⟩ := by
    rw [hp]
    ext <;> simp
  have hs0 : L.sqrt 0 = 0 := Libm.sqrt_eq_of_sqrtExactAt L 0 0 h0 le_rfl (mul_zero 0)
  have hmag : (b.p - a.p).magnitude L = 0 := by
    rw [hR]
    simp [Vector2d.magnitude, hs0]
  have hu : (b.p - a.p).unit L = ⟨0, 0⟩ :=
    Vector2d.unit_of_not_pos L _ (by rw [hmag]; exact lt_irrefl 0)
  have hov : ¬ ((a.r + b.r) - (b.p - a.p).magnitude L < 0) := by
    rw [hmag]
    linarith
  have hz : ∀ c : K, (- (⟨0, 0⟩ : Vector2d K)) * c = ⟨0, 0⟩ ∧ (⟨0, 0⟩ : Vector2d K) * c = ⟨0, 0⟩
      ∧ - ((⟨0, 0⟩ : Vector2d K) * c) = ⟨0, 0⟩ := by
    intro c
    refine ⟨?_, ?_, ?_⟩ <;> ext <;> simp
  have hadd : ∀ v : Vector2d K, v + ⟨0, 0⟩ = v := by
    intro v
    ext <;> simp
  have e2 : - (⟨0, 0⟩ : Vector2d K) = ⟨0, 0⟩ := by ext <;> simp
  have hcol : collision L a b = (a, b) := by
    rw [collision_of_overlap L a b hov, hu]
    simp only [(hz _).1, (hz _).2.1, (hz _).2.2, e2, hadd]
  have hgrav : gravitate L a b = (a, b) := by
    unfold gravitate
    simp only [Mass.position, Mass.push, NewtonianMass.position, NewtonianMass.push, hu]
    have e1 : ∀ f : K, f * (⟨0, 0⟩ : Vector2d K) = ⟨0, 0⟩ := by
      intro f
      ext <;> simp
    simp only [e1, e2, hadd]
  refine ⟨hov, hu, ?_, hcol, ?_, hgrav⟩
  · intro c
    rw [hu]
    exact hz c
  · rw [hcol]
    exact hR

/-- Witness for C39: `scenarioA` and `coincidentB`, both at the origin. -/
theorem coincident_centres_witness :
    scenarioA.p = coincidentB.p ∧ ratLibm.SqrtExactAt 0 ∧ 0 ≤ scenarioA.r + coincidentB.r
      ∧ collision ratLibm scenarioA coincidentB = (scenarioA, coincidentB)
      ∧ gravitate ratLibm scenarioA coincidentB = (scenarioA, coincidentB) :=
  have h0 : ratLibm.SqrtExactAt 0 := ratLibm_sqrtExactAt 0 _ (by norm_num)
  have hr : 0 ≤ scenarioA.r + coincidentB.r := by
    norm_num [scenarioA, coincidentB, NewtonianMass.new]
  ⟨rfl, h0, hr, (coincident_centres ratLibm scenarioA coincidentB rfl h0 hr).2.2.2.1,
    (coincident_centres ratLibm scenarioA coincidentB rfl h0 hr).2.2.2.2.2⟩

end SeparationContracts

section FrictionSpeedContracts
variable {K : Type} [LinearOrderedField K] [FloorRing K]

/-- C40: for every FrictionMass with nonzero mass, nonzero velocity `v`, empty force and
impulse accumulators, velocity-friction coefficient `k` and time step `dt`, the velocity after
`step(dt)` is `(1 - k*dt)*v`: the speed after the step is less than or equal to the speed
before if and only if `0 ≤ k*dt ≤ 2`, and for `k*dt > 2` it is strictly greater.  The speeds
are compared by their squares, and as magnitudes where the square root is exact at both
squares. -/
theorem friction_speed (L : Libm K) (s : NewtonianMass K) (k kt dt : K)
    (hcls : s.cls = MassClass.friction k kt) (hm : s.m ≠ 0) (hv : s.v ≠ ⟨0, 0⟩)
    (hf : s.fsum = 0) (hi : s.isum = 0) :
    (s.step dt).v = (1 - k * dt) * s.v
      ∧ (dot (s.step dt).v (s.step dt).v ≤ dot s.v s.v ↔ 0 ≤ k * dt ∧ k * dt ≤ 2)
      ∧ (2 < k * dt → dot s.v s.v < dot (s.step dt).v (s.step dt).v)
      ∧ (L.SqrtExactAt (dot s.v s.v) → L.SqrtExactAt (dot (s.step dt).v (s.step dt).v) →
          ((s.step dt).v.magnitude L ≤ s.v.magnitude L ↔ 0 ≤ k * dt ∧ k * dt ≤ 2)
            ∧ (2 < k * dt → s.v.magnitude L < (s.step dt).v.magnitude L)) := by
  have he := NewtonianMass.friction_step_v_of_empty s k kt dt hcls hm hf hi
  have hpos := dot_self_pos s.v hv
  have hd : dot (s.step dt).v (s.step dt).v = (1 - k * dt) * (1 - k * dt) * dot s.v s.v := by
    rw [he, dot_smul_self]
  have hle : dot (s.step dt).v (s.step dt).v ≤ dot s.v s.v ↔ 0 ≤ k * dt ∧ k * dt ≤ 2 := by
    rw [hd]
    constructor
    · intro h
      have h1 : (1 - k * dt) * (1 - k * dt) ≤ 1 := by
        by_contra hc
        have := mul_lt_mul_of_pos_right (not_le.mp hc) hpos
        linarith
      constructor <;> nlinarith
    · rintro ⟨h1, h2⟩
      have h3 : (1 - k * dt) * (1 - k * dt) ≤ 1 := by nlinarith
      have := mul_le_mul_of_nonneg_right h3 (le_of_lt hpos)
      linarith
  have hlt : 2 < k * dt → dot s.v s.v < dot (s.step dt).v (s.step dt).v := by
    intro h
    rw [hd]
    have h3 : 1 < (1 - k * dt) * (1 - k * dt) := by nlinarith
    have := mul_lt_mul_of_pos_right h3 hpos
    linarith
  refine ⟨he, hle, hlt, ?_⟩
  intro hs hs'
  obtain ⟨m1, m2⟩ := magnitude_le_iff L s.v (s.step dt).v hs hs'
  exact ⟨m1.trans hle, fun h => m2.mpr (hlt h)⟩

/-- Witness for C40: a ship's mass with velocity `(3, 4)` and coefficient `0.0002`; with
`dt = 1` the speed does not grow, with `dt = 15000` (`k*dt = 3`) the velocity is `-2*v`. -/
theorem friction_speed_witness :
    (NewtonianMass.newFriction 100 2000 12 ⟨0, 0⟩ ⟨3, 4⟩ 0 0 0.0002 0.002 : NewtonianMass ℚ).m ≠ 0
      ∧ (NewtonianMass.newFriction 100 2000 12 ⟨0, 0⟩ ⟨3, 4⟩ 0 0 0.0002 0.002 :
          NewtonianMass ℚ).v ≠ ⟨0, 0⟩
      ∧ dot ((NewtonianMass.newFriction 100 2000 12 ⟨0, 0⟩ ⟨3, 4⟩ 0 0 0.0002 0.002 :
            NewtonianMass ℚ).step 1).v
          ((NewtonianMass.newFriction 100 2000 12 ⟨0, 0⟩ ⟨3, 4⟩ 0 0 0.0002 0.002 :
            NewtonianMass ℚ).step 1).v
          ≤ dot (⟨3, 4⟩ : Vector2d ℚ) ⟨3, 4⟩
      ∧ dot (⟨3, 4⟩ : Vector2d ℚ) ⟨3, 4⟩
          < dot ((NewtonianMass.newFriction 100 2000 12 ⟨0, 0⟩ ⟨3, 4⟩ 0 0 0.0002 0.002 :
              NewtonianMass ℚ).step 15000).v
            ((NewtonianMass.newFriction 100 2000 12 ⟨0, 0⟩ ⟨3, 4⟩ 0 0 0.0002 0.002 :
              NewtonianMass ℚ).step 15000).v :=
  have hm : (NewtonianMass.newFriction 100 2000 12 ⟨0, 0⟩ ⟨3, 4⟩ 0 0 0.0002 0.002 :
      NewtonianMass ℚ).m ≠ 0 := by norm_num [NewtonianMass.newFriction, NewtonianMass.new]
  have hv : (NewtonianMass.newFriction 100 2000 12 ⟨0, 0⟩ ⟨3, 4⟩ 0 0 0.0002 0.002 :
      NewtonianMass ℚ).v ≠ ⟨0, 0⟩ := by
    intro h
    have := congrArg Vector2d.x h
    norm_num [NewtonianMass.newFriction, NewtonianMass.new] at this
  ⟨hm, hv,
    (friction_speed ratLibm _ 0.0002 0.002 1 rfl hm hv rfl rfl).2.1.mpr
      ⟨by norm_num, by norm_num⟩,
    (friction_speed ratLibm _ 0.0002 0.002 15000 rfl hm hv rfl rfl).2.2.1 (by norm_num)⟩

end FrictionSpeedContracts

end PatternSpace
